import Mathlib

/-!
The class `sequoia::utils::Params` and the helpers of `sequoia::utils`.

A shallow embedding of the typed parameter store of `sequoia/utils/params.h`
and `sequoia/utils/params.cc`, of the string and rounding helpers of
`sequoia/utils/arithmetic.h` and of the `int32_t` conversions of
`sequoia/utils/any_to_string.h`, followed by theorems about them.

Modelling conventions.
* `std::string` is `String`; keys are compared the way `std::less<std::string>`
  compares them, lexicographically character by character (`String.data`).
* `int` and `int64_t` are integers confined to their two's complement range;
  `static_cast` between them is the value-preserving widening, resp. the
  reduction modulo `2^32`.
* `double` is carried as its 64-bit IEEE-754 pattern; `<` and `==` on it are
  the IEEE comparisons (false on a NaN, the two zeros equal).
* `std::any` is a tagged value: one of the four supported types, empty, or a
  value of some other type (identified by the name of that type).
* `std::map<std::string, std::any>` is a list of entries with strictly
  ascending keys.
* A member function that mutates the store returns its result together with
  the store it leaves behind; a thrown exception is the `Except.error` result.
* A function of the type registry returns `none` when its `std::any_cast`
  throws; `operator==`, `operator<=>` and `to_string` return `none` when such
  an exception leaves them.
* An output stream is the text written so far, its `boolalpha` flag, and the
  conversion of a `double` to text, which is left as a parameter; integers are
  written in decimal (the other format flags are at their defaults).
* In `arithmetic.h` a `std::string_view` is the list of its characters, a
  byte is a number below 256, and a position is a natural number with `none`
  for `npos`; `roundEx` and `ceilEx` are taken at `double`, whose arithmetic
  is computed exactly and rounded once to the nearest `double`, ties to even.
* A class that holds one of the two macros is the record of the members the
  macro adds. For `PARAMETERS_SUPPORT_WITH_CHECK` the two checks, which the
  host class defines, are parameters, and every call of a check or of
  `ParamChanged` is recorded with the store it finds. `ParamChanged` returns
  and leaves the store alone, except in `SetParam_with` and
  `GetParamFromOther_with`, where what it does to the store is a parameter
  too.
-/

namespace sequoia.utils

/-! ## Scalar types -/

/-- C++ `int`, 32 bits. -/
structure CInt where
  val : Int
  lo : -2147483648 ≤ val
  hi : val ≤ 2147483647
deriving DecidableEq

/-- C++ `int64_t`. -/
structure CInt64 where
  val : Int
  lo : -9223372036854775808 ≤ val
  hi : val ≤ 9223372036854775807
deriving DecidableEq

/-- C++ `double`, as its 64-bit pattern. -/
abbrev CDouble : Type := Fin 18446744073709551616

/-- Conversion `static_cast<int64_t>(int)`: every `int` is representable. -/
def static_cast_int64 (v : CInt) : CInt64 :=
  ⟨v.val, by have h := v.lo; omega, by have h := v.hi; omega⟩

/-- Conversion `static_cast<int>(int64_t)`: the unique `int` congruent to the
argument modulo `2^32`. -/
def static_cast_int (v : CInt64) : CInt :=
  ⟨(v.val + 2147483648) % 4294967296 - 2147483648, by omega, by omega⟩

/-! ## Run-time type identity and `std::any` -/

/-- The `std::type_info` of a value held by a `std::any`. -/
inductive TypeId where
  | bool
  | int
  | int64
  | double
  | void
  | other (name : String)
deriving DecidableEq, Repr

/-- A `std::any`: a value of a supported type, no value, or a value of
another type. -/
inductive StdAny where
  | ofBool (v : Bool)
  | ofInt (v : CInt)
  | ofInt64 (v : CInt64)
  | ofDouble (v : CDouble)
  | empty
  | ofOther (name : String) (repr : String)
deriving DecidableEq

/-- Member `std::any::type()`. -/
def StdAny.type : StdAny → TypeId
  | .ofBool _ => .bool
  | .ofInt _ => .int
  | .ofInt64 _ => .int64
  | .ofDouble _ => .double
  | .empty => .void
  | .ofOther name _ => .other name

/-- The types satisfying the concept `SupportedParamType`. -/
inductive SupportedParamType where
  | bool
  | int
  | int64
  | double
deriving DecidableEq, Repr

/-- The C++ type a template argument stands for. -/
@[reducible] def SupportedParamType.ValueType : SupportedParamType → Type
  | .bool => Bool
  | .int => CInt
  | .int64 => CInt64
  | .double => CDouble

/-- The expression `typeid(ValueType)`. -/
def SupportedParamType.typeid : SupportedParamType → TypeId
  | .bool => .bool
  | .int => .int
  | .int64 => .int64
  | .double => .double

/-- The concept `IntegerParamType`. -/
def IntegerParamType : SupportedParamType → Bool
  | .int => true
  | .int64 => true
  | _ => false

/-- Construction of a `std::any` from a value of a supported type. -/
def make_any : (T : SupportedParamType) → T.ValueType → StdAny
  | .bool, v => .ofBool v
  | .int, v => .ofInt v
  | .int64, v => .ofInt64 v
  | .double, v => .ofDouble v

/-- The call `std::any_cast<ValueType>(a)`; `none` stands for
`std::bad_any_cast`. -/
def any_cast : (T : SupportedParamType) → StdAny → Option T.ValueType
  | .bool, .ofBool v => some v
  | .int, .ofInt v => some v
  | .int64, .ofInt64 v => some v
  | .double, .ofDouble v => some v
  | _, _ => none

/-! ## The exceptions thrown by the store -/

/-- The exceptions of `params.h`. The texts built from `type_info::name()`
are kept as the two type identities they are built from. The last case is an
exception thrown by code a host class supplies. -/
inductive Exception where
  | out_of_range (what : String)
  | runtime_error (key : String) (stored requested : TypeId)
  | logic_error (key : String) (existing new_type : TypeId)
  | host (what : String)
deriving DecidableEq

/-- Outcomes of calls that may throw can be compared. -/
instance instDecidableEqExcept {ε α : Type} [DecidableEq ε] [DecidableEq α] :
    DecidableEq (Except ε α) := fun a b =>
  match a, b with
  | .ok x, .ok y =>
    if h : x = y then isTrue (by rw [h]) else isFalse (fun e => h (by cases e; rfl))
  | .error x, .error y =>
    if h : x = y then isTrue (by rw [h]) else isFalse (fun e => h (by cases e; rfl))
  | .ok _, .error _ => isFalse (fun e => by cases e)
  | .error _, .ok _ => isFalse (fun e => by cases e)

/-! ## `std::map<std::string, std::any>` -/

/-- One node of the map. -/
abbrev Entry : Type := String × StdAny

/-- The map's ordering of nodes: `std::less` on the keys. -/
def Entry.less (a b : Entry) : Prop := a.1.data < b.1.data

instance (a b : Entry) : Decidable (Entry.less a b) :=
  inferInstanceAs (Decidable (a.1.data < b.1.data))

/-- Lookup of the node whose key is `key`. Two keys are equivalent for the
map (neither is less than the other) exactly when they are equal strings. -/
def findEntry (key : String) : List Entry → Option StdAny
  | [] => none
  | (k, v) :: rest => if k = key then some v else findEntry key rest

/-- The statement `m[key] = value` on the node list: the node is put at its
place in key order, or the value of the node with that key is replaced. -/
def assignEntry (key : String) (value : StdAny) : List Entry → List Entry
  | [] => [(key, value)]
  | (k, v) :: rest =>
    if key.data < k.data then (key, value) :: (k, v) :: rest
    else if k.data < key.data then (k, v) :: assignEntry key value rest
    else (key, value) :: rest

/-- Removal of the node whose key is `key`. -/
def eraseEntry (key : String) : List Entry → List Entry
  | [] => []
  | (k, v) :: rest => if k = key then rest else (k, v) :: eraseEntry key rest

/-- The container `Params::ParamMap`: nodes in strictly ascending key order. -/
structure ParamMap where
  entries : List Entry
  ordered : entries.Pairwise Entry.less
deriving DecidableEq

namespace ParamMap

/-- A default-constructed map. -/
def nil : ParamMap := ⟨[], List.Pairwise.nil⟩

/-- Member `find`, with `none` for `end()`. -/
def find (m : ParamMap) (key : String) : Option StdAny :=
  findEntry key m.entries

/-- Member `contains`. -/
def contains (m : ParamMap) (key : String) : Bool :=
  (m.find key).isSome

/-- Member `size`. -/
def size (m : ParamMap) : Nat := m.entries.length

/-- The statement `m[key] = value`. -/
def assign (m : ParamMap) (key : String) (value : StdAny) : ParamMap :=
  ⟨assignEntry key value m.entries, by
    have mem : ∀ (l : List Entry) (e : Entry), e ∈ assignEntry key value l →
        e = (key, value) ∨ e ∈ l := by
      intro l
      induction l with
      | nil => intro e he; simpa [assignEntry] using he
      | cons a rest ih =>
        intro e he
        obtain ⟨k, v⟩ := a
        unfold assignEntry at he
        split_ifs at he with h1 h2
        · rcases List.mem_cons.mp he with h | h
          · exact Or.inl h
          · exact Or.inr h
        · rcases List.mem_cons.mp he with h | h
          · exact Or.inr (h ▸ List.mem_cons_self _ _)
          · rcases ih e h with h3 | h3
            · exact Or.inl h3
            · exact Or.inr (List.mem_cons_of_mem _ h3)
        · rcases List.mem_cons.mp he with h | h
          · exact Or.inl h
          · exact Or.inr (List.mem_cons_of_mem _ h)
    have main : ∀ l : List Entry, l.Pairwise Entry.less →
        (assignEntry key value l).Pairwise Entry.less := by
      intro l
      induction l with
      | nil => intro _; simp [assignEntry]
      | cons a rest ih =>
        intro hl
        obtain ⟨k, v⟩ := a
        have hhead := (List.pairwise_cons.mp hl).1
        have htail := (List.pairwise_cons.mp hl).2
        unfold assignEntry
        split_ifs with h1 h2
        · refine List.pairwise_cons.mpr ⟨?_, hl⟩
          intro b hb
          rcases List.mem_cons.mp hb with h | h
          · subst h; exact h1
          · exact lt_trans h1 (hhead b h)
        · refine List.pairwise_cons.mpr ⟨?_, ih htail⟩
          intro b hb
          rcases mem rest b hb with h | h
          · subst h; exact h2
          · exact hhead b h
        · have hk : k.data = key.data := by
            rcases lt_trichotomy k.data key.data with h | h | h
            · exact absurd h h2
            · exact h
            · exact absurd h h1
          refine List.pairwise_cons.mpr ⟨?_, htail⟩
          intro b hb
          have := hhead b hb
          unfold Entry.less at this ⊢
          simpa [hk] using this
    exact main m.entries m.ordered⟩

/-- Member `operator[]`: a reference to the value under `key`, which is first
inserted as an empty `std::any` when the key is absent. -/
def subscript (m : ParamMap) (key : String) : StdAny × ParamMap :=
  match m.find key with
  | some v => (v, m)
  | none => (StdAny.empty, m.assign key StdAny.empty)

/-- Member `erase(key)`: the number of nodes removed and the map left. -/
def erase (m : ParamMap) (key : String) : Nat × ParamMap :=
  match m.find key with
  | none => (0, m)
  | some _ =>
    (1, ⟨eraseEntry key m.entries, by
      have sub : ∀ l : List Entry, (eraseEntry key l).Sublist l := by
        intro l
        induction l with
        | nil => simp [eraseEntry]
        | cons a rest ih =>
          obtain ⟨k, v⟩ := a
          unfold eraseEntry
          split_ifs
          · exact List.sublist_cons_self _ _
          · exact List.Sublist.cons₂ _ ih
      exact List.Pairwise.sublist (sub m.entries) m.ordered⟩)

end ParamMap

/-! ## Comparison of `double` values -/

/-- A NaN: all exponent bits set and a non-zero fraction. -/
def CDouble.isNaN (x : CDouble) : Bool :=
  decide (x.val / 4503599627370496 % 2048 = 2047) && decide (x.val % 4503599627370496 ≠ 0)

/-- The position of a non-NaN `double` on the number line: magnitude bits,
negated when the sign bit is set, so that both zeros are at 0. -/
def CDouble.ord (x : CDouble) : Int :=
  if x.val < 9223372036854775808 then (x.val : Int)
  else -((x.val - 9223372036854775808 : Nat) : Int)

/-- The built-in `a < b` on `double`: false as soon as one operand is a NaN. -/
def CDouble.lt (a b : CDouble) : Bool :=
  !a.isNaN && !b.isNaN && decide (a.ord < b.ord)

/-- The built-in `a == b` on `double`: false as soon as one operand is a NaN,
true for the two zeros. -/
def CDouble.eq (a b : CDouble) : Bool :=
  !a.isNaN && !b.isNaN && decide (a.ord = b.ord)

/-- The type `std::weak_ordering`. -/
inductive weak_ordering where
  | less
  | equivalent
  | greater
deriving DecidableEq, Repr

/-! ## Output streams -/

/-- A `std::ostream`: the characters written so far, the `boolalpha` format
flag, and the conversion its locale applies to a `double`. -/
structure OStream where
  buf : String
  boolalpha : Bool
  num_put_double : CDouble → String

namespace OStream

/-- A freshly constructed `std::ostringstream`. -/
def new (num_put_double : CDouble → String) : OStream :=
  { buf := "", boolalpha := false, num_put_double := num_put_double }

/-- Insertion of a string: `os << text`. -/
def put (os : OStream) (text : String) : OStream :=
  { os with buf := os.buf ++ text }

/-- The manipulator `os << std::boolalpha`. -/
def set_boolalpha (os : OStream) : OStream :=
  { os with boolalpha := true }

/-- Insertion of a `bool`: the words when `boolalpha` is set, else `1` or `0`. -/
def put_bool (os : OStream) (v : Bool) : OStream :=
  if os.boolalpha then os.put (if v then "true" else "false")
  else os.put (if v then "1" else "0")

/-- Insertion of an integer: its signed decimal digits. -/
def put_int (os : OStream) (v : Int) : OStream :=
  os.put (Int.repr v)

/-- Insertion of a `double`. -/
def put_double (os : OStream) (v : CDouble) : OStream :=
  os.put (os.num_put_double v)

/-- Insertion `os << v` of a value of a supported type. -/
def insert : (T : SupportedParamType) → OStream → T.ValueType → OStream
  | .bool, os, v => os.put_bool v
  | .int, os, v => os.put_int v.val
  | .int64, os, v => os.put_int v.val
  | .double, os, v => os.put_double v

/-- Member `str()`. -/
def str (os : OStream) : String := os.buf

end OStream

/-! ## The type registry of `params.cc` -/

namespace detail

/-- The enumeration `detail::ParamType`. -/
inductive ParamType where
  | Unknown
  | Bool
  | Int
  | Int64
  | Double
deriving DecidableEq, Repr

/-- The underlying `uint8_t` value of an enumerator, which orders them. -/
def ParamType.toNat : ParamType → Nat
  | .Unknown => 0
  | .Bool => 1
  | .Int => 2
  | .Int64 => 3
  | .Double => 4

/-- The record `detail::TypeHandler`. A member returns `none` when its
`std::any_cast` throws `std::bad_any_cast`. -/
structure TypeHandler where
  name : String
  output : OStream → StdAny → Option OStream
  to_string : OStream → String → StdAny → Option OStream
  equal : StdAny → StdAny → Option Bool
  compare : StdAny → StdAny → Option weak_ordering

/-- The constant `detail::kSplitStr`. -/
def kSplitStr : String := ", "

/-- Function template `detail::output_value<T>`. -/
def output_value (T : SupportedParamType) (os : OStream) (value : StdAny)
    (type_name : String) : Option OStream :=
  match any_cast T value with
  | none => none
  | some v =>
    if T = SupportedParamType.bool then
      some (((((os.put "(").put type_name).put "): ").set_boolalpha.insert T v).put kSplitStr)
    else
      some (((((os.put "(").put type_name).put "): ").insert T v).put kSplitStr)

/-- Function template `detail::to_string_value<T>`. -/
def to_string_value (T : SupportedParamType) (os : OStream) (key : String)
    (value : StdAny) : Option OStream :=
  match any_cast T value with
  | none => none
  | some v =>
    if T = SupportedParamType.bool then
      some ((((os.put key).put "=").set_boolalpha.insert T v).put kSplitStr)
    else
      some ((((os.put key).put "=").insert T v).put kSplitStr)

/-- The built-in `a == b` on values of a supported type. -/
def builtin_eq : (T : SupportedParamType) → T.ValueType → T.ValueType → Bool
  | .bool, a, b => decide (a = b)
  | .int, a, b => decide (a.val = b.val)
  | .int64, a, b => decide (a.val = b.val)
  | .double, a, b => CDouble.eq a b

/-- The built-in `a < b` on values of a supported type. -/
def builtin_lt : (T : SupportedParamType) → T.ValueType → T.ValueType → Bool
  | .bool, a, b => !a && b
  | .int, a, b => decide (a.val < b.val)
  | .int64, a, b => decide (a.val < b.val)
  | .double, a, b => CDouble.lt a b

/-- Function template `detail::equal_value<T>`. -/
def equal_value (T : SupportedParamType) (a b : StdAny) : Option Bool :=
  match any_cast T a, any_cast T b with
  | some val_a, some val_b => some (builtin_eq T val_a val_b)
  | _, _ => none

/-- Function template `detail::compare_value<T>`. Both branches of the
`if constexpr` test less first, then greater, and fall back to equivalent. -/
def compare_value (T : SupportedParamType) (a b : StdAny) : Option weak_ordering :=
  match any_cast T a, any_cast T b with
  | some val_a, some val_b =>
    if builtin_lt T val_a val_b then some weak_ordering.less
    else if builtin_lt T val_b val_a then some weak_ordering.greater
    else some weak_ordering.equivalent
  | _, _ => none

def kBoolHandler : TypeHandler :=
  { name := "bool"
    output := fun os v => output_value .bool os v "bool"
    to_string := fun os k v => to_string_value .bool os k v
    equal := fun a b => equal_value .bool a b
    compare := fun a b => compare_value .bool a b }

def kIntHandler : TypeHandler :=
  { name := "int"
    output := fun os v => output_value .int os v "int"
    to_string := fun os k v => to_string_value .int os k v
    equal := fun a b => equal_value .int a b
    compare := fun a b => compare_value .int a b }

def kInt64Handler : TypeHandler :=
  { name := "int64"
    output := fun os v => output_value .int64 os v "int64"
    to_string := fun os k v => to_string_value .int64 os k v
    equal := fun a b => equal_value .int64 a b
    compare := fun a b => compare_value .int64 a b }

def kDoubleHandler : TypeHandler :=
  { name := "double"
    output := fun os v => output_value .double os v "double"
    to_string := fun os k v => to_string_value .double os k v
    equal := fun a b => equal_value .double a b
    compare := fun a b => compare_value .double a b }

/-- Function `detail::getParamType(const std::type_info&)`. -/
def getParamType (type : TypeId) : ParamType :=
  if type = TypeId.bool then ParamType.Bool
  else if type = TypeId.int then ParamType.Int
  else if type = TypeId.int64 then ParamType.Int64
  else if type = TypeId.double then ParamType.Double
  else ParamType.Unknown

/-- Function `detail::getHandler`, with `none` for `nullptr`. -/
def getHandler : ParamType → Option TypeHandler
  | .Bool => some kBoolHandler
  | .Int => some kIntHandler
  | .Int64 => some kInt64Handler
  | .Double => some kDoubleHandler
  | .Unknown => none

end detail

/-! ## The class `Params` -/

/-- The class `Params`: its only data member is the map `params_`. -/
structure Params where
  params_ : ParamMap
deriving DecidableEq

namespace Params

/-- A default-constructed store. -/
def new : Params := ⟨ParamMap.nil⟩

/-- Member `have`. -/
def have_ (self : Params) (key : String) : Bool :=
  self.params_.contains key

/-- Member `size`. -/
def size (self : Params) : Nat := self.params_.size

/-- Member `empty`. -/
def empty (self : Params) : Bool := self.params_.size == 0

/-- Member `remove`: the returned flag and the store left. -/
def remove (self : Params) (key : String) : Bool × Params :=
  let r := self.params_.erase key
  (decide (r.1 > 0), ⟨r.2⟩)

/-- Member `clear`. -/
def clear (_self : Params) : Params := ⟨ParamMap.nil⟩

/-- Member `type`. -/
def type (self : Params) (key : String) : Except Exception String :=
  match self.params_.find key with
  | none => .error (.out_of_range ("Param not found: " ++ key))
  | some second =>
    match detail.getHandler (detail.getParamType second.type) with
    | some handler => .ok handler.name
    | none => .ok "unknown"

/-- Member template `get<ValueType>`. When `any_cast` fails, an `int` is
widened for a requested `int64_t`, an `int64_t` is narrowed for a requested
`int`, and everything else is a `std::runtime_error`. -/
def get (T : SupportedParamType) (self : Params) (key : String) :
    Except Exception T.ValueType :=
  match self.params_.find key with
  | none => .error (.out_of_range ("Param not found: " ++ key))
  | some second =>
    match any_cast T second with
    | some v => .ok v
    | none =>
      match T, second with
      | .int64, .ofInt v => .ok (static_cast_int64 v)
      | .int, .ofInt64 v => .ok (static_cast_int v)
      | _, _ => .error (.runtime_error key second.type T.typeid)

/-- Member template `try_get<ValueType>`: `catch (...)` turns every exception
of `get` into the default. -/
def try_get (T : SupportedParamType) (self : Params) (key : String)
    (default_value : T.ValueType) : T.ValueType :=
  match self.get T key with
  | .ok v => v
  | .error _ => default_value

/-- Member template `set<ValueType>`: the outcome and the store left. -/
def set (T : SupportedParamType) (self : Params) (key : String)
    (value : T.ValueType) : Except Exception Unit × Params :=
  if !self.have_ key then
    (.ok (), ⟨self.params_.assign key (make_any T value)⟩)
  else
    let r := self.params_.subscript key
    let existing_type := r.1.type
    let new_type := T.typeid
    if existing_type ≠ new_type then
      if IntegerParamType T then
        if existing_type = TypeId.int ∨ existing_type = TypeId.int64 then
          (.ok (), ⟨r.2.assign key (make_any T value)⟩)
        else
          (.error (.logic_error key existing_type new_type), ⟨r.2⟩)
      else
        (.error (.logic_error key existing_type new_type), ⟨r.2⟩)
    else
      (.ok (), ⟨r.2.assign key (make_any T value)⟩)

/-- Member `keys_view`: the keys of the nodes, in node order. -/
def keys_view (self : Params) : List String :=
  self.params_.entries.map Prod.fst

/-- Member `keys`: every key of `keys_view` is pushed to the back of the
result. -/
def keys (self : Params) : List String :=
  self.keys_view.foldl (fun result key => result ++ [key]) []

/-- The static member `support`. -/
def support (value : StdAny) : Bool :=
  detail.getParamType value.type != detail.ParamType.Unknown

/-- The loop of member `to_string` over the nodes, on the stream `ss`. -/
def to_string_loop (ss : OStream) : List Entry → Option OStream
  | [] => some ss
  | (key, value) :: rest =>
    match detail.getHandler (detail.getParamType value.type) with
    | some handler =>
      match handler.to_string ss key value with
      | some ss1 => to_string_loop ss1 rest
      | none => none
    | none => to_string_loop (((ss.put key).put "=Unsupported").put detail.kSplitStr) rest

/-- Member `to_string`, for the `double` conversion of the global locale;
`none` stands for an exception leaving the function. -/
def to_string (num_put_double : CDouble → String) (self : Params) : Option String :=
  (to_string_loop (OStream.new num_put_double) self.params_.entries).map OStream.str

/-- The loop of member `operator<=>` over the nodes of both stores. -/
def op_spaceship_loop : List Entry → List Entry → Option weak_ordering
  | (k1, v1) :: rest1, (k2, v2) :: rest2 =>
    if k1.data < k2.data then some weak_ordering.less
    else if k2.data < k1.data then some weak_ordering.greater
    else
      let type_lhs := detail.getParamType v1.type
      let type_rhs := detail.getParamType v2.type
      if type_lhs.toNat < type_rhs.toNat then some weak_ordering.less
      else if type_lhs.toNat > type_rhs.toNat then some weak_ordering.greater
      else if type_lhs = detail.ParamType.Unknown then some weak_ordering.equivalent
      else
        match detail.getHandler type_lhs with
        | some handler =>
          match handler.compare v1 v2 with
          | some cmp =>
            if cmp ≠ weak_ordering.equivalent then some cmp
            else op_spaceship_loop rest1 rest2
          | none => none
        | none => op_spaceship_loop rest1 rest2
  | _, _ => some weak_ordering.equivalent

/-- Member `operator<=>`; `none` stands for an exception escaping the
`noexcept` function. -/
def op_spaceship (self other : Params) : Option weak_ordering :=
  if self.size < other.size then some weak_ordering.less
  else if self.size > other.size then some weak_ordering.greater
  else op_spaceship_loop self.params_.entries other.params_.entries

/-- The loop of member `operator==` over the nodes of both stores. -/
def op_eq_loop : List Entry → List Entry → Option Bool
  | (k1, v1) :: rest1, (k2, v2) :: rest2 =>
    if k1 ≠ k2 then some false
    else
      let type_lhs := detail.getParamType v1.type
      let type_rhs := detail.getParamType v2.type
      if type_lhs ≠ type_rhs then some false
      else if type_lhs = detail.ParamType.Unknown then some false
      else
        match detail.getHandler type_lhs with
        | some handler =>
          match handler.equal v1 v2 with
          | some b => if !b then some false else op_eq_loop rest1 rest2
          | none => none
        | none => op_eq_loop rest1 rest2
  | _, _ => some true

/-- Member `operator==`; `none` stands for an exception escaping the
`noexcept` function. -/
def op_eq (self other : Params) : Option Bool :=
  if self.size ≠ other.size then some false
  else op_eq_loop self.params_.entries other.params_.entries

/-- The loop of `operator<<` over the nodes, on the stream `os`. -/
def op_lshift_loop (os : OStream) : List Entry → Option OStream
  | [] => some os
  | (key, value) :: rest =>
    match detail.getHandler (detail.getParamType value.type) with
    | some handler =>
      match handler.output (os.put key) value with
      | some os1 => op_lshift_loop os1 rest
      | none => none
    | none => op_lshift_loop (((os.put key).put "=Unsupported").put detail.kSplitStr) rest

/-- The friend `operator<<(std::ostream&, const Params&)`; `none` stands for
an exception leaving the function. -/
def op_lshift (os : OStream) (params : Params) : Option OStream :=
  match op_lshift_loop (os.put "Params[") params.params_.entries with
  | some os1 => some (os1.put "]")
  | none => none

end Params

/-- The friend function `get_any`. -/
def get_any (params : Params) (key : String) : Except Exception StdAny :=
  match params.params_.find key with
  | none => .error (.out_of_range ("Param not found: " ++ key))
  | some second => .ok second

/-- The friend function `set_any`: the outcome and the store left. -/
def set_any (params : Params) (key : String) (value : StdAny) :
    Except Exception Unit × Params :=
  if !params.have_ key then
    (.ok (), ⟨params.params_.assign key value⟩)
  else
    let r := params.params_.subscript key
    if r.1.type ≠ value.type then
      (.error (.logic_error key r.1.type value.type), ⟨r.2⟩)
    else
      (.ok (), ⟨r.2.assign key value⟩)

/-! ## The macro `PARAMETERS_SUPPORT` -/

namespace PARAMETERS_SUPPORT

/-- A class whose body holds `PARAMETERS_SUPPORT`: the members the macro adds. -/
structure Host where
  parameters_ : Params
deriving DecidableEq

/-- Member `GetParams`. -/
def GetParams (self : Host) : Params := self.parameters_

/-- Member `SetParams`. -/
def SetParams (_self : Host) (parameters : Params) : Host := ⟨parameters⟩

/-- Member `HaveParam`. -/
def HaveParam (self : Host) (key : String) : Bool := self.parameters_.have_ key

/-- Member template `GetParam`. -/
def GetParam (T : SupportedParamType) (self : Host) (key : String) :
    Except Exception T.ValueType :=
  self.parameters_.get T key

/-- Member template `TryGetParam`. -/
def TryGetParam (T : SupportedParamType) (self : Host) (key : String)
    (default_value : T.ValueType) : T.ValueType :=
  self.parameters_.try_get T key default_value

/-- Member template `SetParam`: the outcome and the host left. -/
def SetParam (T : SupportedParamType) (self : Host) (key : String) (value : T.ValueType) :
    Except Exception Unit × Host :=
  let r := self.parameters_.set T key value
  (r.1, ⟨r.2⟩)

/-- Member template `GetParamFromOther`: the outcome and the host left. An
exception of `other.get`, of `SetParam` or of `GetParam` leaves the call. -/
def GetParamFromOther (T : SupportedParamType) (self : Host) (other : Params)
    (key : String) (default_value : T.ValueType) : Except Exception T.ValueType × Host :=
  if other.have_ key then
    match other.get T key with
    | .error e => (.error e, self)
    | .ok v =>
      match SetParam T self key v with
      | (.error e, self1) => (.error e, self1)
      | (.ok _, self1) => (GetParam T self1 key, self1)
  else
    match SetParam T self key default_value with
    | (.error e, self1) => (.error e, self1)
    | (.ok _, self1) => (GetParam T self1 key, self1)

/-- Member `RemoveParam`. -/
def RemoveParam (self : Host) (key : String) : Bool × Host :=
  let r := self.parameters_.remove key
  (r.1, ⟨r.2⟩)

/-- Member `ClearParams`. -/
def ClearParams (self : Host) : Host := ⟨self.parameters_.clear⟩

end PARAMETERS_SUPPORT

/-! ## The macro `PARAMETERS_SUPPORT_WITH_CHECK` -/

namespace PARAMETERS_SUPPORT_WITH_CHECK

/-- A call of one of the functions the host class supplies, with the store
the call finds in `parameters_`. -/
inductive Event where
  | BaseCheckParam (key : String) (observed : Params)
  | DerivedCheckParam (key : String) (observed : Params)
  | ParamChanged (observed : Params)
deriving DecidableEq

/-- What the host class supplies for the two checks, which are `const`
member functions: given the store and the key, a check returns or throws.
`BaseCheckParam` is declared by the macro and defined by the host class;
`DerivedCheckParam` is virtual. -/
structure Checks where
  BaseCheckParam : Params → String → Except Exception Unit
  DerivedCheckParam : Params → String → Except Exception Unit

/-- The default `DerivedCheckParam` of the macro, with the empty body. -/
def DerivedCheckParam_default : Params → String → Except Exception Unit :=
  fun _ _ => .ok ()

/-- A class whose body holds `PARAMETERS_SUPPORT_WITH_CHECK`: the store, and
the calls of the host's functions made so far, in the order they were made.
What `ParamChanged` does to the rest of the host is not modelled. In
`ParamChanged`, `SetParam` and `GetParamFromOther` below it returns and leaves
`parameters_` alone; `ParamChanged_with`, `SetParam_with` and
`GetParamFromOther_with` take what it does to `parameters_` as a parameter. -/
structure Host where
  parameters_ : Params
  events : List Event
deriving DecidableEq

/-- A call of the pure virtual `ParamChanged`. -/
def ParamChanged (self : Host) : Host :=
  { self with events := self.events ++ [Event.ParamChanged self.parameters_] }

/-- Member `CheckParam`: `BaseCheckParam(key)`, then `DerivedCheckParam(key)`. -/
def CheckParam (checks : Checks) (self : Host) (key : String) :
    Except Exception Unit × Host :=
  let self1 : Host :=
    { self with events := self.events ++ [Event.BaseCheckParam key self.parameters_] }
  match checks.BaseCheckParam self1.parameters_ key with
  | .error e => (.error e, self1)
  | .ok _ =>
    let self2 : Host :=
      { self1 with events := self1.events ++ [Event.DerivedCheckParam key self1.parameters_] }
    match checks.DerivedCheckParam self2.parameters_ key with
    | .error e => (.error e, self2)
    | .ok _ => (.ok (), self2)

/-- Member `GetParams`. -/
def GetParams (self : Host) : Params := self.parameters_

/-- The loop of `SetParams` over the keys of the nodes of `parameters_`. -/
def SetParams_loop (checks : Checks) (self : Host) : List String →
    Except Exception Unit × Host
  | [] => (.ok (), self)
  | key :: rest =>
    match CheckParam checks self key with
    | (.error e, self1) => (.error e, self1)
    | (.ok _, self1) => SetParams_loop checks self1 rest

/-- Member `SetParams`: the outcome and the host left. -/
def SetParams (checks : Checks) (self : Host) (parameters : Params) :
    Except Exception Unit × Host :=
  let self1 : Host := { self with parameters_ := parameters }
  match SetParams_loop checks self1 (self1.parameters_.params_.entries.map Prod.fst) with
  | (.error e, self2) => (.error e, self2)
  | (.ok _, self2) => (.ok (), ParamChanged self2)

/-- Member `HaveParam`. -/
def HaveParam (self : Host) (key : String) : Bool := self.parameters_.have_ key

/-- Member template `GetParam`. -/
def GetParam (T : SupportedParamType) (self : Host) (key : String) :
    Except Exception T.ValueType :=
  self.parameters_.get T key

/-- Member template `TryGetParam`. -/
def TryGetParam (T : SupportedParamType) (self : Host) (key : String)
    (default_value : T.ValueType) : T.ValueType :=
  self.parameters_.try_get T key default_value

/-- Member template `SetParam`: `parameters_.set`, then `CheckParam(key)`,
then `ParamChanged()`; the outcome and the host left. -/
def SetParam (checks : Checks) (T : SupportedParamType) (self : Host) (key : String)
    (value : T.ValueType) : Except Exception Unit × Host :=
  let r := self.parameters_.set T key value
  let self1 : Host := { self with parameters_ := r.2 }
  match r.1 with
  | .error e => (.error e, self1)
  | .ok _ =>
    match CheckParam checks self1 key with
    | (.error e, self2) => (.error e, self2)
    | (.ok _, self2) => (.ok (), ParamChanged self2)

/-- Member template `GetParamFromOther`: the outcome and the host left. -/
def GetParamFromOther (checks : Checks) (T : SupportedParamType) (self : Host)
    (other : Params) (key : String) (default_value : T.ValueType) :
    Except Exception T.ValueType × Host :=
  if other.have_ key then
    match other.get T key with
    | .error e => (.error e, self)
    | .ok v =>
      match SetParam checks T self key v with
      | (.error e, self1) => (.error e, self1)
      | (.ok _, self1) => (GetParam T self1 key, self1)
  else
    match SetParam checks T self key default_value with
    | (.error e, self1) => (.error e, self1)
    | (.ok _, self1) => (GetParam T self1 key, self1)

/-- What a host class can supply as the body of the pure virtual `ParamChanged`,
which is not `const`: from the store it finds it returns or throws, and it
leaves a store. -/
abbrev ParamChangedBody : Type := Params → Except Exception Unit × Params

/-- A call of `ParamChanged` on a host whose override has the given body: the
outcome and the host left. -/
def ParamChanged_with (body : ParamChangedBody) (self : Host) :
    Except Exception Unit × Host :=
  ((body self.parameters_).1,
    ⟨(body self.parameters_).2, self.events ++ [Event.ParamChanged self.parameters_]⟩)

/-- Member template `SetParam` on a host whose `ParamChanged` has the given
body: `parameters_.set`, then `CheckParam(key)`, then `ParamChanged()`. -/
def SetParam_with (checks : Checks) (body : ParamChangedBody) (T : SupportedParamType)
    (self : Host) (key : String) (value : T.ValueType) : Except Exception Unit × Host :=
  let r := self.parameters_.set T key value
  let self1 : Host := { self with parameters_ := r.2 }
  match r.1 with
  | .error e => (.error e, self1)
  | .ok _ =>
    match CheckParam checks self1 key with
    | (.error e, self2) => (.error e, self2)
    | (.ok _, self2) => ParamChanged_with body self2

/-- Member template `GetParamFromOther` on a host whose `ParamChanged` has
the given body: the outcome and the host left. -/
def GetParamFromOther_with (checks : Checks) (body : ParamChangedBody)
    (T : SupportedParamType) (self : Host) (other : Params) (key : String)
    (default_value : T.ValueType) : Except Exception T.ValueType × Host :=
  if other.have_ key then
    match other.get T key with
    | .error e => (.error e, self)
    | .ok v =>
      match SetParam_with checks body T self key v with
      | (.error e, self1) => (.error e, self1)
      | (.ok _, self1) => (GetParam T self1 key, self1)
  else
    match SetParam_with checks body T self key default_value with
    | (.error e, self1) => (.error e, self1)
    | (.ok _, self1) => (GetParam T self1 key, self1)

/-- Member `RemoveParam`. -/
def RemoveParam (self : Host) (key : String) : Bool × Host :=
  let r := self.parameters_.remove key
  let self1 : Host := { self with parameters_ := r.2 }
  if r.1 then (r.1, ParamChanged self1) else (r.1, self1)

/-- Member `ClearParams`. -/
def ClearParams (self : Host) : Host :=
  ParamChanged { self with parameters_ := self.parameters_.clear }

/-- The calls that validate the keys of a list one after the other against
the store `observed`: for each key `BaseCheckParam`, then `DerivedCheckParam`. -/
def validationEvents (observed : Params) : List String → List Event
  | [] => []
  | key :: rest =>
    Event.BaseCheckParam key observed :: Event.DerivedCheckParam key observed ::
      validationEvents observed rest

end PARAMETERS_SUPPORT_WITH_CHECK

/-- A value together with the supported type it is of: the argument of one
call of `set`. -/
abbrev TypedValue : Type := (T : SupportedParamType) × T.ValueType

/-- The value is a `double` NaN. -/
def TypedValue.isNaN : TypedValue → Bool
  | ⟨.double, v⟩ => CDouble.isNaN v
  | _ => false

/-- Calls of `set`, one for each pair of the list, in list order; the
outcome of each call is left aside. -/
def Params.set_all (self : Params) (pairs : List (String × TypedValue)) : Params :=
  pairs.foldl (fun s p => (s.set p.2.1 p.1 p.2.2).2) self

/-- Spec wording, "the same kind and the same value (value compared with the
kind's own `==`)", kind by kind: two `bool`s that are the same, two `int`s
or two `int64_t`s of the same value, two `double`s neither of which is a NaN
and which are at the same place of the number line (as the two zeros are);
no other pair, so no pair with a value of unsupported kind. -/
def EqualKindAndValue : StdAny → StdAny → Prop
  | .ofBool a, .ofBool b => a = b
  | .ofInt a, .ofInt b => a.val = b.val
  | .ofInt64 a, .ofInt64 b => a.val = b.val
  | .ofDouble a, .ofDouble b => a.isNaN = false ∧ b.isNaN = false ∧ a.ord = b.ord
  | _, _ => False

/-- What `operator==` tests at one position, in the terms of the registry:
both values are of one kind of the registry, and the `equal` member of that
kind's handler holds of them. -/
def SameKindAndValue (a b : StdAny) : Prop :=
  detail.getParamType a.type = detail.getParamType b.type ∧
  ∃ handler, detail.getHandler (detail.getParamType a.type) = some handler ∧
    handler.equal a b = some true

/-- The stores reachable from the empty store through the typed operations
`set<T>`, `remove` and `clear` (a copy of a store is that store). -/
inductive Params.Reachable : Params → Prop where
  | new : Params.Reachable Params.new
  | set (T : SupportedParamType) (key : String) (value : T.ValueType) {s : Params} :
      Params.Reachable s → Params.Reachable (s.set T key value).2
  | remove (key : String) {s : Params} :
      Params.Reachable s → Params.Reachable (s.remove key).2
  | clear {s : Params} : Params.Reachable s → Params.Reachable s.clear

/-- Spec wording, "rendered value": the words `true` and `false` for a
`bool`, the signed decimal digits for an integer, the stream's conversion for
a `double`, and the marker `Unsupported` for any other value. -/
def renderedValue (num_put_double : CDouble → String) : StdAny → String
  | .ofBool b => if b then "true" else "false"
  | .ofInt v => Int.repr v.val
  | .ofInt64 v => Int.repr v.val
  | .ofDouble v => num_put_double v
  | _ => "Unsupported"

/-- The rendering of a value of a supported type: `renderedValue` without its
`Unsupported` case. -/
def renderedTyped (num_put_double : CDouble → String) : TypedValue → String
  | ⟨.bool, b⟩ => if b then "true" else "false"
  | ⟨.int, v⟩ => Int.repr v.val
  | ⟨.int64, v⟩ => Int.repr v.val
  | ⟨.double, v⟩ => num_put_double v

/-- Spec wording, the piece of one entry: key + "=" + rendered value + ", ". -/
def renderedEntry (num_put_double : CDouble → String) (e : Entry) : String :=
  e.1 ++ "=" ++ renderedValue num_put_double e.2 ++ ", "

/-- Spec wording, "the kind name is bool, int, int64 or double": the name of
the kind of a value, if it has one of the four. -/
def kindName : StdAny → Option String
  | .ofBool _ => some "bool"
  | .ofInt _ => some "int"
  | .ofInt64 _ => some "int64"
  | .ofDouble _ => some "double"
  | _ => none

/-- The name of the kind a template argument stands for. -/
def SupportedParamType.kindName : SupportedParamType → String
  | .bool => "bool"
  | .int => "int"
  | .int64 => "int64"
  | .double => "double"

/-- The piece of one entry in the stream form: key + "(" + kind name + "): " +
rendered value + ", " for an entry of a supported kind, and
key + "=Unsupported" + ", " for any other entry. -/
def streamedEntry (num_put_double : CDouble → String) (e : Entry) : String :=
  match kindName e.2 with
  | some name => e.1 ++ "(" ++ name ++ "): " ++ renderedValue num_put_double e.2 ++ ", "
  | none => e.1 ++ "=Unsupported" ++ ", "

/-- The concatenation of a sequence of strings. -/
def concatAll : List String → String
  | [] => ""
  | piece :: rest => piece ++ concatAll rest

/-- The string `sub` occurs in `text`, as `std::string::find` would find it. -/
def IsSubstring (sub text : String) : Prop :=
  ∃ before after : String, text = before ++ sub ++ after

/-- The value is a `double` NaN. -/
def StdAny.isNaN : StdAny → Bool
  | .ofDouble v => CDouble.isNaN v
  | _ => false

/-- Spec wording, "the kind tag in the order Bool < Int32 < Int64 < Float64";
a value of no supported kind ranks below the four. -/
def kindRank : StdAny → Nat
  | .ofBool _ => 1
  | .ofInt _ => 2
  | .ofInt64 _ => 3
  | .ofDouble _ => 4
  | _ => 0

/-- Spec wording, "then the values": the comparison of two values of one
kind, `false` before `true`, integers and doubles by magnitude. Values that
are neither less nor greater make no difference. -/
def valueOrder : StdAny → StdAny → weak_ordering
  | .ofBool a, .ofBool b =>
    if a = false ∧ b = true then .less
    else if b = false ∧ a = true then .greater
    else .equivalent
  | .ofInt a, .ofInt b =>
    if a.val < b.val then .less else if b.val < a.val then .greater else .equivalent
  | .ofInt64 a, .ofInt64 b =>
    if a.val < b.val then .less else if b.val < a.val then .greater else .equivalent
  | .ofDouble a, .ofDouble b =>
    if CDouble.lt a b then .less else if CDouble.lt b a then .greater else .equivalent
  | _, _ => .equivalent

/-- Spec wording, the comparison of two entries: "first the key strings, then
the kind tag, then the values". -/
def entryOrder (e1 e2 : Entry) : weak_ordering :=
  if e1.1.data < e2.1.data then .less
  else if e2.1.data < e1.1.data then .greater
  else if kindRank e1.2 < kindRank e2.2 then .less
  else if kindRank e2.2 < kindRank e1.2 then .greater
  else valueOrder e1.2 e2.2

/-- Spec wording, the lexicographic order of two entry sequences: "decided by
the first position at which the entries differ", and "equivalent when no
position differs". -/
def lexOrder : List Entry → List Entry → weak_ordering
  | e1 :: rest1, e2 :: rest2 =>
    match entryOrder e1 e2 with
    | .equivalent => lexOrder rest1 rest2
    | decided => decided
  | _, _ => .equivalent

/-- Two lookup results are related: both miss, or both hit with values
related by `R`. -/
def FindRel (R : StdAny → StdAny → Prop) : Option StdAny → Option StdAny → Prop
  | none, none => True
  | some a, some b => R a b
  | _, _ => False

/-- The ordering seen from the other side: `less` and `greater` exchanged. -/
def weak_ordering.reversed : weak_ordering → weak_ordering
  | .less => .greater
  | .equivalent => .equivalent
  | .greater => .less

/-- The position of a value among the values of its kind: `false` 0 and
`true` 1, an integer its value, a non-NaN `double` its place on the number
line; 0 for a value of no supported kind. -/
def valueKey : StdAny → Int
  | .ofBool b => if b then 1 else 0
  | .ofInt v => v.val
  | .ofInt64 v => v.val
  | .ofDouble v => CDouble.ord v
  | _ => 0

/-- The triple an entry is compared by: key string, kind tag, value. -/
def sortKey (e : Entry) : List Char ×ₗ ℕ ×ₗ ℤ :=
  toLex (e.1.data, toLex (kindRank e.2, valueKey e.2))

/-- The two entries stop the walk of `operator<=>`: equal keys, and both
values of no supported kind. -/
def StopsWalk (e1 e2 : Entry) : Prop :=
  e1.1 = e2.1 ∧ kindRank e1.2 = 0 ∧ kindRank e2.2 = 0

instance (e1 e2 : Entry) : Decidable (StopsWalk e1 e2) := by
  unfold StopsWalk
  exact inferInstance

/-! ## The string helpers of `arithmetic.h`

A `std::string_view`, and the `std::string` that `trim` works on, is the
sequence of its characters. A position is a `Nat`; `std::string_view::npos`
is `none`. A function that does not return normally (an exception of the
standard library, or a loop that runs out of iterations) gives `none`. -/

/-- The type `std::string_view`. -/
abbrev string_view : Type := List Char

/-- The index of the first `c` in a character sequence. -/
def find_char_in (c : Char) : List Char → Option Nat
  | [] => none
  | x :: rest => if x = c then some 0 else (find_char_in c rest).map (· + 1)

/-- The index of the first place where `pat` starts in a character sequence. -/
def find_sub_in (pat : List Char) : List Char → Option Nat
  | [] => if pat.isPrefixOf [] then some 0 else none
  | x :: rest =>
    if pat.isPrefixOf (x :: rest) then some 0 else (find_sub_in pat rest).map (· + 1)

namespace string_view

/-- Member `find_first_of(c, pos)`: the least position `≥ pos` holding `c`. -/
def find_first_of (s : string_view) (c : Char) (pos : Nat) : Option Nat :=
  (find_char_in c (s.drop pos)).map (· + pos)

/-- Member `find(v, pos)`: the least position `≥ pos` at which `v` starts. -/
def find (s : string_view) (v : string_view) (pos : Nat) : Option Nat :=
  if pos > s.length then none else (find_sub_in v (s.drop pos)).map (· + pos)

/-- Member `substr(pos, n)`, `n = none` for the default `npos`; it throws
`std::out_of_range` when `pos > size()`. -/
def substr (s : string_view) (pos : Nat) (n : Option Nat) : Option string_view :=
  if pos > s.length then none
  else
    match n with
    | some n => some ((s.drop pos).take n)
    | none => some (s.drop pos)

end string_view

/-- The `while` loop of `split(std::string_view, char)` and the statements
after it, from the state `prepos`, `result`; the first argument bounds the
number of iterations. -/
def split_char_loop (str_view : string_view) (delimiter : Char) :
    Nat → Nat → List string_view → Option (List string_view)
  | 0, _, _ => none
  | fuel + 1, prepos, result =>
    match string_view.find_first_of str_view delimiter prepos with
    | some pos =>
      match string_view.substr str_view prepos (some (pos - prepos)) with
      | some piece => split_char_loop str_view delimiter fuel (pos + 1) (result ++ [piece])
      | none => none
    | none =>
      match string_view.substr str_view prepos none with
      | some piece => some (result ++ [piece])
      | none => none

/-- The overload `split(std::string_view str_view, char delimiter)`. -/
def split_char (str_view : string_view) (delimiter : Char) : Option (List string_view) :=
  split_char_loop str_view delimiter (str_view.length + 1) 0 []

/-- The `while` loop of `split(std::string_view, std::string_view)` and the
statements after it, from the state `prepos`, `result`; the first argument
bounds the number of iterations. -/
def split_string_view_loop (str_view split_str : string_view) :
    Nat → Nat → List string_view → Option (List string_view)
  | 0, _, _ => none
  | fuel + 1, prepos, result =>
    match string_view.find str_view split_str prepos with
    | some pos =>
      match string_view.substr str_view prepos (some (pos - prepos)) with
      | some piece =>
        split_string_view_loop str_view split_str fuel (pos + split_str.length)
          (result ++ [piece])
      | none => none
    | none =>
      match string_view.substr str_view prepos none with
      | some piece => some (result ++ [piece])
      | none => none

/-- The overload `split(std::string_view str_view, std::string_view split_str)`. -/
def split_string_view (str_view split_str : string_view) : Option (List string_view) :=
  if split_str.isEmpty then some [str_view]
  else split_string_view_loop str_view split_str (str_view.length + 1) 0 []

/-- Spec wording, "joining the pieces with d": the pieces in order with the
separator between neighbours. -/
def joinWith (sep : List Char) : List (List Char) → List Char
  | [] => []
  | [p] => p
  | p :: rest => p ++ sep ++ joinWith sep rest

/-- The constant `whitespace` of `trim`: space, tab, newline, carriage return. -/
def whitespace : string_view := [' ', '\t', '\n', '\r']

/-- `std::ranges::find_if`: the position of the first element satisfying
`pred`, the length of the range (its end) when there is none. -/
def find_if (pred : Char → Bool) : List Char → Nat
  | [] => 0
  | c :: rest => if pred c then 0 else find_if pred rest + 1

/-- The function `trim(std::string& str)`: the string left in `str`. -/
def trim (str : List Char) : List Char :=
  if str.isEmpty then str
  else
    let first := find_if (fun c => !whitespace.contains c) str
    if first = str.length then []
    else
      let last := str.length - find_if (fun c => !whitespace.contains c) str.reverse
      (str.take last).drop first

/-- Spec wording, "space, tab, newline, carriage return". -/
def isWhitespace (c : Char) : Bool := c = ' ' || c = '\t' || c = '\n' || c = '\r'

/-- The type `unsigned char`. -/
abbrev uchar : Type := Fin 256

/-- The `for` loop of `byteToHex` with `n` iterations left, at index `i`;
reading past the bytes the pointer gives access to is undefined (`none`). -/
def byteToHex_loop (p : List uchar) : Nat → Nat → List Char → Option (List Char)
  | 0, _, result => some result
  | n + 1, i, result =>
    match p[i]? with
    | none => none
    | some b =>
      let high : Nat := b.val >>> 4
      let low : Nat := b.val &&& 15
      let result := result ++ [Char.ofNat ((if high < 10 then 48 + high else 65 + high - 10) % 256)]
      let result := result ++ [Char.ofNat ((if low < 10 then 48 + low else 65 + low - 10) % 256)]
      byteToHex_loop p n (i + 1) result

/-- The function `byteToHex(const char* bytes, size_t len)`; `bytes` is the
memory the pointer gives access to, `none` for the null pointer. -/
def byteToHex (bytes : Option (List uchar)) (len : Nat) : Option (List Char) :=
  match bytes with
  | none => some []
  | some p => byteToHex_loop p len 0 []

/-- The overload `byteToHex(std::string_view bytes)`. -/
def byteToHex_string_view (bytes : List uchar) : Option (List Char) :=
  byteToHex (some bytes) bytes.length

/-- Spec wording, "upper-case hexadecimal digits": the digit of a nibble. -/
def hexDigit (nibble : Nat) : Char :=
  "0123456789ABCDEF".data.getD nibble '0'

/-- Spec wording, "characters 2i and 2i+1 are the upper-case hexadecimal
digits of the high and low nibble of byte i": the text of a byte sequence. -/
def hexOfBytes : List uchar → List Char
  | [] => []
  | b :: rest => hexDigit (b.val / 16) :: hexDigit (b.val % 16) :: hexOfBytes rest

/-! ## The conversions of `any_to_string.h` at `int32_t` -/

/-- `std::to_string(int)`: the decimal digits of the value, after a `-` when
it is negative. -/
def std_to_string (val : Int) : String := Int.repr val

/-- The two exceptions of `std::stoll`. -/
inductive StollError where
  | invalid_argument
  | out_of_range
deriving DecidableEq, Repr

/-- `std::isspace` in the "C" locale. -/
def isspace (c : Char) : Bool :=
  c = ' ' || c = '\t' || c = '\n' || c = Char.ofNat 11 || c = Char.ofNat 12 || c = '\r'

/-- `std::stoll(str)` in base 10: white space is skipped, then an optional
sign and the longest run of decimal digits are read; no digit throws
`std::invalid_argument`, a value outside `long long` throws
`std::out_of_range`. -/
def stoll (str : String) : Except StollError CInt64 :=
  let s := str.data.dropWhile isspace
  let negative := s.head? == some '-'
  let body := if s.head? == some '-' || s.head? == some '+' then s.tail else s
  let digits := body.takeWhile Char.isDigit
  if digits.isEmpty then .error .invalid_argument
  else
    let magnitude : Nat := digits.foldl (fun acc c => 10 * acc + (c.toNat - 48)) 0
    let v : Int := if negative then -(magnitude : Int) else (magnitude : Int)
    if h : -9223372036854775808 ≤ v ∧ v ≤ 9223372036854775807 then .ok ⟨v, h.1, h.2⟩
    else .error .out_of_range

/-- The template `any_to_string<ValueType>` at `int32_t`; `none` when
`std::any_cast` throws `std::bad_any_cast`. -/
def any_to_string_int32_t (data : StdAny) : Option String :=
  match any_cast .int data with
  | some v => some (std_to_string v.val)
  | none => none

/-- The template `string_to_any<ValueType>` at `int32_t`, a signed integral
type other than `bool`. -/
def string_to_any_int32_t (str : String) : Except StollError StdAny :=
  match stoll str with
  | .ok v => .ok (StdAny.ofInt (static_cast_int v))
  | .error e => .error e

/-! ## Arithmetic of `double`

IEEE 754 binary64 in the default rounding mode (to nearest, ties to even). A
finite `double` with sign `s`, significand `m` and exponent `e` has the value
`(-1)^s * m * 2^e`; the operations compute the exact result on these and
round it once. -/

namespace CDouble

/-- The sign bit. -/
def signBit (x : CDouble) : Bool := decide (9223372036854775808 ≤ x.val)

/-- The biased exponent field. -/
def expField (x : CDouble) : Nat := x.val / 4503599627370496 % 2048

/-- The fraction field. -/
def fracField (x : CDouble) : Nat := x.val % 4503599627370496

/-- An infinity: all exponent bits set and a zero fraction. -/
def isInf (x : CDouble) : Bool := decide (x.expField = 2047) && decide (x.fracField = 0)

/-- The significand of a finite `double`. -/
def significand (x : CDouble) : Nat :=
  if x.expField = 0 then x.fracField else 4503599627370496 + x.fracField

/-- The exponent of a finite `double`, as the power of two that scales its
significand. -/
def exponent (x : CDouble) : Int :=
  if x.expField = 0 then -1074 else (x.expField : Int) - 1075

/-- The `double` with the given bits. -/
def ofBits (bits : Nat) : CDouble := ⟨bits % 18446744073709551616, Nat.mod_lt _ (by decide)⟩

/-- Zero with the given sign. -/
def zero (s : Bool) : CDouble := ofBits (if s then 9223372036854775808 else 0)

/-- Infinity with the given sign. -/
def inf (s : Bool) : CDouble :=
  ofBits ((if s then 9223372036854775808 else 0) + 9218868437227405312)

/-- The quiet NaN an invalid operation produces. -/
def nan : CDouble := ofBits 9221120237041090560

/-- The position of the leading one bit of `m`, found in at most `fuel`
halvings; 0 for `m ≤ 1`. -/
def top_bit : Nat → Nat → Nat
  | 0, _ => 0
  | fuel + 1, m => if m ≤ 1 then 0 else top_bit fuel (m / 2) + 1

/-- The `double` nearest to `(-1)^s * m * 2^e`, ties to the even significand;
infinity when the rounded magnitude exceeds the largest finite `double`. -/
def round_pack (s : Bool) (m : Nat) (e : Int) : CDouble :=
  if m = 0 then zero s
  else
    let top : Int := (top_bit m m : Int)
    let q_exp : Int := max (top + e - 52) (-1074)
    let q : Nat :=
      if q_exp ≤ e then m * 2 ^ (e - q_exp).toNat
      else
        let sh := (q_exp - e).toNat
        let q0 := m / 2 ^ sh
        let rem := m % 2 ^ sh
        let half := 2 ^ (sh - 1)
        if rem > half ∨ (rem = half ∧ q0 % 2 = 1) then q0 + 1 else q0
    let magnitude := (q_exp + 1074).toNat * 4503599627370496 + q
    if magnitude ≥ 9218868437227405312 then inf s
    else ofBits ((if s then 9223372036854775808 else 0) + magnitude)

/-- Unary minus. -/
def neg (x : CDouble) : CDouble :=
  ofBits (if x.signBit then x.val - 9223372036854775808 else x.val + 9223372036854775808)

/-- `std::abs` on `double`. -/
def abs (x : CDouble) : CDouble :=
  ofBits (x.val % 9223372036854775808)

/-- The built-in `a + b`. -/
def add (a b : CDouble) : CDouble :=
  if a.isNaN || b.isNaN then nan
  else if a.isInf then (if b.isInf && (a.signBit != b.signBit) then nan else a)
  else if b.isInf then b
  else
    let e0 : Int := min a.exponent b.exponent
    let va : Int := (a.significand * 2 ^ (a.exponent - e0).toNat : Nat)
    let vb : Int := (b.significand * 2 ^ (b.exponent - e0).toNat : Nat)
    let sum : Int := (if a.signBit then -va else va) + (if b.signBit then -vb else vb)
    if sum = 0 then zero (a.signBit && b.signBit)
    else round_pack (decide (sum < 0)) sum.natAbs e0

/-- The built-in `a - b`. -/
def sub (a b : CDouble) : CDouble := add a (neg b)

/-- The built-in `a * b`. -/
def mul (a b : CDouble) : CDouble :=
  if a.isNaN || b.isNaN then nan
  else if a.isInf || b.isInf then
    (if (!a.isInf && a.significand = 0) || (!b.isInf && b.significand = 0) then nan
     else inf (a.signBit != b.signBit))
  else round_pack (a.signBit != b.signBit) (a.significand * b.significand)
    (a.exponent + b.exponent)

/-- The built-in `a / b`. The quotient of the significands is taken with 128
extra bits and a last bit that records a non-zero remainder, which rounds as
the exact quotient does. -/
def div (a b : CDouble) : CDouble :=
  if a.isNaN || b.isNaN then nan
  else if a.isInf then (if b.isInf then nan else inf (a.signBit != b.signBit))
  else if b.isInf then zero (a.signBit != b.signBit)
  else if b.significand = 0 then
    (if a.significand = 0 then nan else inf (a.signBit != b.signBit))
  else
    let n := a.significand * 2 ^ 128
    let q := n / b.significand
    let sticky := if n % b.significand = 0 then 0 else 1
    round_pack (a.signBit != b.signBit) (2 * q + sticky) (a.exponent - b.exponent - 129)

/-- The built-in `a >= b`: false as soon as one operand is a NaN. -/
def ge (a b : CDouble) : Bool :=
  !a.isNaN && !b.isNaN && decide (b.ord ≤ a.ord)

/-- `std::round`: to the nearest integer, halfway cases away from zero. -/
def round (x : CDouble) : CDouble :=
  if x.isNaN || x.isInf || decide (0 ≤ x.exponent) then x
  else
    let sh := (-x.exponent).toNat
    let q0 := x.significand / 2 ^ sh
    let rem := x.significand % 2 ^ sh
    round_pack x.signBit (if 2 * rem ≥ 2 ^ sh then q0 + 1 else q0) 0

/-- `std::floor`: the largest integer not above the argument. -/
def floor (x : CDouble) : CDouble :=
  if x.isNaN || x.isInf || decide (0 ≤ x.exponent) then x
  else
    let sh := (-x.exponent).toNat
    let q0 := x.significand / 2 ^ sh
    let rem := x.significand % 2 ^ sh
    round_pack x.signBit (if x.signBit && decide (rem ≠ 0) then q0 + 1 else q0) 0

/-- `std::ceil`: the smallest integer not below the argument. -/
def ceil (x : CDouble) : CDouble :=
  if x.isNaN || x.isInf || decide (0 ≤ x.exponent) then x
  else
    let sh := (-x.exponent).toNat
    let q0 := x.significand / 2 ^ sh
    let rem := x.significand % 2 ^ sh
    round_pack x.signBit (if !x.signBit && decide (rem ≠ 0) then q0 + 1 else q0) 0

end CDouble

/-- The loop `for (i = 0; i < ndigits_abs; ++i) scale *= 10` of `roundEx`
and `ceilEx`, with the iterations left. -/
def scale_loop : Nat → CDouble → CDouble
  | 0, scale => scale
  | n + 1, scale => scale_loop n (CDouble.mul scale (CDouble.ofBits 4621819117588971520))

/-- The template `roundEx` at `double`. `std::abs(ndigits)` is undefined for
the least `int32_t`, which gives `none`. The constants are `1`, `0.5`, `2`
and `std::numeric_limits<double>::epsilon()`. -/
def roundEx (value : CDouble) (ndigits : CInt) : Option CDouble :=
  if ndigits.val = -2147483648 then none
  else
    let scale := scale_loop ndigits.val.natAbs (CDouble.ofBits 4607182418800017408)
    let scaled_value :=
      if ndigits.val ≥ 0 then CDouble.mul value scale else CDouble.div value scale
    let rounded_value := CDouble.round scaled_value
    let diff := CDouble.abs (CDouble.sub rounded_value scaled_value)
    let rounded_value :=
      if CDouble.lt (CDouble.abs (CDouble.sub diff (CDouble.ofBits 4602678819172646912)))
          (CDouble.ofBits 4372995238176751616) then
        CDouble.mul (CDouble.ofBits 4611686018427387904)
          (CDouble.round (CDouble.div scaled_value (CDouble.ofBits 4611686018427387904)))
      else rounded_value
    some (if ndigits.val ≥ 0 then CDouble.div rounded_value scale
      else CDouble.mul rounded_value scale)

/-- The template `ceilEx` at `double`; the constants are `1`, `0.0` and
`1.0`. -/
def ceilEx (value : CDouble) (ndigits : CInt) : Option CDouble :=
  if ndigits.val = -2147483648 then none
  else
    let scale := scale_loop ndigits.val.natAbs (CDouble.ofBits 4607182418800017408)
    let scaled_value :=
      if ndigits.val ≥ 0 then CDouble.mul value scale else CDouble.div value scale
    let scaled_value :=
      if CDouble.ge scaled_value (CDouble.ofBits 0) then
        CDouble.floor (CDouble.add scaled_value (CDouble.ofBits 4607182418800017408))
      else CDouble.ceil (CDouble.sub scaled_value (CDouble.ofBits 4607182418800017408))
    some (if ndigits.val ≥ 0 then CDouble.div scaled_value scale
      else CDouble.mul scaled_value scale)

end sequoia.utils

/-! ## Lemmas on the node list -/

namespace sequoia.utils

theorem key_eq_of_not_less {a b : String} (h1 : ¬ a.data < b.data)
    (h2 : ¬ b.data < a.data) : a = b := by
  have h : a.data = b.data := by
    rcases lt_trichotomy a.data b.data with h | h | h
    · exact absurd h h1
    · exact h
    · exact absurd h h2
  exact String.ext h

theorem findEntry_mem {key : String} {a : StdAny} :
    ∀ {l : List Entry}, findEntry key l = some a → (key, a) ∈ l := by
  intro l
  induction l with
  | nil => intro h; simp [findEntry] at h
  | cons e rest ih =>
    obtain ⟨k, v⟩ := e
    intro h
    unfold findEntry at h
    split_ifs at h with hk
    · subst hk
      simp only [Option.some.injEq] at h
      subst h
      exact List.mem_cons_self _ _
    · exact List.mem_cons_of_mem _ (ih h)

theorem findEntry_none_of_lower {k : String} {l : List Entry}
    (h : ∀ b ∈ l, k.data < b.1.data) : findEntry k l = none := by
  induction l with
  | nil => rfl
  | cons e rest ih =>
    obtain ⟨k2, v2⟩ := e
    unfold findEntry
    have hlt : k.data < k2.data := h (k2, v2) (List.mem_cons_self _ _)
    have hne : k2 ≠ k := by
      intro he
      subst he
      exact lt_irrefl _ hlt
    rw [if_neg hne]
    exact ih (fun b hb => h b (List.mem_cons_of_mem _ hb))

theorem findEntry_assignEntry_self (key : String) (value : StdAny) (l : List Entry) :
    findEntry key (assignEntry key value l) = some value := by
  induction l with
  | nil => simp [assignEntry, findEntry]
  | cons e rest ih =>
    obtain ⟨k, v⟩ := e
    unfold assignEntry
    split_ifs with h1 h2
    · simp [findEntry]
    · have hne : k ≠ key := by
        intro he
        subst he
        exact lt_irrefl _ h2
      unfold findEntry
      rw [if_neg hne]
      exact ih
    · simp [findEntry]

theorem findEntry_assignEntry_other {key k2 : String} (value : StdAny) (hne : k2 ≠ key)
    (l : List Entry) : findEntry k2 (assignEntry key value l) = findEntry k2 l := by
  have hne2 : key ≠ k2 := fun h => hne h.symm
  induction l with
  | nil => simp [assignEntry, findEntry, hne2]
  | cons e rest ih =>
    obtain ⟨k, v⟩ := e
    unfold assignEntry
    split_ifs with h1 h2
    · simp [findEntry, hne2]
    · unfold findEntry
      rw [ih]
    · have hk : k = key := key_eq_of_not_less h2 h1
      subst hk
      simp [findEntry, hne2]

theorem length_assignEntry_absent {key : String} (value : StdAny) :
    ∀ {l : List Entry}, findEntry key l = none →
      (assignEntry key value l).length = l.length + 1 := by
  intro l
  induction l with
  | nil => intro _; simp [assignEntry]
  | cons e rest ih =>
    obtain ⟨k, v⟩ := e
    intro h
    unfold findEntry at h
    split_ifs at h with hk
    unfold assignEntry
    split_ifs with h1 h2
    · simp
    · simp [ih h]
    · exact absurd (key_eq_of_not_less h2 h1) hk

theorem length_assignEntry_present {key : String} (value : StdAny) {a : StdAny} :
    ∀ {l : List Entry}, l.Pairwise Entry.less → findEntry key l = some a →
      (assignEntry key value l).length = l.length := by
  intro l
  induction l with
  | nil => intro _ h; simp [findEntry] at h
  | cons e rest ih =>
    obtain ⟨k, v⟩ := e
    intro hl h
    have hhead := (List.pairwise_cons.mp hl).1
    have htail := (List.pairwise_cons.mp hl).2
    unfold findEntry at h
    split_ifs at h with hk
    · subst hk
      unfold assignEntry
      rw [if_neg (lt_irrefl _), if_neg (lt_irrefl _)]
      simp
    · have hlt : k.data < key.data := hhead (key, a) (findEntry_mem h)
      unfold assignEntry
      rw [if_neg (lt_asymm hlt), if_pos hlt]
      simp [ih htail h]

theorem findEntry_eraseEntry_self {key : String} :
    ∀ {l : List Entry}, l.Pairwise Entry.less → findEntry key (eraseEntry key l) = none := by
  intro l
  induction l with
  | nil => intro _; rfl
  | cons e rest ih =>
    obtain ⟨k, v⟩ := e
    intro hl
    have hhead := (List.pairwise_cons.mp hl).1
    have htail := (List.pairwise_cons.mp hl).2
    unfold eraseEntry
    split_ifs with hk
    · subst hk
      exact findEntry_none_of_lower hhead
    · unfold findEntry
      rw [if_neg hk]
      exact ih htail

theorem findEntry_eraseEntry_other {key k2 : String} (hne : k2 ≠ key) (l : List Entry) :
    findEntry k2 (eraseEntry key l) = findEntry k2 l := by
  induction l with
  | nil => rfl
  | cons e rest ih =>
    obtain ⟨k, v⟩ := e
    unfold eraseEntry
    split_ifs with hk
    · subst hk
      have : ¬ k = k2 := fun h => hne h.symm
      simp [findEntry, this]
    · unfold findEntry
      rw [ih]

theorem length_eraseEntry_present {key : String} {a : StdAny} :
    ∀ {l : List Entry}, findEntry key l = some a →
      (eraseEntry key l).length + 1 = l.length := by
  intro l
  induction l with
  | nil => intro h; simp [findEntry] at h
  | cons e rest ih =>
    obtain ⟨k, v⟩ := e
    intro h
    unfold findEntry at h
    unfold eraseEntry
    split_ifs at h ⊢ with hk
    · simp
    · simp [ih h]

end sequoia.utils

/-! ## Lemmas on the store operations -/

namespace sequoia.utils

theorem Params.have_eq_true_iff (s : Params) (k : String) :
    s.have_ k = true ↔ ∃ a, s.params_.find k = some a := by
  unfold Params.have_ ParamMap.contains
  cases s.params_.find k <;> simp

theorem Params.have_eq_false_iff (s : Params) (k : String) :
    s.have_ k = false ↔ s.params_.find k = none := by
  unfold Params.have_ ParamMap.contains
  cases s.params_.find k <;> simp

theorem Params.set_absent (T : SupportedParamType) (s : Params) (k : String)
    (v : T.ValueType) (h : s.params_.find k = none) :
    s.set T k v = (.ok (), ⟨s.params_.assign k (make_any T v)⟩) := by
  have hh : s.have_ k = false := (s.have_eq_false_iff k).mpr h
  simp [Params.set, hh]

theorem Params.set_present (T : SupportedParamType) (s : Params) (k : String)
    (v : T.ValueType) {a : StdAny} (h : s.params_.find k = some a) :
    s.set T k v =
      if a.type = T.typeid ∨
          (IntegerParamType T = true ∧ (a.type = TypeId.int ∨ a.type = TypeId.int64)) then
        (.ok (), ⟨s.params_.assign k (make_any T v)⟩)
      else (.error (.logic_error k a.type T.typeid), s) := by
  have hh : s.have_ k = true := (s.have_eq_true_iff k).mpr ⟨a, h⟩
  simp only [Params.set, hh, ParamMap.subscript, h]
  by_cases h1 : a.type = T.typeid
  · simp [h1]
  · by_cases h2 : IntegerParamType T = true
    · by_cases h3 : a.type = TypeId.int ∨ a.type = TypeId.int64
      · simp [h1, h2, h3]
      · simp [h1, h2, h3]
    · simp [h1, h2]

theorem Params.find_assign_self (m : ParamMap) (k : String) (a : StdAny) :
    (m.assign k a).find k = some a :=
  findEntry_assignEntry_self k a m.entries

theorem Params.find_assign_other (m : ParamMap) {k k2 : String} (a : StdAny)
    (hne : k2 ≠ k) : (m.assign k a).find k2 = m.find k2 :=
  findEntry_assignEntry_other a hne m.entries

theorem any_cast_make_any (T : SupportedParamType) (v : T.ValueType) :
    any_cast T (make_any T v) = some v := by
  cases T <;> rfl

theorem Params.get_absent (T : SupportedParamType) (s : Params) (k : String)
    (h : s.params_.find k = none) :
    s.get T k = .error (.out_of_range ("Param not found: " ++ k)) := by
  simp [Params.get, h]

theorem Params.get_mismatch (T : SupportedParamType) (s : Params) (k : String)
    {a : StdAny} (hk : s.params_.find k = some a) (h1 : a.type ≠ T.typeid)
    (h2 : ¬ ((a.type = TypeId.int ∨ a.type = TypeId.int64) ∧ IntegerParamType T = true)) :
    s.get T k = .error (.runtime_error k a.type T.typeid) := by
  cases T <;> cases a <;>
    simp_all [Params.get, any_cast, StdAny.type, SupportedParamType.typeid, IntegerParamType]

theorem Params.get_of_find_make_any (T : SupportedParamType) (s : Params) (k : String)
    (v : T.ValueType) (h : s.params_.find k = some (make_any T v)) :
    s.get T k = .ok v := by
  simp [Params.get, h, any_cast_make_any]

end sequoia.utils

/-! ## Typed access: `set`, `get`, `try_get` -/

namespace sequoia.utils

/-- C1: round trip. For every store, key, supported kind `K` and value `v` of
that kind, `set<K>(k, v)` succeeds when `k` is absent, and whenever it succeeds
`get<K>(k)` on the store it leaves succeeds and returns exactly `v`. -/
theorem set_get_round_trip (s : Params) (K : SupportedParamType) (k : String)
    (v : K.ValueType) :
    (s.have_ k = false → (s.set K k v).1 = .ok ()) ∧
    ((s.set K k v).1 = .ok () → (s.set K k v).2.get K k = .ok v) := by
  constructor
  · intro h
    rw [Params.set_absent K s k v ((s.have_eq_false_iff k).mp h)]
  · intro h
    cases hf : s.params_.find k with
    | none =>
      rw [Params.set_absent K s k v hf]
      exact Params.get_of_find_make_any K _ k v (Params.find_assign_self _ _ _)
    | some a =>
      rw [Params.set_present K s k v hf] at h ⊢
      split_ifs at h ⊢ with hc
      exact Params.get_of_find_make_any K _ k v (Params.find_assign_self _ _ _)

/-- Witness of C1: a `double` written over an absent key of the empty store. -/
theorem set_get_round_trip_witness :
    (Params.new.set .double "pi" (4614256650576692846 : CDouble)).1 = .ok () ∧
    (Params.new.set .double "pi" (4614256650576692846 : CDouble)).2.get .double "pi"
      = .ok (4614256650576692846 : CDouble) :=
  ⟨by decide,
   (set_get_round_trip Params.new .double "pi" (4614256650576692846 : CDouble)).2
     (by decide)⟩

/-- C2: kind-conflict rejection is atomic. When `k` holds a value of type `S`
and `T` is a supported kind other than `S`, the two not being both integer
kinds, `set<T>(k, v)` throws the type-mismatch `std::logic_error` for every
`v`, and the store it leaves is the store it was called on, where `k` still
holds its original value. -/
theorem set_kind_conflict_rejected (s : Params) (k : String) (a : StdAny)
    (T : SupportedParamType) (v : T.ValueType)
    (hk : s.params_.find k = some a)
    (hne : a.type ≠ T.typeid)
    (hint : ¬ ((a.type = TypeId.int ∨ a.type = TypeId.int64) ∧ IntegerParamType T = true)) :
    s.set T k v = (.error (.logic_error k a.type T.typeid), s) ∧
    (s.set T k v).2.params_.find k = some a := by
  have hset : s.set T k v = (.error (.logic_error k a.type T.typeid), s) := by
    rw [Params.set_present T s k v hk, if_neg]
    rintro (h | ⟨h1, h2⟩)
    · exact hne h
    · exact hint ⟨h2, h1⟩
  exact ⟨hset, by rw [hset]; exact hk⟩

/-- Witness of C2: a `double` written over a key that holds a `bool`. -/
theorem set_kind_conflict_rejected_witness :
    (Params.new.set .bool "flag" true).2.set .double "flag" (0 : CDouble)
      = (.error (.logic_error "flag" TypeId.bool TypeId.double),
         (Params.new.set .bool "flag" true).2) ∧
    ((Params.new.set .bool "flag" true).2.set .double "flag" (0 : CDouble)).2.params_.find
      "flag" = some (StdAny.ofBool true) :=
  set_kind_conflict_rejected (Params.new.set .bool "flag" true).2 "flag"
    (StdAny.ofBool true) .double (0 : CDouble) (by decide) (by decide) (by decide)

end sequoia.utils

namespace sequoia.utils

/-- C3: integer-pair overwrite. Over a key that holds an `int`,
`set<int64_t>(k, v)` succeeds for every `v`, and afterwards `type(k)` is
`"int64"` and the value read back as `int64_t` is `v`; over a key that holds an
`int64_t`, `set<int>(k, v)` succeeds, and afterwards `type(k)` is `"int"` and
the value read back as `int` is `v`. -/
theorem set_integer_pair_overwrite (s : Params) (k : String) :
    (∀ (x : CInt) (v : CInt64), s.params_.find k = some (StdAny.ofInt x) →
      (s.set .int64 k v).1 = .ok () ∧
      (s.set .int64 k v).2.type k = .ok "int64" ∧
      (s.set .int64 k v).2.params_.find k = some (StdAny.ofInt64 v) ∧
      (s.set .int64 k v).2.get .int64 k = .ok v) ∧
    (∀ (x : CInt64) (v : CInt), s.params_.find k = some (StdAny.ofInt64 x) →
      (s.set .int k v).1 = .ok () ∧
      (s.set .int k v).2.type k = .ok "int" ∧
      (s.set .int k v).2.params_.find k = some (StdAny.ofInt v) ∧
      (s.set .int k v).2.get .int k = .ok v) := by
  constructor
  · intro x v hk
    have hset : s.set .int64 k v = (.ok (), ⟨s.params_.assign k (StdAny.ofInt64 v)⟩) := by
      rw [Params.set_present .int64 s k v hk]
      simp [StdAny.type, IntegerParamType, make_any]
    have hf : (s.set .int64 k v).2.params_.find k = some (StdAny.ofInt64 v) := by
      rw [hset]
      exact Params.find_assign_self _ _ _
    refine ⟨by rw [hset], ?_, hf, ?_⟩
    · simp [Params.type, hf, StdAny.type, detail.getParamType, detail.getHandler,
        detail.kInt64Handler]
    · exact Params.get_of_find_make_any .int64 _ k v hf
  · intro x v hk
    have hset : s.set .int k v = (.ok (), ⟨s.params_.assign k (StdAny.ofInt v)⟩) := by
      rw [Params.set_present .int s k v hk]
      simp [StdAny.type, IntegerParamType, make_any]
    have hf : (s.set .int k v).2.params_.find k = some (StdAny.ofInt v) := by
      rw [hset]
      exact Params.find_assign_self _ _ _
    refine ⟨by rw [hset], ?_, hf, ?_⟩
    · simp [Params.type, hf, StdAny.type, detail.getParamType, detail.getHandler,
        detail.kIntHandler]
    · exact Params.get_of_find_make_any .int _ k v hf

/-- Witness of C3: `200LL` written over a key that holds the `int` 100. -/
theorem set_integer_pair_overwrite_witness :
    (Params.new.set .int "num" ⟨100, by decide, by decide⟩).2.params_.find "num"
      = some (StdAny.ofInt ⟨100, by decide, by decide⟩) ∧
    ((Params.new.set .int "num" ⟨100, by decide, by decide⟩).2.set .int64 "num" ⟨200, by decide, by decide⟩).2.type
      "num" = .ok "int64" :=
  ⟨by decide,
   ((set_integer_pair_overwrite (Params.new.set .int "num" ⟨100, by decide, by decide⟩).2 "num").1
      ⟨100, by decide, by decide⟩ ⟨200, by decide, by decide⟩ (by decide)).2.1⟩

/-- C4: `get<T>(k)` throws `std::out_of_range` if and only if `k` is absent,
for every supported `T`; for an absent key the exception is the one carrying
`"Param not found: "` followed by the key, never the type-mismatch
`std::runtime_error`. -/
theorem get_not_found_iff_absent (s : Params) (T : SupportedParamType) (k : String) :
    ((∃ what, s.get T k = .error (.out_of_range what)) ↔ s.have_ k = false) ∧
    (s.have_ k = false → s.get T k = .error (.out_of_range ("Param not found: " ++ k))) ∧
    (s.have_ k = false → ∀ key stored requested,
      s.get T k ≠ .error (.runtime_error key stored requested)) := by
  have habs : s.have_ k = false →
      s.get T k = .error (.out_of_range ("Param not found: " ++ k)) :=
    fun h => Params.get_absent T s k ((s.have_eq_false_iff k).mp h)
  refine ⟨⟨?_, fun h => ⟨_, habs h⟩⟩, habs, ?_⟩
  · rintro ⟨what, hw⟩
    cases hf : s.params_.find k with
    | none => exact (s.have_eq_false_iff k).mpr hf
    | some a =>
      exfalso
      cases T <;> cases a <;> simp [Params.get, hf, any_cast] at hw
  · intro h key stored requested
    rw [habs h]
    simp

/-- Witness of C4: reading a missing key of the empty store. -/
theorem get_not_found_iff_absent_witness :
    Params.new.have_ "missing" = false ∧
    Params.new.get .int "missing" = .error (.out_of_range ("Param not found: " ++ "missing")) :=
  ⟨by decide, (get_not_found_iff_absent Params.new .int "missing").2.1 (by decide)⟩

/-- C5: when `k` holds a value of type `S`, `get<T>(k)` throws the
type-mismatch `std::runtime_error` (naming the key, `S` and `T`) if and only if
`S` differs from `T` and the two are not both integer kinds; in every other
case it returns a value. -/
theorem get_type_mismatch_iff (s : Params) (k : String) (a : StdAny)
    (T : SupportedParamType) (hk : s.params_.find k = some a) :
    (s.get T k = .error (.runtime_error k a.type T.typeid) ↔
      (a.type ≠ T.typeid ∧
        ¬ ((a.type = TypeId.int ∨ a.type = TypeId.int64) ∧ IntegerParamType T = true))) ∧
    ((∃ e, s.get T k = .error e) ↔
      (a.type ≠ T.typeid ∧
        ¬ ((a.type = TypeId.int ∨ a.type = TypeId.int64) ∧ IntegerParamType T = true))) ∧
    ((∃ v, s.get T k = .ok v) ↔
      ¬ (a.type ≠ T.typeid ∧
        ¬ ((a.type = TypeId.int ∨ a.type = TypeId.int64) ∧ IntegerParamType T = true))) := by
  cases T <;> cases a <;>
    simp [Params.get, hk, any_cast, StdAny.type, SupportedParamType.typeid, IntegerParamType]

/-- Witness of C5: an `int` read as `double`. -/
theorem get_type_mismatch_iff_witness :
    (Params.new.set .int "value" ⟨42, by decide, by decide⟩).2.params_.find "value"
      = some (StdAny.ofInt ⟨42, by decide, by decide⟩) ∧
    (Params.new.set .int "value" ⟨42, by decide, by decide⟩).2.get .double "value"
      = .error (.runtime_error "value" TypeId.int TypeId.double) :=
  ⟨by decide,
   (get_type_mismatch_iff (Params.new.set .int "value" ⟨42, by decide, by decide⟩).2 "value"
      (StdAny.ofInt ⟨42, by decide, by decide⟩) .double (by decide)).1.mpr (by decide)⟩

end sequoia.utils

namespace sequoia.utils

/-- C6: widening. After `set<int>(k, v)` on a store where `k` is absent,
`get<int64_t>(k)` succeeds and returns the 64-bit integer with the same
mathematical value as `v`. -/
theorem get_int64_after_set_int (s : Params) (k : String) (v : CInt)
    (h : s.have_ k = false) :
    ∃ w : CInt64, (s.set .int k v).2.get .int64 k = .ok w ∧ w.val = v.val := by
  have hf : (s.set .int k v).2.params_.find k = some (StdAny.ofInt v) := by
    rw [Params.set_absent .int s k v ((s.have_eq_false_iff k).mp h)]
    exact Params.find_assign_self _ _ _
  exact ⟨static_cast_int64 v, by simp [Params.get, hf, any_cast], rfl⟩

/-- Witness of C6: the `int` 123 read back as `int64_t`. -/
theorem get_int64_after_set_int_witness :
    Params.new.have_ "num" = false ∧
    ∃ w : CInt64, (Params.new.set .int "num" ⟨123, by decide, by decide⟩).2.get .int64 "num" = .ok w ∧
      w.val = 123 :=
  ⟨by decide, get_int64_after_set_int Params.new "num" ⟨123, by decide, by decide⟩ (by decide)⟩

/-- C7: narrowing. When `k` holds the `int64_t` value `v`, `get<int>(k)` does
not throw; the `int` it returns is `v` itself when `v` is representable as
`int`, and in every case it is the `int` congruent to `v` modulo `2^32`. -/
theorem get_int_of_int64_narrows (s : Params) (k : String) (v : CInt64)
    (hk : s.params_.find k = some (StdAny.ofInt64 v)) :
    ∃ r : CInt, s.get .int k = .ok r ∧
      (-2147483648 ≤ v.val ∧ v.val ≤ 2147483647 → r.val = v.val) ∧
      r.val % 4294967296 = v.val % 4294967296 ∧
      -2147483648 ≤ r.val ∧ r.val ≤ 2147483647 := by
  refine ⟨static_cast_int v, by simp [Params.get, hk, any_cast], ?_, ?_, ?_, ?_⟩
  · intro hr
    simp only [static_cast_int]
    omega
  · simp only [static_cast_int]
    omega
  · exact (static_cast_int v).lo
  · exact (static_cast_int v).hi

/-- Witness of C7: the largest `int64_t` read as `int` gives -1. -/
theorem get_int_of_int64_narrows_witness :
    (Params.new.set .int64 "bignum" ⟨9223372036854775807, by decide, by decide⟩).2.params_.find "bignum"
      = some (StdAny.ofInt64 ⟨9223372036854775807, by decide, by decide⟩) ∧
    ∃ r : CInt,
      (Params.new.set .int64 "bignum" ⟨9223372036854775807, by decide, by decide⟩).2.get .int "bignum"
        = .ok r ∧
      (-2147483648 ≤ (9223372036854775807 : Int) ∧ (9223372036854775807 : Int) ≤ 2147483647 →
        r.val = 9223372036854775807) ∧
      r.val % 4294967296 = 9223372036854775807 % 4294967296 ∧
      -2147483648 ≤ r.val ∧ r.val ≤ 2147483647 :=
  ⟨by decide,
   get_int_of_int64_narrows (Params.new.set .int64 "bignum" ⟨9223372036854775807, by decide, by decide⟩).2
     "bignum" ⟨9223372036854775807, by decide, by decide⟩ (by decide)⟩

/-- C8: `try_get` is total. It is a function into `T` (there is no failing
outcome); it returns what `get<T>(k)` returns whenever that succeeds, and the
default whenever `get<T>(k)` throws, which covers the absent key and the type
mismatch. -/
theorem try_get_total (s : Params) (T : SupportedParamType) (k : String)
    (d : T.ValueType) :
    (∀ v, s.get T k = .ok v → s.try_get T k d = v) ∧
    (∀ e, s.get T k = .error e → s.try_get T k d = d) ∧
    (s.have_ k = false → s.try_get T k d = d) ∧
    (∀ a, s.params_.find k = some a → a.type ≠ T.typeid →
      ¬ ((a.type = TypeId.int ∨ a.type = TypeId.int64) ∧ IntegerParamType T = true) →
      s.try_get T k d = d) := by
  have hok : ∀ v, s.get T k = .ok v → s.try_get T k d = v := by
    intro v h
    simp [Params.try_get, h]
  have herr : ∀ e, s.get T k = .error e → s.try_get T k d = d := by
    intro e h
    simp [Params.try_get, h]
  refine ⟨hok, herr, ?_, ?_⟩
  · intro h
    exact herr _ (Params.get_absent T s k ((s.have_eq_false_iff k).mp h))
  · intro a hk h1 h2
    exact herr _ (Params.get_mismatch T s k hk h1 h2)

/-- Witness of C8: an `int` key read through `try_get` as `int64_t` (the
converted value), and as `double` (the default). -/
theorem try_get_total_witness :
    (Params.new.set .int "value" ⟨42, by decide, by decide⟩).2.get .int64 "value"
      = .ok ⟨42, by decide, by decide⟩ ∧
    (Params.new.set .int "value" ⟨42, by decide, by decide⟩).2.try_get .int64 "value" ⟨99, by decide, by decide⟩
      = ⟨42, by decide, by decide⟩ :=
  ⟨by decide,
   (try_get_total (Params.new.set .int "value" ⟨42, by decide, by decide⟩).2 .int64 "value"
      ⟨99, by decide, by decide⟩).1 ⟨42, by decide, by decide⟩ (by decide)⟩

end sequoia.utils

/-! ## Frame properties of `set` and `remove` -/

namespace sequoia.utils

/-- C9: `set` modifies only the entry of its key. Whenever `set<T>(k, v)`
succeeds, every other key has the same entry afterwards as before (the same
presence under `have`, the same kind under `type`, the same value under every
`get`), and `size` has grown by exactly one when `k` was absent and is
unchanged when `k` was present. -/
theorem set_frame (s : Params) (T : SupportedParamType) (k : String) (v : T.ValueType)
    (h : (s.set T k v).1 = .ok ()) :
    (∀ k2, k2 ≠ k →
      (s.set T k v).2.params_.find k2 = s.params_.find k2 ∧
      (s.set T k v).2.have_ k2 = s.have_ k2 ∧
      (s.set T k v).2.type k2 = s.type k2 ∧
      ∀ T2, (s.set T k v).2.get T2 k2 = s.get T2 k2) ∧
    (s.have_ k = false → (s.set T k v).2.size = s.size + 1) ∧
    (s.have_ k = true → (s.set T k v).2.size = s.size) := by
  have hset : s.set T k v = (.ok (), ⟨s.params_.assign k (make_any T v)⟩) := by
    cases hf : s.params_.find k with
    | none => exact Params.set_absent T s k v hf
    | some a =>
      rw [Params.set_present T s k v hf] at h ⊢
      split_ifs at h ⊢
      rfl
  rw [hset]
  refine ⟨?_, ?_, ?_⟩
  · intro k2 hne
    have hfind : (s.params_.assign k (make_any T v)).find k2 = s.params_.find k2 :=
      Params.find_assign_other _ _ hne
    refine ⟨hfind, ?_, ?_, ?_⟩
    · simp only [Params.have_, ParamMap.contains, hfind]
    · simp only [Params.type, hfind]
    · intro T2
      simp only [Params.get, hfind]
  · intro habs
    exact length_assignEntry_absent _ ((s.have_eq_false_iff k).mp habs)
  · intro hpres
    obtain ⟨a, ha⟩ := (s.have_eq_true_iff k).mp hpres
    exact length_assignEntry_present _ s.params_.ordered ha

/-- Witness of C9: overwriting `value` in a store that also holds `other`. -/
theorem set_frame_witness :
    (((Params.new.set .int "value" ⟨10, by decide, by decide⟩).2.set .bool "other" true).2.set
      .int "value" ⟨20, by decide, by decide⟩).1 = .ok () ∧
    (((Params.new.set .int "value" ⟨10, by decide, by decide⟩).2.set .bool "other" true).2.set
      .int "value" ⟨20, by decide, by decide⟩).2.size
      = ((Params.new.set .int "value" ⟨10, by decide, by decide⟩).2.set .bool "other" true).2.size :=
  ⟨by decide,
   (set_frame ((Params.new.set .int "value" ⟨10, by decide, by decide⟩).2.set .bool "other" true).2
      .int "value" ⟨20, by decide, by decide⟩ (by decide)).2.2 (by decide)⟩

/-- C10: `remove(k)` returns true if and only if `k` was present; afterwards
`have(k)` is false and every other key keeps its entry (presence, kind and
value); `size` has decreased by exactly one when true was returned, and the
store is unchanged when false was returned. -/
theorem remove_spec (s : Params) (k : String) :
    ((s.remove k).1 = true ↔ s.have_ k = true) ∧
    (s.remove k).2.have_ k = false ∧
    (∀ k2, k2 ≠ k →
      (s.remove k).2.params_.find k2 = s.params_.find k2 ∧
      (s.remove k).2.have_ k2 = s.have_ k2 ∧
      (s.remove k).2.type k2 = s.type k2 ∧
      ∀ T2, (s.remove k).2.get T2 k2 = s.get T2 k2) ∧
    ((s.remove k).1 = true → (s.remove k).2.size + 1 = s.size) ∧
    ((s.remove k).1 = false → (s.remove k).2 = s) := by
  cases hf : s.params_.find k with
  | none =>
    have hh : s.have_ k = false := (s.have_eq_false_iff k).mpr hf
    have hr : s.remove k = (false, s) := by
      simp [Params.remove, ParamMap.erase, hf]
    rw [hr]
    simp [hh]
  | some a =>
    have hh : s.have_ k = true := (s.have_eq_true_iff k).mpr ⟨a, hf⟩
    have hr1 : (s.remove k).1 = true := by
      simp [Params.remove, ParamMap.erase, hf]
    have hr2 : (s.remove k).2.params_.entries = eraseEntry k s.params_.entries := by
      simp [Params.remove, ParamMap.erase, hf]
    have hfind : ∀ k2, (s.remove k).2.params_.find k2
        = findEntry k2 (eraseEntry k s.params_.entries) := by
      intro k2
      unfold ParamMap.find
      rw [hr2]
    refine ⟨by simp [hh, hr1], ?_, ?_, ?_, by simp [hr1]⟩
    · apply (Params.have_eq_false_iff _ k).mpr
      rw [hfind]
      exact findEntry_eraseEntry_self s.params_.ordered
    · intro k2 hne
      have hfind2 : (s.remove k).2.params_.find k2 = s.params_.find k2 := by
        rw [hfind]
        exact findEntry_eraseEntry_other hne s.params_.entries
      refine ⟨hfind2, ?_, ?_, ?_⟩
      · simp only [Params.have_, ParamMap.contains, hfind2]
      · simp only [Params.type, hfind2]
      · intro T2
        simp only [Params.get, hfind2]
    · intro _
      unfold Params.size ParamMap.size
      rw [hr2]
      exact length_eraseEntry_present hf

/-- Witness of C10: removing `key1` from a store holding `key1` and `key2`. -/
theorem remove_spec_witness :
    (((Params.new.set .int "key1" ⟨1, by decide, by decide⟩).2.set .int "key2"
      ⟨2, by decide, by decide⟩).2.remove "key1").1 = true ∧
    (((Params.new.set .int "key1" ⟨1, by decide, by decide⟩).2.set .int "key2"
      ⟨2, by decide, by decide⟩).2.remove "key1").2.size + 1
      = ((Params.new.set .int "key1" ⟨1, by decide, by decide⟩).2.set .int "key2"
          ⟨2, by decide, by decide⟩).2.size :=
  ⟨by decide,
   (remove_spec ((Params.new.set .int "key1" ⟨1, by decide, by decide⟩).2.set .int "key2"
      ⟨2, by decide, by decide⟩).2 "key1").2.2.2.1 (by decide)⟩

end sequoia.utils

/-! ## Stores with the same keys hold them at the same positions -/

namespace sequoia.utils

theorem findEntry_cons_self (k : String) (v : StdAny) (rest : List Entry) :
    findEntry k ((k, v) :: rest) = some v := by
  simp [findEntry]

theorem findEntry_cons_ne {k key : String} (v : StdAny) (rest : List Entry) (h : k ≠ key) :
    findEntry key ((k, v) :: rest) = findEntry key rest := by
  simp [findEntry, h]

theorem findEntry_isSome_iff_mem_keys (key : String) (l : List Entry) :
    (findEntry key l).isSome = true ↔ key ∈ l.map Prod.fst := by
  induction l with
  | nil => simp [findEntry]
  | cons e rest ih =>
    obtain ⟨k, v⟩ := e
    by_cases hk : k = key
    · subst hk
      simp [findEntry]
    · have hk2 : ¬ key = k := fun h => hk h.symm
      rw [findEntry_cons_ne v rest hk, ih]
      simp [hk2]

theorem forall₂_of_findRel (R : StdAny → StdAny → Prop) :
    ∀ (l1 l2 : List Entry), l1.Pairwise Entry.less → l2.Pairwise Entry.less →
      (∀ k, FindRel R (findEntry k l1) (findEntry k l2)) →
      List.Forall₂ (fun e1 e2 => e1.1 = e2.1 ∧ R e1.2 e2.2) l1 l2 := by
  intro l1
  induction l1 with
  | nil =>
    intro l2 _ _ h
    cases l2 with
    | nil => exact List.Forall₂.nil
    | cons e2 r2 =>
      obtain ⟨k2, v2⟩ := e2
      have := h k2
      rw [findEntry_cons_self] at this
      simp [findEntry, FindRel] at this
  | cons e1 r1 ih =>
    intro l2 hl1 hl2 h
    obtain ⟨k1, v1⟩ := e1
    cases l2 with
    | nil =>
      have := h k1
      rw [findEntry_cons_self] at this
      simp [findEntry, FindRel] at this
    | cons e2 r2 =>
      obtain ⟨k2, v2⟩ := e2
      have hh1 := (List.pairwise_cons.mp hl1).1
      have ht1 := (List.pairwise_cons.mp hl1).2
      have hh2 := (List.pairwise_cons.mp hl2).1
      have ht2 := (List.pairwise_cons.mp hl2).2
      have hk : k1 = k2 := by
        by_contra hne
        have hne2 : k2 ≠ k1 := fun e => hne e.symm
        have a1 := h k1
        rw [findEntry_cons_self, findEntry_cons_ne v2 r2 hne2] at a1
        have a2 := h k2
        rw [findEntry_cons_self, findEntry_cons_ne v1 r1 hne] at a2
        cases hf1 : findEntry k1 r2 with
        | none => rw [hf1] at a1; exact a1
        | some b1 =>
          cases hf2 : findEntry k2 r1 with
          | none => rw [hf2] at a2; exact a2
          | some b2 =>
            have lt1 : k2.data < k1.data := hh2 (k1, b1) (findEntry_mem hf1)
            have lt2 : k1.data < k2.data := hh1 (k2, b2) (findEntry_mem hf2)
            exact lt_asymm lt1 lt2
      subst hk
      have hv : R v1 v2 := by
        have a1 := h k1
        rw [findEntry_cons_self, findEntry_cons_self] at a1
        exact a1
      refine List.Forall₂.cons ⟨rfl, hv⟩ (ih r2 ht1 ht2 ?_)
      intro k
      by_cases hkk : k1 = k
      · subst hkk
        rw [findEntry_none_of_lower hh1, findEntry_none_of_lower hh2]
        exact True.intro
      · have a := h k
        rw [findEntry_cons_ne v1 r1 hkk, findEntry_cons_ne v2 r2 hkk] at a
        exact a

theorem findRel_of_forall₂ (R : StdAny → StdAny → Prop) :
    ∀ (l1 l2 : List Entry),
      List.Forall₂ (fun e1 e2 => e1.1 = e2.1 ∧ R e1.2 e2.2) l1 l2 →
      ∀ k, FindRel R (findEntry k l1) (findEntry k l2) := by
  intro l1 l2 h
  induction h with
  | nil => intro k; exact True.intro
  | @cons e1 e2 r1 r2 hab _ ih =>
    obtain ⟨k1, v1⟩ := e1
    obtain ⟨k2, v2⟩ := e2
    obtain ⟨hk, hv⟩ := hab
    simp only at hk hv
    subst hk
    intro k
    by_cases hkk : k1 = k
    · subst hkk
      rw [findEntry_cons_self, findEntry_cons_self]
      exact hv
    · rw [findEntry_cons_ne v1 r1 hkk, findEntry_cons_ne v2 r2 hkk]
      exact ih k

theorem entries_eq_of_find_eq (l1 l2 : List Entry) (h1 : l1.Pairwise Entry.less)
    (h2 : l2.Pairwise Entry.less) (h : ∀ k, findEntry k l1 = findEntry k l2) : l1 = l2 := by
  have hr : ∀ k, FindRel Eq (findEntry k l1) (findEntry k l2) := by
    intro k
    rw [h k]
    cases findEntry k l2 <;> simp [FindRel]
  have hf := forall₂_of_findRel Eq l1 l2 h1 h2 hr
  have hf2 : List.Forall₂ Eq l1 l2 := by
    refine List.Forall₂.imp ?_ hf
    intro a b hab
    exact Prod.ext hab.1 hab.2
  exact List.forall₂_eq_eq_eq ▸ hf2

theorem Params.ext_find (a b : Params) (h : ∀ k, a.params_.find k = b.params_.find k) :
    a = b := by
  obtain ⟨⟨l1, h1⟩⟩ := a
  obtain ⟨⟨l2, h2⟩⟩ := b
  have : l1 = l2 := entries_eq_of_find_eq l1 l2 h1 h2 h
  subst this
  rfl

end sequoia.utils

/-! ## Enumeration of the keys -/

namespace sequoia.utils

theorem foldl_push_back (acc l : List String) :
    l.foldl (fun result key => result ++ [key]) acc = acc ++ l := by
  induction l generalizing acc with
  | nil => simp
  | cons a rest ih => simp [List.foldl, ih]

theorem map_fst_eq_of_forall₂ {l1 l2 : List Entry}
    (h : List.Forall₂ (fun e1 e2 : Entry => e1.1 = e2.1) l1 l2) :
    l1.map Prod.fst = l2.map Prod.fst := by
  induction h with
  | nil => rfl
  | cons hab _ ih => simp [hab, ih]

theorem Params.keys_eq_map (s : Params) : s.keys = s.params_.entries.map Prod.fst := by
  unfold Params.keys Params.keys_view
  rw [foldl_push_back]
  simp

theorem Params.have_iff_mem_keys (s : Params) (k : String) :
    s.have_ k = true ↔ k ∈ s.params_.entries.map Prod.fst :=
  findEntry_isSome_iff_mem_keys k s.params_.entries

/-- C11: for every store (whatever sequence of `set` and `remove` calls built
it), `keys()` is the sequence enumerated by `keys_view()`, it is strictly
ascending in the lexicographic order of the keys, its length is `size()`, and
it contains exactly the keys `k` with `have(k)` true; two stores with the same
set of present keys, however they were built, have the same `keys()`. -/
theorem keys_ascending_complete (s : Params) :
    s.keys = s.keys_view ∧
    s.keys.Pairwise (fun a b => a.data < b.data) ∧
    s.keys.length = s.size ∧
    (∀ k, k ∈ s.keys ↔ s.have_ k = true) ∧
    (∀ t : Params, (∀ k, t.have_ k = s.have_ k) → t.keys = s.keys) := by
  refine ⟨?_, ?_, ?_, ?_, ?_⟩
  · rw [Params.keys_eq_map]
    rfl
  · rw [Params.keys_eq_map]
    exact List.pairwise_map.mpr s.params_.ordered
  · rw [Params.keys_eq_map]
    simp [Params.size, ParamMap.size]
  · intro k
    rw [Params.keys_eq_map]
    exact (s.have_iff_mem_keys k).symm
  · intro t h
    rw [Params.keys_eq_map, Params.keys_eq_map]
    have hr : ∀ k, FindRel (fun _ _ => True) (findEntry k t.params_.entries)
        (findEntry k s.params_.entries) := by
      intro k
      have hk := h k
      unfold Params.have_ ParamMap.contains ParamMap.find at hk
      cases h1 : findEntry k t.params_.entries <;>
        cases h2 : findEntry k s.params_.entries <;>
        simp [h1, h2, FindRel] at hk ⊢
    have hf := forall₂_of_findRel (fun _ _ => True) _ _ t.params_.ordered s.params_.ordered hr
    have hf2 : List.Forall₂ (fun e1 e2 : Entry => e1.1 = e2.1) t.params_.entries
        s.params_.entries := List.Forall₂.imp (fun _ _ hab => hab.1) hf
    exact map_fst_eq_of_forall₂ hf2

/-- Witness of C11: the keys `c`, `a`, `b` set in that order and in the order
`a`, `b`, `c` give the same ascending `keys()`. -/
theorem keys_ascending_complete_witness :
    (∀ k, (((Params.new.set .int "c" ⟨3, by decide, by decide⟩).2.set .int "a"
        ⟨1, by decide, by decide⟩).2.set .int "b" ⟨2, by decide, by decide⟩).2.have_ k
      = (((Params.new.set .bool "a" true).2.set .bool "b" true).2.set .bool "c"
          true).2.have_ k) ∧
    (((Params.new.set .int "c" ⟨3, by decide, by decide⟩).2.set .int "a"
        ⟨1, by decide, by decide⟩).2.set .int "b" ⟨2, by decide, by decide⟩).2.keys
      = ["a", "b", "c"] := by
  have hk : ∀ k, (((Params.new.set .int "c" ⟨3, by decide, by decide⟩).2.set .int "a"
        ⟨1, by decide, by decide⟩).2.set .int "b" ⟨2, by decide, by decide⟩).2.have_ k
      = (((Params.new.set .bool "a" true).2.set .bool "b" true).2.set .bool "c"
          true).2.have_ k := by
    intro k
    have e1 : (((Params.new.set .int "c" ⟨3, by decide, by decide⟩).2.set .int "a"
        ⟨1, by decide, by decide⟩).2.set .int "b" ⟨2, by decide, by decide⟩).2.params_.entries
        = [("a", StdAny.ofInt ⟨1, by decide, by decide⟩),
           ("b", StdAny.ofInt ⟨2, by decide, by decide⟩),
           ("c", StdAny.ofInt ⟨3, by decide, by decide⟩)] := by decide
    have e2 : (((Params.new.set .bool "a" true).2.set .bool "b" true).2.set .bool "c"
        true).2.params_.entries
        = [("a", StdAny.ofBool true), ("b", StdAny.ofBool true), ("c", StdAny.ofBool true)] := by
      decide
    unfold Params.have_ ParamMap.contains ParamMap.find
    rw [e1, e2]
    simp only [findEntry]
    split_ifs <;> rfl
  refine ⟨hk, ?_⟩
  rw [(keys_ascending_complete _).2.2.2.2 _ hk]
  decide

end sequoia.utils

/-! ## The equality operator -/

namespace sequoia.utils

theorem equal_dispatch (v1 v2 : StdAny)
    (hk : detail.getParamType v1.type = detail.getParamType v2.type)
    (hu : detail.getParamType v1.type ≠ detail.ParamType.Unknown) :
    ∃ h b, detail.getHandler (detail.getParamType v1.type) = some h ∧
      h.equal v1 v2 = some b := by
  cases v1 <;> cases v2 <;>
    first
    | exact ⟨_, _, rfl, rfl⟩
    | exact absurd rfl hu
    | exact detail.ParamType.noConfusion hk

theorem Params.op_eq_loop_cons (k1 k2 : String) (v1 v2 : StdAny) (r1 r2 : List Entry) :
    Params.op_eq_loop ((k1, v1) :: r1) ((k2, v2) :: r2) =
      if k1 ≠ k2 then some false
      else if detail.getParamType v1.type ≠ detail.getParamType v2.type then some false
      else if detail.getParamType v1.type = detail.ParamType.Unknown then some false
      else
        match detail.getHandler (detail.getParamType v1.type) with
        | some handler =>
          match handler.equal v1 v2 with
          | some b => if !b then some false else Params.op_eq_loop r1 r2
          | none => none
        | none => Params.op_eq_loop r1 r2 := by
  rw [Params.op_eq_loop]

theorem Params.op_eq_loop_cons_true_iff (k1 k2 : String) (v1 v2 : StdAny)
    (r1 r2 : List Entry) :
    Params.op_eq_loop ((k1, v1) :: r1) ((k2, v2) :: r2) = some true ↔
      k1 = k2 ∧ SameKindAndValue v1 v2 ∧ Params.op_eq_loop r1 r2 = some true := by
  rw [Params.op_eq_loop_cons]
  by_cases hk : k1 = k2
  swap
  · simp [hk]
  by_cases ht : detail.getParamType v1.type = detail.getParamType v2.type
  swap
  · simp [hk, ht, SameKindAndValue]
  by_cases hu : detail.getParamType v1.type = detail.ParamType.Unknown
  · have : ¬ SameKindAndValue v1 v2 := by
      rintro ⟨_, h, hh, _⟩
      rw [hu] at hh
      simp [detail.getHandler] at hh
    rw [if_neg (not_not.mpr hk), if_neg (not_not.mpr ht), if_pos hu]
    simp [this]
  obtain ⟨h, b, hh, hb⟩ := equal_dispatch v1 v2 ht hu
  have hs : SameKindAndValue v1 v2 ↔ b = true := by
    constructor
    · rintro ⟨_, h2, hh2, hb2⟩
      rw [hh] at hh2
      cases hh2
      rw [hb] at hb2
      exact Option.some.inj hb2
    · intro e
      exact ⟨ht, h, hh, by rw [hb, e]⟩
  rw [if_neg (not_not.mpr hk), if_neg (not_not.mpr ht), if_neg hu]
  simp only [hh, hb, hs]
  cases b <;> simp [hk]

theorem Params.op_eq_loop_isSome (l1 l2 : List Entry) :
    ∃ b, Params.op_eq_loop l1 l2 = some b := by
  induction l1 generalizing l2 with
  | nil => exact ⟨true, by simp [Params.op_eq_loop]⟩
  | cons e1 r1 ih =>
    cases l2 with
    | nil => exact ⟨true, by simp [Params.op_eq_loop]⟩
    | cons e2 r2 =>
      obtain ⟨k1, v1⟩ := e1
      obtain ⟨k2, v2⟩ := e2
      rw [Params.op_eq_loop_cons]
      by_cases hk : k1 = k2
      swap
      · exact ⟨false, by simp [hk]⟩
      by_cases ht : detail.getParamType v1.type = detail.getParamType v2.type
      swap
      · exact ⟨false, by simp [hk, ht]⟩
      by_cases hu : detail.getParamType v1.type = detail.ParamType.Unknown
      · exact ⟨false, by rw [if_neg (not_not.mpr hk), if_neg (not_not.mpr ht), if_pos hu]⟩
      obtain ⟨h, b, hh, hb⟩ := equal_dispatch v1 v2 ht hu
      rw [if_neg (not_not.mpr hk), if_neg (not_not.mpr ht), if_neg hu]
      simp only [hh, hb]
      cases b
      · exact ⟨false, by simp⟩
      · simpa using ih r2

theorem Params.op_eq_loop_true_iff :
    ∀ (l1 l2 : List Entry), l1.length = l2.length →
      (Params.op_eq_loop l1 l2 = some true ↔
        List.Forall₂ (fun e1 e2 => e1.1 = e2.1 ∧ SameKindAndValue e1.2 e2.2) l1 l2) := by
  intro l1
  induction l1 with
  | nil =>
    intro l2 hlen
    cases l2 with
    | nil => simp [Params.op_eq_loop]
    | cons e2 r2 => simp at hlen
  | cons e1 r1 ih =>
    intro l2 hlen
    cases l2 with
    | nil => simp at hlen
    | cons e2 r2 =>
      obtain ⟨k1, v1⟩ := e1
      obtain ⟨k2, v2⟩ := e2
      have hlen2 : r1.length = r2.length := by simpa using hlen
      rw [Params.op_eq_loop_cons_true_iff, List.forall₂_cons, ih r2 hlen2]
      simp only [and_assoc]

end sequoia.utils

namespace sequoia.utils

theorem Params.op_eq_true_iff_forall₂ (A B : Params) :
    A.op_eq B = some true ↔
      List.Forall₂ (fun e1 e2 => e1.1 = e2.1 ∧ SameKindAndValue e1.2 e2.2)
        A.params_.entries B.params_.entries := by
  unfold Params.op_eq
  by_cases hs : A.size = B.size
  · rw [if_neg (not_not.mpr hs)]
    exact Params.op_eq_loop_true_iff _ _ hs
  · rw [if_pos hs]
    constructor
    · intro h
      simp at h
    · intro h
      exact absurd h.length_eq hs

theorem Params.op_eq_isSome (A B : Params) : ∃ r, A.op_eq B = some r := by
  unfold Params.op_eq
  split_ifs
  · exact ⟨false, rfl⟩
  · exact Params.op_eq_loop_isSome _ _

theorem Params.op_eq_false_of_not_true (A B : Params) (h : A.op_eq B ≠ some true) :
    A.op_eq B = some false := by
  obtain ⟨r, hr⟩ := Params.op_eq_isSome A B
  cases r
  · exact hr
  · exact absurd hr h

theorem SameKindAndValue.supported_left {a b : StdAny} (h : SameKindAndValue a b) :
    Params.support a = true := by
  obtain ⟨_, handler, hh, _⟩ := h
  unfold Params.support
  cases hp : detail.getParamType a.type <;> simp [hp, detail.getHandler] at hh ⊢

theorem SameKindAndValue.supported_right {a b : StdAny} (h : SameKindAndValue a b) :
    Params.support b = true := by
  have hl := h.supported_left
  unfold Params.support at hl ⊢
  rw [← h.1]
  exact hl

theorem sameKindAndValue_ofBool (a b : Bool) :
    SameKindAndValue (StdAny.ofBool a) (StdAny.ofBool b) ↔ a = b := by
  constructor
  · rintro ⟨_, h, hh, he⟩
    have e : detail.kBoolHandler = h := Option.some.inj hh
    subst e
    simpa [detail.kBoolHandler, detail.equal_value, any_cast, detail.builtin_eq] using he
  · intro e
    exact ⟨rfl, detail.kBoolHandler, rfl, by
      simp [detail.kBoolHandler, detail.equal_value, any_cast, detail.builtin_eq, e]⟩

theorem sameKindAndValue_ofInt (a b : CInt) :
    SameKindAndValue (StdAny.ofInt a) (StdAny.ofInt b) ↔ a.val = b.val := by
  constructor
  · rintro ⟨_, h, hh, he⟩
    have e : detail.kIntHandler = h := Option.some.inj hh
    subst e
    simpa [detail.kIntHandler, detail.equal_value, any_cast, detail.builtin_eq] using he
  · intro e
    exact ⟨rfl, detail.kIntHandler, rfl, by
      simp [detail.kIntHandler, detail.equal_value, any_cast, detail.builtin_eq, e]⟩

theorem sameKindAndValue_ofInt64 (a b : CInt64) :
    SameKindAndValue (StdAny.ofInt64 a) (StdAny.ofInt64 b) ↔ a.val = b.val := by
  constructor
  · rintro ⟨_, h, hh, he⟩
    have e : detail.kInt64Handler = h := Option.some.inj hh
    subst e
    simpa [detail.kInt64Handler, detail.equal_value, any_cast, detail.builtin_eq] using he
  · intro e
    exact ⟨rfl, detail.kInt64Handler, rfl, by
      simp [detail.kInt64Handler, detail.equal_value, any_cast, detail.builtin_eq, e]⟩

theorem sameKindAndValue_ofDouble (a b : CDouble) :
    SameKindAndValue (StdAny.ofDouble a) (StdAny.ofDouble b) ↔ CDouble.eq a b = true := by
  constructor
  · rintro ⟨_, h, hh, he⟩
    have e : detail.kDoubleHandler = h := Option.some.inj hh
    subst e
    simpa [detail.kDoubleHandler, detail.equal_value, any_cast, detail.builtin_eq] using he
  · intro e
    exact ⟨rfl, detail.kDoubleHandler, rfl, by
      simp [detail.kDoubleHandler, detail.equal_value, any_cast, detail.builtin_eq, e]⟩

theorem sameKindAndValue_iff_equalKindAndValue (a b : StdAny) :
    SameKindAndValue a b ↔ EqualKindAndValue a b := by
  cases a <;> cases b <;>
    first
    | exact sameKindAndValue_ofBool _ _
    | exact sameKindAndValue_ofInt _ _
    | exact sameKindAndValue_ofInt64 _ _
    | (rw [sameKindAndValue_ofDouble]
       simp only [EqualKindAndValue, CDouble.eq, Bool.and_eq_true, Bool.not_eq_true',
         decide_eq_true_eq, and_assoc])
    | (constructor
       · rintro ⟨hk, h, hh, _⟩
         first
         | exact detail.ParamType.noConfusion hk
         | exact Option.noConfusion hh
       · intro h
         exact h.elim)

/-- C12: equality characterisation. For every two stores `A == B` returns,
and it holds if and only if the stores have the same size, the same set of
keys, and under every key values of the same kind and the same value: two
`bool`s that are the same, two `int`s or two `int64_t`s of the same value,
two `double`s that are `==` (neither a NaN, and at the same place of the
number line); an entry of no supported kind has no `==` and equals
nothing. -/
theorem op_eq_characterisation (A B : Params) :
    (∃ r, A.op_eq B = some r) ∧
    (A.op_eq B = some true ↔
      A.size = B.size ∧
      (∀ k, A.have_ k = B.have_ k) ∧
      (∀ k a b, A.params_.find k = some a → B.params_.find k = some b →
        EqualKindAndValue a b)) := by
  refine ⟨Params.op_eq_isSome A B, ?_⟩
  rw [Params.op_eq_true_iff_forall₂]
  constructor
  · intro h
    have hr := findRel_of_forall₂ SameKindAndValue _ _ h
    refine ⟨h.length_eq, ?_, ?_⟩
    · intro k
      have hk := hr k
      unfold Params.have_ ParamMap.contains ParamMap.find
      cases h1 : findEntry k A.params_.entries <;>
        cases h2 : findEntry k B.params_.entries <;>
        simp [h1, h2, FindRel] at hk ⊢
    · intro k a b ha hb
      have hk := hr k
      unfold ParamMap.find at ha hb
      rw [ha, hb] at hk
      exact (sameKindAndValue_iff_equalKindAndValue a b).mp hk
  · rintro ⟨_, hkeys, hvals⟩
    apply forall₂_of_findRel SameKindAndValue _ _ A.params_.ordered B.params_.ordered
    intro k
    have hk := hkeys k
    unfold Params.have_ ParamMap.contains ParamMap.find at hk
    cases h1 : findEntry k A.params_.entries with
    | none =>
      cases h2 : findEntry k B.params_.entries with
      | none => exact True.intro
      | some b => simp [h1, h2] at hk
    | some a =>
      cases h2 : findEntry k B.params_.entries with
      | none => simp [h1, h2] at hk
      | some b => exact (sameKindAndValue_iff_equalKindAndValue a b).mpr (hvals k a b h1 h2)

/-- Witness of C12: two stores set to `a = 1`, `b = true` in opposite orders
are `==`, hence hold the same `int` under `a`; the stores `a = 1` and `a = 2`
are not `==`. -/
theorem op_eq_characterisation_witness :
    ((Params.new.set .int "a" ⟨1, by decide, by decide⟩).2.set .bool "b" true).2.op_eq
      ((Params.new.set .bool "b" true).2.set .int "a" ⟨1, by decide, by decide⟩).2
      = some true ∧
    EqualKindAndValue (StdAny.ofInt ⟨1, by decide, by decide⟩)
      (StdAny.ofInt ⟨1, by decide, by decide⟩) ∧
    (Params.new.set .int "a" ⟨1, by decide, by decide⟩).2.op_eq
      (Params.new.set .int "a" ⟨2, by decide, by decide⟩).2 ≠ some true :=
  ⟨by decide,
   ((op_eq_characterisation
      ((Params.new.set .int "a" ⟨1, by decide, by decide⟩).2.set .bool "b" true).2
      ((Params.new.set .bool "b" true).2.set .int "a" ⟨1, by decide, by decide⟩).2).2.mp
      (by decide)).2.2 "a" _ _ (by decide) (by decide),
   fun h => absurd
     (((op_eq_characterisation (Params.new.set .int "a" ⟨1, by decide, by decide⟩).2
        (Params.new.set .int "a" ⟨2, by decide, by decide⟩).2).2.mp h).2.2 "a"
        (StdAny.ofInt ⟨1, by decide, by decide⟩) (StdAny.ofInt ⟨2, by decide, by decide⟩)
        (by decide) (by decide))
     (fun h2 => absurd (show (1 : Int) = 2 from h2) (by decide))⟩

/-- C14: a store that holds an entry of a kind outside the four supported
ones is `==` to no store: for every store `B` both `A == B` and `B == A` are
false, and `A == A` is false. -/
theorem op_eq_unsupported_never_equal (A B : Params) (k : String) (a : StdAny)
    (hk : A.params_.find k = some a) (hu : Params.support a = false) :
    A.op_eq B = some false ∧ B.op_eq A = some false ∧ A.op_eq A = some false := by
  have left : ∀ C : Params, A.op_eq C = some false := by
    intro C
    apply Params.op_eq_false_of_not_true
    intro h
    have hr := findRel_of_forall₂ SameKindAndValue _ _
      ((Params.op_eq_true_iff_forall₂ A C).mp h) k
    unfold ParamMap.find at hk
    rw [hk] at hr
    cases h2 : findEntry k C.params_.entries with
    | none => simp [h2, FindRel] at hr
    | some c =>
      rw [h2] at hr
      have hs : Params.support a = true := SameKindAndValue.supported_left hr
      rw [hu] at hs
      exact Bool.false_ne_true hs
  refine ⟨left B, ?_, left A⟩
  apply Params.op_eq_false_of_not_true
  intro h
  have hr := findRel_of_forall₂ SameKindAndValue _ _
    ((Params.op_eq_true_iff_forall₂ B A).mp h) k
  unfold ParamMap.find at hk
  rw [hk] at hr
  cases h2 : findEntry k B.params_.entries with
  | none => simp [h2, FindRel] at hr
  | some c =>
    rw [h2] at hr
    have hs : Params.support a = true := SameKindAndValue.supported_right hr
    rw [hu] at hs
    exact Bool.false_ne_true hs

/-- Witness of C14: a store given a `std::string` through `set_any`. -/
theorem op_eq_unsupported_never_equal_witness :
    (set_any Params.new "name" (StdAny.ofOther "std::string" "abc")).2.params_.find "name"
      = some (StdAny.ofOther "std::string" "abc") ∧
    Params.support (StdAny.ofOther "std::string" "abc") = false ∧
    (set_any Params.new "name" (StdAny.ofOther "std::string" "abc")).2.op_eq
      (set_any Params.new "name" (StdAny.ofOther "std::string" "abc")).2 = some false :=
  ⟨by decide, by decide,
   (op_eq_unsupported_never_equal
      (set_any Params.new "name" (StdAny.ofOther "std::string" "abc")).2
      Params.new "name" (StdAny.ofOther "std::string" "abc") (by decide) (by decide)).2.2⟩

end sequoia.utils

/-! ## Equality and the order of insertion -/

namespace sequoia.utils

theorem Params.find_set_other (T : SupportedParamType) (s : Params) {k k2 : String}
    (v : T.ValueType) (hne : k2 ≠ k) :
    (s.set T k v).2.params_.find k2 = s.params_.find k2 := by
  cases hf : s.params_.find k with
  | none =>
    rw [Params.set_absent T s k v hf]
    exact Params.find_assign_other _ _ hne
  | some a =>
    rw [Params.set_present T s k v hf]
    split_ifs
    · exact Params.find_assign_other _ _ hne
    · rfl

theorem Params.set_all_cons (s : Params) (p : String × TypedValue)
    (l : List (String × TypedValue)) :
    s.set_all (p :: l) = ((s.set p.2.1 p.1 p.2.2).2).set_all l := rfl

theorem Params.find_set_all_other (k : String) :
    ∀ (l : List (String × TypedValue)) (s : Params), (∀ p ∈ l, p.1 ≠ k) →
      (s.set_all l).params_.find k = s.params_.find k := by
  intro l
  induction l with
  | nil => intro s _; rfl
  | cons p rest ih =>
    intro s h
    rw [Params.set_all_cons, ih _ (fun q hq => h q (List.mem_cons_of_mem _ hq))]
    exact Params.find_set_other _ s _ (fun e => h p (List.mem_cons_self _ _) e.symm)

theorem Params.find_set_all_mem :
    ∀ (l : List (String × TypedValue)) (s : Params), (l.map Prod.fst).Nodup →
      (∀ p ∈ l, s.params_.find p.1 = none) →
      ∀ p ∈ l, (s.set_all l).params_.find p.1 = some (make_any p.2.1 p.2.2) := by
  intro l
  induction l with
  | nil => intro s _ _ p hp; simp at hp
  | cons q rest ih =>
    intro s hnd hfresh p hp
    have hnd2 : q.1 ∉ rest.map Prod.fst ∧ (rest.map Prod.fst).Nodup :=
      List.nodup_cons.mp hnd
    have hq : s.params_.find q.1 = none := hfresh q (List.mem_cons_self _ _)
    have hne : ∀ r ∈ rest, r.1 ≠ q.1 := by
      intro r hr e
      exact hnd2.1 (e ▸ List.mem_map_of_mem Prod.fst hr)
    rw [Params.set_all_cons]
    rcases List.mem_cons.mp hp with h | h
    · subst h
      rw [Params.find_set_all_other _ rest _ hne, Params.set_absent _ s _ _ hq]
      exact Params.find_assign_self _ _ _
    · apply ih _ hnd2.2 _ p h
      intro r hr
      rw [Params.find_set_other _ s _ (hne r hr)]
      exact hfresh r (List.mem_cons_of_mem _ hr)

theorem Params.find_new (k : String) : Params.new.params_.find k = none := rfl

theorem Params.set_all_perm (l l2 : List (String × TypedValue))
    (hnd : (l.map Prod.fst).Nodup) (hp : l.Perm l2) :
    Params.new.set_all l = Params.new.set_all l2 := by
  have hnd2 : (l2.map Prod.fst).Nodup := (hp.map Prod.fst).nodup_iff.mp hnd
  apply Params.ext_find
  intro k
  by_cases hk : ∃ p ∈ l, p.1 = k
  · obtain ⟨p, hpl, rfl⟩ := hk
    rw [Params.find_set_all_mem l _ hnd (fun _ _ => Params.find_new _) p hpl,
      Params.find_set_all_mem l2 _ hnd2 (fun _ _ => Params.find_new _) p (hp.mem_iff.mp hpl)]
  · have h1 : ∀ p ∈ l, p.1 ≠ k := fun p hpl e => hk ⟨p, hpl, e⟩
    have h2 : ∀ p ∈ l2, p.1 ≠ k := fun p hpl e => hk ⟨p, hp.mem_iff.mpr hpl, e⟩
    rw [Params.find_set_all_other k l _ h1, Params.find_set_all_other k l2 _ h2]

theorem findEntry_of_mem {k : String} {a : StdAny} :
    ∀ {l : List Entry}, l.Pairwise Entry.less → (k, a) ∈ l → findEntry k l = some a := by
  intro l
  induction l with
  | nil => intro _ h; simp at h
  | cons e rest ih =>
    obtain ⟨k2, v2⟩ := e
    intro hl hm
    have hhead := (List.pairwise_cons.mp hl).1
    have htail := (List.pairwise_cons.mp hl).2
    rcases List.mem_cons.mp hm with h | h
    · cases h
      exact findEntry_cons_self _ _ _
    · have hlt : k2.data < k.data := hhead (k, a) h
      have hne : k2 ≠ k := by
        intro e
        subst e
        exact lt_irrefl _ hlt
      rw [findEntry_cons_ne v2 rest hne]
      exact ih htail h

theorem sameKindAndValue_make_any (p : TypedValue) (h : p.isNaN = false) :
    SameKindAndValue (make_any p.1 p.2) (make_any p.1 p.2) := by
  obtain ⟨T, v⟩ := p
  cases T
  · exact ⟨rfl, detail.kBoolHandler, rfl, by
      simp [detail.kBoolHandler, detail.equal_value, make_any, any_cast, detail.builtin_eq]⟩
  · exact ⟨rfl, detail.kIntHandler, rfl, by
      simp [detail.kIntHandler, detail.equal_value, make_any, any_cast, detail.builtin_eq]⟩
  · exact ⟨rfl, detail.kInt64Handler, rfl, by
      simp [detail.kInt64Handler, detail.equal_value, make_any, any_cast, detail.builtin_eq]⟩
  · have hn : CDouble.isNaN v = false := h
    exact ⟨rfl, detail.kDoubleHandler, rfl, by
      simp [detail.kDoubleHandler, detail.equal_value, make_any, any_cast, detail.builtin_eq,
        CDouble.eq, hn]⟩

theorem Params.entries_set_all (l : List (String × TypedValue))
    (hnd : (l.map Prod.fst).Nodup) (e : Entry)
    (he : e ∈ (Params.new.set_all l).params_.entries) :
    ∃ p ∈ l, e = (p.1, make_any p.2.1 p.2.2) := by
  obtain ⟨k, a⟩ := e
  have hf : (Params.new.set_all l).params_.find k = some a :=
    findEntry_of_mem (Params.new.set_all l).params_.ordered he
  by_cases hk : ∃ p ∈ l, p.1 = k
  · obtain ⟨p, hpl, rfl⟩ := hk
    rw [Params.find_set_all_mem l _ hnd (fun _ _ => Params.find_new _) p hpl] at hf
    exact ⟨p, hpl, by rw [Option.some.inj hf]⟩
  · have h1 : ∀ p ∈ l, p.1 ≠ k := fun p hpl e => hk ⟨p, hpl, e⟩
    rw [Params.find_set_all_other k l _ h1, Params.find_new] at hf
    cases hf

end sequoia.utils

namespace sequoia.utils

/-- C13 as stated fails on a NaN: the pairs `x = NaN` (a `double`) and
`y = 1` have distinct keys, yet the store built from them in one order is not
`==` to the store built in the other order. -/
theorem op_eq_insertion_order_counterexample :
    (([("x", (⟨.double, (9221120237041090560 : CDouble)⟩ : TypedValue)),
        ("y", (⟨.int, (⟨1, by decide, by decide⟩ : CInt)⟩ : TypedValue))]
      : List (String × TypedValue)).map Prod.fst).Nodup ∧
    List.Perm
      ([("x", (⟨.double, (9221120237041090560 : CDouble)⟩ : TypedValue)),
        ("y", (⟨.int, (⟨1, by decide, by decide⟩ : CInt)⟩ : TypedValue))]
        : List (String × TypedValue))
      [("y", (⟨.int, (⟨1, by decide, by decide⟩ : CInt)⟩ : TypedValue)),
        ("x", (⟨.double, (9221120237041090560 : CDouble)⟩ : TypedValue))] ∧
    (Params.new.set_all
        [("x", (⟨.double, (9221120237041090560 : CDouble)⟩ : TypedValue)),
          ("y", (⟨.int, (⟨1, by decide, by decide⟩ : CInt)⟩ : TypedValue))]).op_eq
      (Params.new.set_all
        [("y", (⟨.int, (⟨1, by decide, by decide⟩ : CInt)⟩ : TypedValue)),
          ("x", (⟨.double, (9221120237041090560 : CDouble)⟩ : TypedValue))])
      = some false :=
  ⟨by decide, List.Perm.swap _ _ _, by decide⟩

/-- C13, amended: for every list of (key, value) pairs with pairwise distinct
keys and every permutation of it, the two stores built by `set` in the two
orders are `==` provided no value of the list is a `double` NaN; and (NaN or
not) a further `set` of a fresh key on only one of them makes them not `==`,
whichever is the left operand. -/
theorem op_eq_insertion_order (l l2 : List (String × TypedValue))
    (hnd : (l.map Prod.fst).Nodup) (hp : l.Perm l2) :
    ((∀ p ∈ l, p.2.isNaN = false) →
      (Params.new.set_all l).op_eq (Params.new.set_all l2) = some true) ∧
    (∀ (k : String) (T : SupportedParamType) (v : T.ValueType), k ∉ l.map Prod.fst →
      ((Params.new.set_all l).set T k v).2.op_eq (Params.new.set_all l2) = some false ∧
      (Params.new.set_all l).op_eq ((Params.new.set_all l2).set T k v).2 = some false) := by
  have hsame : Params.new.set_all l2 = Params.new.set_all l :=
    (Params.set_all_perm l l2 hnd hp).symm
  rw [hsame]
  constructor
  · intro hnan
    rw [Params.op_eq_true_iff_forall₂]
    apply List.forall₂_same.mpr
    intro e he
    obtain ⟨p, hpl, rfl⟩ := Params.entries_set_all l hnd e he
    exact ⟨rfl, sameKindAndValue_make_any p.2 (hnan p hpl)⟩
  · intro k T v hk
    have hfind : (Params.new.set_all l).params_.find k = none := by
      rw [Params.find_set_all_other k l _ (fun p hpl e => hk (e ▸ List.mem_map_of_mem Prod.fst hpl))]
      rfl
    have hsize : ((Params.new.set_all l).set T k v).2.size = (Params.new.set_all l).size + 1 := by
      rw [Params.set_absent T _ k v hfind]
      exact length_assignEntry_absent _ hfind
    constructor
    · unfold Params.op_eq
      rw [if_pos (by omega)]
    · unfold Params.op_eq
      rw [if_pos (by omega)]

/-- Witness of C13: `a = 1`, `b = true` set in the two orders. -/
theorem op_eq_insertion_order_witness :
    (([("a", (⟨.int, (⟨1, by decide, by decide⟩ : CInt)⟩ : TypedValue)),
        ("b", (⟨.bool, true⟩ : TypedValue))]
      : List (String × TypedValue)).map Prod.fst).Nodup ∧
    (Params.new.set_all
        [("a", (⟨.int, (⟨1, by decide, by decide⟩ : CInt)⟩ : TypedValue)),
          ("b", (⟨.bool, true⟩ : TypedValue))]).op_eq
      (Params.new.set_all
        [("b", (⟨.bool, true⟩ : TypedValue)),
          ("a", (⟨.int, (⟨1, by decide, by decide⟩ : CInt)⟩ : TypedValue))])
      = some true :=
  ⟨by decide,
   (op_eq_insertion_order
      [("a", (⟨.int, (⟨1, by decide, by decide⟩ : CInt)⟩ : TypedValue)),
        ("b", (⟨.bool, true⟩ : TypedValue))]
      [("b", (⟨.bool, true⟩ : TypedValue)),
        ("a", (⟨.int, (⟨1, by decide, by decide⟩ : CInt)⟩ : TypedValue))]
      (by decide) (List.Perm.swap _ _ _)).1 (by decide)⟩

end sequoia.utils

/-! ## The three-way comparison -/

namespace sequoia.utils

/-- C16: size dominates the ordering. For every two stores with
`size(A) < size(B)`, whatever they hold, `A <=> B` is less and `B <=> A` is
greater, that is `A < B` and `B > A`. -/
theorem op_spaceship_size_dominates (A B : Params) (h : A.size < B.size) :
    A.op_spaceship B = some weak_ordering.less ∧
    B.op_spaceship A = some weak_ordering.greater := by
  constructor
  · unfold Params.op_spaceship
    rw [if_pos h]
  · unfold Params.op_spaceship
    rw [if_neg (by omega), if_pos (by omega)]

/-- Witness of C16: `a = 1` against `a = 1, b = 2`. -/
theorem op_spaceship_size_dominates_witness :
    (Params.new.set .int "a" ⟨1, by decide, by decide⟩).2.size
      < ((Params.new.set .int "a" ⟨1, by decide, by decide⟩).2.set .int "b"
          ⟨2, by decide, by decide⟩).2.size ∧
    (Params.new.set .int "a" ⟨1, by decide, by decide⟩).2.op_spaceship
      ((Params.new.set .int "a" ⟨1, by decide, by decide⟩).2.set .int "b"
          ⟨2, by decide, by decide⟩).2 = some weak_ordering.less :=
  ⟨by decide,
   (op_spaceship_size_dominates (Params.new.set .int "a" ⟨1, by decide, by decide⟩).2
      ((Params.new.set .int "a" ⟨1, by decide, by decide⟩).2.set .int "b"
          ⟨2, by decide, by decide⟩).2 (by decide)).1⟩

theorem toNat_getParamType (v : StdAny) :
    (detail.getParamType v.type).toNat = kindRank v := by
  cases v <;> rfl

theorem getParamType_unknown_iff (v : StdAny) :
    detail.getParamType v.type = detail.ParamType.Unknown ↔ Params.support v = false := by
  unfold Params.support
  cases detail.getParamType v.type <;> simp

theorem getParamType_eq_of_rank {v1 v2 : StdAny} (h : kindRank v1 = kindRank v2) :
    detail.getParamType v1.type = detail.getParamType v2.type := by
  rw [← toNat_getParamType, ← toNat_getParamType] at h
  revert h
  cases detail.getParamType v1.type <;> cases detail.getParamType v2.type <;>
    simp [detail.ParamType.toNat]

theorem compare_dispatch (v1 v2 : StdAny)
    (hk : detail.getParamType v1.type = detail.getParamType v2.type)
    (hu : detail.getParamType v1.type ≠ detail.ParamType.Unknown) :
    ∃ h, detail.getHandler (detail.getParamType v1.type) = some h ∧
      h.compare v1 v2 = some (valueOrder v1 v2) := by
  cases v1 <;> cases v2 <;>
    first
    | exact absurd rfl hu
    | exact detail.ParamType.noConfusion hk
    | skip
  · rename_i a b
    refine ⟨detail.kBoolHandler, rfl, ?_⟩
    cases a <;> cases b <;> rfl
  · refine ⟨detail.kIntHandler, rfl, ?_⟩
    simp only [detail.kIntHandler, detail.compare_value, any_cast, detail.builtin_lt,
      valueOrder, decide_eq_true_eq]
    split_ifs <;> rfl
  · refine ⟨detail.kInt64Handler, rfl, ?_⟩
    simp only [detail.kInt64Handler, detail.compare_value, any_cast, detail.builtin_lt,
      valueOrder, decide_eq_true_eq]
    split_ifs <;> rfl
  · refine ⟨detail.kDoubleHandler, rfl, ?_⟩
    simp only [detail.kDoubleHandler, detail.compare_value, any_cast, detail.builtin_lt,
      valueOrder]
    split_ifs <;> rfl

end sequoia.utils

namespace sequoia.utils

theorem Params.op_spaceship_loop_cons (k1 k2 : String) (v1 v2 : StdAny)
    (r1 r2 : List Entry) :
    Params.op_spaceship_loop ((k1, v1) :: r1) ((k2, v2) :: r2) =
      if k1.data < k2.data then some weak_ordering.less
      else if k2.data < k1.data then some weak_ordering.greater
      else if kindRank v1 < kindRank v2 then some weak_ordering.less
      else if kindRank v1 > kindRank v2 then some weak_ordering.greater
      else if detail.getParamType v1.type = detail.ParamType.Unknown then
        some weak_ordering.equivalent
      else
        match detail.getHandler (detail.getParamType v1.type) with
        | some handler =>
          match handler.compare v1 v2 with
          | some cmp =>
            if cmp ≠ weak_ordering.equivalent then some cmp
            else Params.op_spaceship_loop r1 r2
          | none => none
        | none => Params.op_spaceship_loop r1 r2 := by
  rw [Params.op_spaceship_loop]
  simp only [toNat_getParamType]

theorem lexOrder_cons (e1 e2 : Entry) (r1 r2 : List Entry) :
    lexOrder (e1 :: r1) (e2 :: r2) =
      if entryOrder e1 e2 = weak_ordering.equivalent then lexOrder r1 r2
      else entryOrder e1 e2 := by
  rw [lexOrder]
  cases h : entryOrder e1 e2 <;> simp

theorem Params.op_spaceship_loop_eq_lexOrder :
    ∀ (l1 l2 : List Entry),
      (∀ e1 ∈ l1, ∀ e2 ∈ l2, e1.1 = e2.1 →
        Params.support e1.2 = true ∨ Params.support e2.2 = true) →
      Params.op_spaceship_loop l1 l2 = some (lexOrder l1 l2) := by
  intro l1
  induction l1 with
  | nil => intro l2 _; simp [Params.op_spaceship_loop, lexOrder]
  | cons e1 r1 ih =>
    intro l2 H
    cases l2 with
    | nil => simp [Params.op_spaceship_loop, lexOrder]
    | cons e2 r2 =>
      obtain ⟨k1, v1⟩ := e1
      obtain ⟨k2, v2⟩ := e2
      have ih2 := ih r2 (fun a ha b hb =>
        H a (List.mem_cons_of_mem _ ha) b (List.mem_cons_of_mem _ hb))
      rw [Params.op_spaceship_loop_cons, lexOrder_cons]
      unfold entryOrder
      by_cases h1 : k1.data < k2.data
      · simp [h1]
      by_cases h2 : k2.data < k1.data
      · simp [h1, h2]
      by_cases h3 : kindRank v1 < kindRank v2
      · simp [h1, h2, h3]
      by_cases h4 : kindRank v2 < kindRank v1
      · simp [h1, h2, h3, h4]
      have hkey : k1 = k2 := key_eq_of_not_less h1 h2
      have hkind : detail.getParamType v1.type = detail.getParamType v2.type :=
        getParamType_eq_of_rank (by omega)
      have hu : detail.getParamType v1.type ≠ detail.ParamType.Unknown := by
        intro hu1
        have hu2 : detail.getParamType v2.type = detail.ParamType.Unknown := by
          rw [← hkind]; exact hu1
        have s1 := (getParamType_unknown_iff v1).mp hu1
        have s2 := (getParamType_unknown_iff v2).mp hu2
        rcases H (k1, v1) (List.mem_cons_self _ _) (k2, v2) (List.mem_cons_self _ _) hkey
          with h | h
        · rw [s1] at h; exact Bool.false_ne_true h
        · rw [s2] at h; exact Bool.false_ne_true h
      obtain ⟨h, hh, hc⟩ := compare_dispatch v1 v2 hkind hu
      have h4b : ¬ kindRank v1 > kindRank v2 := h4
      simp only [if_neg h1, if_neg h2, if_neg h3, if_neg h4, if_neg h4b, if_neg hu, hh, hc]
      by_cases hv : valueOrder v1 v2 = weak_ordering.equivalent
      · simp [hv, ih2]
      · simp [hv]

theorem lexOrder_equivalent_iff :
    ∀ (l1 l2 : List Entry), l1.length = l2.length →
      (lexOrder l1 l2 = weak_ordering.equivalent ↔
        List.Forall₂ (fun e1 e2 => entryOrder e1 e2 = weak_ordering.equivalent) l1 l2) := by
  intro l1
  induction l1 with
  | nil =>
    intro l2 hlen
    cases l2 with
    | nil => simp [lexOrder]
    | cons e2 r2 => simp at hlen
  | cons e1 r1 ih =>
    intro l2 hlen
    cases l2 with
    | nil => simp at hlen
    | cons e2 r2 =>
      have hlen2 : r1.length = r2.length := by simpa using hlen
      rw [lexOrder_cons, List.forall₂_cons, ← ih r2 hlen2]
      by_cases h : entryOrder e1 e2 = weak_ordering.equivalent
      · simp [h]
      · simp [h]

theorem lexOrder_decided_iff (o : weak_ordering) (ho : o ≠ weak_ordering.equivalent) :
    ∀ (l1 l2 : List Entry),
      (lexOrder l1 l2 = o ↔
        ∃ p1 p2 e1 e2 s1 s2, l1 = p1 ++ e1 :: s1 ∧ l2 = p2 ++ e2 :: s2 ∧
          List.Forall₂ (fun a b => entryOrder a b = weak_ordering.equivalent) p1 p2 ∧
          entryOrder e1 e2 = o) := by
  intro l1 l2
  constructor
  · induction l1 generalizing l2 with
    | nil =>
      intro h
      simp [lexOrder] at h
      exact absurd h.symm ho
    | cons a r1 ih =>
      cases l2 with
      | nil =>
        intro h
        simp [lexOrder] at h
        exact absurd h.symm ho
      | cons b r2 =>
        intro h
        rw [lexOrder_cons] at h
        by_cases hab : entryOrder a b = weak_ordering.equivalent
        · rw [if_pos hab] at h
          obtain ⟨p1, p2, e1, e2, s1, s2, h1, h2, hf, he⟩ := ih r2 h
          exact ⟨a :: p1, b :: p2, e1, e2, s1, s2, by rw [h1]; rfl, by rw [h2]; rfl,
            List.Forall₂.cons hab hf, he⟩
        · rw [if_neg hab] at h
          exact ⟨[], [], a, b, r1, r2, rfl, rfl, List.Forall₂.nil, h⟩
  · rintro ⟨p1, p2, e1, e2, s1, s2, h1, h2, hf, he⟩
    subst h1 h2
    induction hf with
    | nil =>
      simp only [List.nil_append]
      rw [lexOrder_cons, if_neg (by rw [he]; exact ho)]
      exact he
    | cons hab _ ih =>
      simp only [List.cons_append]
      rw [lexOrder_cons, if_pos hab]
      exact ih

/-- C17 as stated fails on unsupported kinds: two stores of size 2 hold the
same `std::string` under `a`, and the `int` values 1 and 2 under `b`; the first
position at which the entries differ is that of `b`, where 1 is less than 2,
yet `A <=> B` is equivalent. -/
theorem op_spaceship_lexicographic_counterexample :
    ((set_any Params.new "a" (StdAny.ofOther "std::string" "x")).2.set .int "b"
        ⟨1, by decide, by decide⟩).2.size
      = ((set_any Params.new "a" (StdAny.ofOther "std::string" "x")).2.set .int "b"
          ⟨2, by decide, by decide⟩).2.size ∧
    lexOrder
      ((set_any Params.new "a" (StdAny.ofOther "std::string" "x")).2.set .int "b"
        ⟨1, by decide, by decide⟩).2.params_.entries
      ((set_any Params.new "a" (StdAny.ofOther "std::string" "x")).2.set .int "b"
        ⟨2, by decide, by decide⟩).2.params_.entries = weak_ordering.less ∧
    ((set_any Params.new "a" (StdAny.ofOther "std::string" "x")).2.set .int "b"
        ⟨1, by decide, by decide⟩).2.op_spaceship
      ((set_any Params.new "a" (StdAny.ofOther "std::string" "x")).2.set .int "b"
        ⟨2, by decide, by decide⟩).2 = some weak_ordering.equivalent := by
  decide

/-- C17, amended: for every two stores of the same size in which no key holds
an entry of unsupported kind in both, `A <=> B` is decided by the first
position, walking both stores in ascending key order, at which the entries
differ, comparing first the key strings, then the kind tag (unsupported below
Bool < Int32 < Int64 < Float64), then the values; it is equivalent when no
position differs. -/
theorem op_spaceship_lexicographic (A B : Params) (hsize : A.size = B.size)
    (H : ∀ e1 ∈ A.params_.entries, ∀ e2 ∈ B.params_.entries, e1.1 = e2.1 →
      Params.support e1.2 = true ∨ Params.support e2.2 = true) :
    A.op_spaceship B = some (lexOrder A.params_.entries B.params_.entries) ∧
    (A.op_spaceship B = some weak_ordering.equivalent ↔
      List.Forall₂ (fun e1 e2 => entryOrder e1 e2 = weak_ordering.equivalent)
        A.params_.entries B.params_.entries) ∧
    (∀ o, o ≠ weak_ordering.equivalent →
      (A.op_spaceship B = some o ↔
        ∃ p1 p2 e1 e2 s1 s2, A.params_.entries = p1 ++ e1 :: s1 ∧
          B.params_.entries = p2 ++ e2 :: s2 ∧
          List.Forall₂ (fun a b => entryOrder a b = weak_ordering.equivalent) p1 p2 ∧
          entryOrder e1 e2 = o)) := by
  have hmain : A.op_spaceship B = some (lexOrder A.params_.entries B.params_.entries) := by
    unfold Params.op_spaceship
    rw [if_neg (by omega), if_neg (by omega)]
    exact Params.op_spaceship_loop_eq_lexOrder _ _ H
  refine ⟨hmain, ?_, ?_⟩
  · rw [hmain, Option.some.injEq]
    exact lexOrder_equivalent_iff _ _ hsize
  · intro o ho
    rw [hmain, Option.some.injEq]
    exact lexOrder_decided_iff o ho _ _

/-- Witness of C17: `key = 1` against `key = 2`. -/
theorem op_spaceship_lexicographic_witness :
    (Params.new.set .int "key" ⟨1, by decide, by decide⟩).2.size
      = (Params.new.set .int "key" ⟨2, by decide, by decide⟩).2.size ∧
    (Params.new.set .int "key" ⟨1, by decide, by decide⟩).2.op_spaceship
      (Params.new.set .int "key" ⟨2, by decide, by decide⟩).2
      = some (lexOrder (Params.new.set .int "key" ⟨1, by decide, by decide⟩).2.params_.entries
          (Params.new.set .int "key" ⟨2, by decide, by decide⟩).2.params_.entries) ∧
    lexOrder (Params.new.set .int "key" ⟨1, by decide, by decide⟩).2.params_.entries
      (Params.new.set .int "key" ⟨2, by decide, by decide⟩).2.params_.entries
      = weak_ordering.less :=
  ⟨by decide,
   (op_spaceship_lexicographic (Params.new.set .int "key" ⟨1, by decide, by decide⟩).2
      (Params.new.set .int "key" ⟨2, by decide, by decide⟩).2 (by decide) (by decide)).1,
   by decide⟩

end sequoia.utils

namespace sequoia.utils

theorem CDouble.eq_iff_not_lt (a b : CDouble) (ha : a.isNaN = false) (hb : b.isNaN = false) :
    CDouble.eq a b = true ↔ (CDouble.lt a b = false ∧ CDouble.lt b a = false) := by
  simp only [CDouble.eq, CDouble.lt, ha, hb, Bool.not_false, Bool.true_and, decide_eq_true_eq,
    decide_eq_false_iff_not]
  omega

theorem sameKindAndValue_rank {v1 v2 : StdAny} (h : SameKindAndValue v1 v2) :
    kindRank v1 = kindRank v2 := by
  rw [← toNat_getParamType, ← toNat_getParamType, h.1]

theorem valueOrder_equivalent_iff (v1 v2 : StdAny)
    (p1 : Params.support v1 = true) (n1 : v1.isNaN = false)
    (p2 : Params.support v2 = true) (n2 : v2.isNaN = false) :
    (kindRank v1 = kindRank v2 ∧ valueOrder v1 v2 = weak_ordering.equivalent) ↔
      SameKindAndValue v1 v2 := by
  cases v1 <;> cases v2 <;>
    first
    | exact Bool.noConfusion p1
    | exact Bool.noConfusion p2
    | (constructor
       · intro h
         have hr := h.1
         simp [kindRank] at hr
       · intro h
         have hr := sameKindAndValue_rank h
         simp [kindRank] at hr)
    | skip
  · rename_i a b
    rw [sameKindAndValue_ofBool]
    cases a <;> cases b <;> simp [kindRank, valueOrder]
  · rename_i a b
    rw [sameKindAndValue_ofInt]
    simp only [kindRank, valueOrder, true_and]
    split_ifs <;> simp <;> omega
  · rename_i a b
    rw [sameKindAndValue_ofInt64]
    simp only [kindRank, valueOrder, true_and]
    split_ifs <;> simp <;> omega
  · rename_i a b
    rw [sameKindAndValue_ofDouble, CDouble.eq_iff_not_lt a b n1 n2]
    simp only [kindRank, valueOrder, true_and]
    split_ifs <;> simp_all

theorem entryOrder_equivalent_iff (k1 k2 : String) (v1 v2 : StdAny)
    (p1 : Params.support v1 = true) (n1 : v1.isNaN = false)
    (p2 : Params.support v2 = true) (n2 : v2.isNaN = false) :
    entryOrder (k1, v1) (k2, v2) = weak_ordering.equivalent ↔
      k1 = k2 ∧ SameKindAndValue v1 v2 := by
  rw [← valueOrder_equivalent_iff v1 v2 p1 n1 p2 n2]
  simp only [entryOrder]
  constructor
  · intro h
    split_ifs at h with h1 h2 h3 h4
    exact ⟨key_eq_of_not_less h1 h2, by omega, h⟩
  · rintro ⟨hk, hr, hv⟩
    subst hk
    rw [if_neg (lt_irrefl _), if_neg (lt_irrefl _), if_neg (by omega), if_neg (by omega)]
    exact hv

theorem forall₂_congr_of_mem {R S : Entry → Entry → Prop} :
    ∀ {l1 l2 : List Entry}, (∀ a ∈ l1, ∀ b ∈ l2, (R a b ↔ S a b)) →
      (List.Forall₂ R l1 l2 ↔ List.Forall₂ S l1 l2) := by
  intro l1
  induction l1 with
  | nil =>
    intro l2 _
    cases l2 <;> simp
  | cons a r1 ih =>
    intro l2 h
    cases l2 with
    | nil => simp
    | cons b r2 =>
      rw [List.forall₂_cons, List.forall₂_cons,
        h a (List.mem_cons_self _ _) b (List.mem_cons_self _ _),
        ih (fun x hx y hy => h x (List.mem_cons_of_mem _ hx) y (List.mem_cons_of_mem _ hy))]

end sequoia.utils

namespace sequoia.utils

/-- C15 as stated fails on a NaN and on an unsupported kind: for the store
holding the `double` NaN under `x`, and for the store holding a `std::string`
under `x`, the comparison of the store with itself gives `<=>` equivalent
(so neither `<` nor `>`) while `==` is false; none of the three holds. -/
theorem op_spaceship_trichotomy_counterexample :
    ((Params.new.set .double "x" (9221120237041090560 : CDouble)).2.op_spaceship
        (Params.new.set .double "x" (9221120237041090560 : CDouble)).2
        = some weak_ordering.equivalent ∧
      (Params.new.set .double "x" (9221120237041090560 : CDouble)).2.op_eq
        (Params.new.set .double "x" (9221120237041090560 : CDouble)).2 = some false) ∧
    ((set_any Params.new "x" (StdAny.ofOther "std::string" "a")).2.op_spaceship
        (set_any Params.new "x" (StdAny.ofOther "std::string" "a")).2
        = some weak_ordering.equivalent ∧
      (set_any Params.new "x" (StdAny.ofOther "std::string" "a")).2.op_eq
        (set_any Params.new "x" (StdAny.ofOther "std::string" "a")).2 = some false) := by
  decide

/-- C15, amended: for any two stores `A` and `B` all of whose entries have
supported kinds and none of whose `double` values is a NaN, exactly one of
`A < B`, `A == B`, `A > B` holds (`<` and `>` from `operator<=>`, `==` from
`operator==`). -/
theorem op_spaceship_trichotomy (A B : Params)
    (hA : ∀ e ∈ A.params_.entries, Params.support e.2 = true ∧ e.2.isNaN = false)
    (hB : ∀ e ∈ B.params_.entries, Params.support e.2 = true ∧ e.2.isNaN = false) :
    (A.op_spaceship B = some weak_ordering.less ∧ A.op_eq B ≠ some true ∧
      A.op_spaceship B ≠ some weak_ordering.greater) ∨
    (A.op_spaceship B ≠ some weak_ordering.less ∧ A.op_eq B = some true ∧
      A.op_spaceship B ≠ some weak_ordering.greater) ∨
    (A.op_spaceship B ≠ some weak_ordering.less ∧ A.op_eq B ≠ some true ∧
      A.op_spaceship B = some weak_ordering.greater) := by
  rcases Nat.lt_trichotomy A.size B.size with hlt | heq | hgt
  · left
    have h1 : A.op_spaceship B = some weak_ordering.less := by
      unfold Params.op_spaceship
      rw [if_pos hlt]
    have h2 : A.op_eq B = some false := by
      unfold Params.op_eq
      rw [if_pos (by omega)]
    rw [h1, h2]
    simp
  · have hs : A.op_spaceship B = some (lexOrder A.params_.entries B.params_.entries) := by
      unfold Params.op_spaceship
      rw [if_neg (by omega), if_neg (by omega)]
      exact Params.op_spaceship_loop_eq_lexOrder _ _ (fun e1 h1 _ _ _ => Or.inl (hA e1 h1).1)
    have hiff : lexOrder A.params_.entries B.params_.entries = weak_ordering.equivalent ↔
        A.op_eq B = some true := by
      rw [lexOrder_equivalent_iff _ _ heq, Params.op_eq_true_iff_forall₂]
      apply forall₂_congr_of_mem
      intro a ha b hb
      exact entryOrder_equivalent_iff a.1 b.1 a.2 b.2 (hA a ha).1 (hA a ha).2 (hB b hb).1
        (hB b hb).2
    rw [hs]
    cases hl : lexOrder A.params_.entries B.params_.entries
    · left
      refine ⟨rfl, ?_, by simp⟩
      intro he
      rw [hiff.mpr he] at hl
      cases hl
    · right; left
      exact ⟨by simp, hiff.mp hl, by simp⟩
    · right; right
      refine ⟨by simp, ?_, rfl⟩
      intro he
      rw [hiff.mpr he] at hl
      cases hl
  · right; right
    have h1 : A.op_spaceship B = some weak_ordering.greater := by
      unfold Params.op_spaceship
      rw [if_neg (by omega), if_pos hgt]
    have h2 : A.op_eq B = some false := by
      unfold Params.op_eq
      rw [if_pos (by omega)]
    rw [h1, h2]
    simp

/-- Witness of C15: `a = 1` against `b = 1`; only `A < B` holds. -/
theorem op_spaceship_trichotomy_witness :
    (∀ e ∈ (Params.new.set .int "a" ⟨1, by decide, by decide⟩).2.params_.entries,
      Params.support e.2 = true ∧ e.2.isNaN = false) ∧
    (∀ e ∈ (Params.new.set .int "b" ⟨1, by decide, by decide⟩).2.params_.entries,
      Params.support e.2 = true ∧ e.2.isNaN = false) ∧
    (Params.new.set .int "a" ⟨1, by decide, by decide⟩).2.op_eq
      (Params.new.set .int "b" ⟨1, by decide, by decide⟩).2 ≠ some true := by
  refine ⟨by decide, by decide, ?_⟩
  rcases op_spaceship_trichotomy (Params.new.set .int "a" ⟨1, by decide, by decide⟩).2
      (Params.new.set .int "b" ⟨1, by decide, by decide⟩).2 (by decide) (by decide)
    with h | h | h
  · exact h.2.1
  · exact absurd (by decide) h.1
  · exact h.2.1

end sequoia.utils

/-! ## Rendering -/

namespace sequoia.utils

theorem concatAll_append (l1 l2 : List String) :
    concatAll (l1 ++ l2) = concatAll l1 ++ concatAll l2 := by
  induction l1 with
  | nil => simp [concatAll]
  | cons a r ih => simp [concatAll, ih, String.append_assoc]

theorem Params.to_string_loop_spec :
    ∀ (l : List Entry) (ss : OStream),
      ∃ ss1, Params.to_string_loop ss l = some ss1 ∧
        ss1.buf = ss.buf ++ concatAll (l.map (renderedEntry ss.num_put_double)) ∧
        ss1.num_put_double = ss.num_put_double := by
  intro l
  induction l with
  | nil =>
    intro ss
    exact ⟨ss, rfl, by simp [concatAll], rfl⟩
  | cons e rest ih =>
    intro ss
    obtain ⟨k, v⟩ := e
    cases v with
    | ofBool b =>
      obtain ⟨ss1, h1, h2, h3⟩ := ih ((((ss.put k).put "=").set_boolalpha.insert .bool b).put
        detail.kSplitStr)
      refine ⟨ss1, ?_, ?_, ?_⟩
      · rw [← h1]; rfl
      · rw [h2]
        cases b <;>
          simp [OStream.put, OStream.set_boolalpha, OStream.insert, OStream.put_bool,
            detail.kSplitStr, concatAll, renderedEntry, renderedValue, String.append_assoc]
      · rw [h3]; rfl
    | ofInt x =>
      obtain ⟨ss1, h1, h2, h3⟩ := ih ((((ss.put k).put "=").insert .int x).put detail.kSplitStr)
      refine ⟨ss1, ?_, ?_, ?_⟩
      · rw [← h1]; rfl
      · rw [h2]
        simp [OStream.put, OStream.insert, OStream.put_int,
          detail.kSplitStr, concatAll, renderedEntry, renderedValue, String.append_assoc]
      · rw [h3]; rfl
    | ofInt64 x =>
      obtain ⟨ss1, h1, h2, h3⟩ := ih ((((ss.put k).put "=").insert .int64 x).put detail.kSplitStr)
      refine ⟨ss1, ?_, ?_, ?_⟩
      · rw [← h1]; rfl
      · rw [h2]
        simp [OStream.put, OStream.insert, OStream.put_int,
          detail.kSplitStr, concatAll, renderedEntry, renderedValue, String.append_assoc]
      · rw [h3]; rfl
    | ofDouble x =>
      obtain ⟨ss1, h1, h2, h3⟩ := ih ((((ss.put k).put "=").insert .double x).put detail.kSplitStr)
      refine ⟨ss1, ?_, ?_, ?_⟩
      · rw [← h1]; rfl
      · rw [h2]
        simp [OStream.put, OStream.insert, OStream.put_double,
          detail.kSplitStr, concatAll, renderedEntry, renderedValue, String.append_assoc]
      · rw [h3]; rfl
    | empty =>
      obtain ⟨ss1, h1, h2, h3⟩ := ih (((ss.put k).put "=Unsupported").put detail.kSplitStr)
      refine ⟨ss1, ?_, ?_, ?_⟩
      · rw [← h1]; rfl
      · rw [h2]
        simp [OStream.put, detail.kSplitStr, concatAll, renderedEntry, renderedValue,
          String.append_assoc]
      · rw [h3]; rfl
    | ofOther name repr =>
      obtain ⟨ss1, h1, h2, h3⟩ := ih (((ss.put k).put "=Unsupported").put detail.kSplitStr)
      refine ⟨ss1, ?_, ?_, ?_⟩
      · rw [← h1]; rfl
      · rw [h2]
        simp [OStream.put, detail.kSplitStr, concatAll, renderedEntry, renderedValue,
          String.append_assoc]
      · rw [h3]; rfl

theorem Params.to_string_eq (num_put_double : CDouble → String) (s : Params) :
    s.to_string num_put_double
      = some (concatAll (s.params_.entries.map (renderedEntry num_put_double))) := by
  obtain ⟨ss1, h1, h2, _⟩ :=
    Params.to_string_loop_spec s.params_.entries (OStream.new num_put_double)
  unfold Params.to_string
  rw [h1]
  simp [OStream.str, h2, OStream.new]

end sequoia.utils

namespace sequoia.utils

/-- C19: `to_string()` of a store is exactly the concatenation, over its
entries in ascending key order (the order of `keys()`), of
key + "=" + rendered value + ", "; so the separator also follows the last
entry, and the empty store renders as the empty string. -/
theorem to_string_concatenation (num_put_double : CDouble → String) (s : Params) :
    s.to_string num_put_double
      = some (concatAll (s.params_.entries.map
          (fun e => e.1 ++ "=" ++ renderedValue num_put_double e.2 ++ ", "))) ∧
    s.params_.entries.map Prod.fst = s.keys ∧
    (s.params_.entries ≠ [] →
      ∃ init, s.to_string num_put_double = some (init ++ ", ")) ∧
    Params.new.to_string num_put_double = some "" := by
  have hmain : s.to_string num_put_double
      = some (concatAll (s.params_.entries.map (renderedEntry num_put_double))) := by
    obtain ⟨ss1, h1, h2, _⟩ :=
      Params.to_string_loop_spec s.params_.entries (OStream.new num_put_double)
    unfold Params.to_string
    rw [h1]
    simp [OStream.str, h2, OStream.new]
  refine ⟨hmain, (Params.keys_eq_map s).symm, ?_, rfl⟩
  intro hne
  rcases List.eq_nil_or_concat s.params_.entries with h | ⟨l, e, h⟩
  · exact absurd h hne
  · refine ⟨concatAll (l.map (renderedEntry num_put_double)) ++ e.1 ++ "="
      ++ renderedValue num_put_double e.2, ?_⟩
    rw [hmain, h]
    simp [concatAll_append, concatAll, renderedEntry, String.append_assoc]

/-- Witness of C19: the store `flag = true`, `count = 10`. -/
theorem to_string_concatenation_witness :
    ((Params.new.set .bool "flag" true).2.set .int "count"
        ⟨10, by decide, by decide⟩).2.params_.entries ≠ [] ∧
    ((Params.new.set .bool "flag" true).2.set .int "count"
        ⟨10, by decide, by decide⟩).2.to_string (fun _ => "")
      = some (concatAll ["count" ++ "=" ++ "10" ++ ", ", "flag" ++ "=" ++ "true" ++ ", "]) ∧
    ∃ init, ((Params.new.set .bool "flag" true).2.set .int "count"
        ⟨10, by decide, by decide⟩).2.to_string (fun _ => "") = some (init ++ ", ") :=
  ⟨by decide, by decide,
   (to_string_concatenation (fun _ => "") ((Params.new.set .bool "flag" true).2.set .int "count"
        ⟨10, by decide, by decide⟩).2).2.2.1 (by decide)⟩

end sequoia.utils

/-! ## The kinds held by a reachable store -/

namespace sequoia.utils

theorem Params.find_remove (s : Params) (k k2 : String) :
    (s.remove k).2.params_.find k2 = if k2 = k then none else s.params_.find k2 := by
  cases hf : s.params_.find k with
  | none =>
    have hr : (s.remove k).2 = s := by
      simp [Params.remove, ParamMap.erase, hf]
    rw [hr]
    split_ifs with h
    · rw [h]; exact hf
    · rfl
  | some a =>
    have hr2 : (s.remove k).2.params_.entries = eraseEntry k s.params_.entries := by
      simp [Params.remove, ParamMap.erase, hf]
    unfold ParamMap.find
    rw [hr2]
    split_ifs with h
    · rw [h]; exact findEntry_eraseEntry_self s.params_.ordered
    · exact findEntry_eraseEntry_other h s.params_.entries

theorem Params.Reachable.typed {s : Params} (h : Params.Reachable s) :
    ∀ k a, s.params_.find k = some a → ∃ (T : SupportedParamType) (v : T.ValueType),
      a = make_any T v := by
  induction h with
  | new => intro k a hf; cases hf
  | @set T key value s _ ih =>
    intro k a hf
    have hassign : (⟨s.params_.assign key (make_any T value)⟩ : Params).params_.find k = some a →
        ∃ (T : SupportedParamType) (v : T.ValueType), a = make_any T v := by
      intro hf2
      by_cases hk : k = key
      · subst hk
        rw [Params.find_assign_self] at hf2
        exact ⟨T, value, (Option.some.inj hf2).symm⟩
      · rw [Params.find_assign_other _ _ hk] at hf2
        exact ih k a hf2
    cases hs : s.params_.find key with
    | none =>
      rw [Params.set_absent T s key value hs] at hf
      exact hassign hf
    | some b =>
      rw [Params.set_present T s key value hs] at hf
      split_ifs at hf
      · exact hassign hf
      · exact ih k a hf
  | @remove key s _ ih =>
    intro k a hf
    rw [Params.find_remove] at hf
    split_ifs at hf
    exact ih k a hf
  | clear _ _ => intro k a hf; cases hf

theorem support_make_any (T : SupportedParamType) (v : T.ValueType) :
    Params.support (make_any T v) = true := by
  cases T <;> rfl

theorem getHandler_make_any (T : SupportedParamType) (v : T.ValueType) :
    ∃ h, detail.getHandler (detail.getParamType (make_any T v).type) = some h ∧
      h.name ≠ "unknown" := by
  cases T
  · exact ⟨detail.kBoolHandler, rfl, by decide⟩
  · exact ⟨detail.kIntHandler, rfl, by decide⟩
  · exact ⟨detail.kInt64Handler, rfl, by decide⟩
  · exact ⟨detail.kDoubleHandler, rfl, by decide⟩

theorem renderedValue_make_any (num_put_double : CDouble → String) (p : TypedValue) :
    renderedValue num_put_double (make_any p.1 p.2) = renderedTyped num_put_double p := by
  obtain ⟨T, v⟩ := p
  cases T <;> rfl

theorem typed_pairs_of_entries :
    ∀ (l : List Entry),
      (∀ e ∈ l, ∃ (T : SupportedParamType) (v : T.ValueType), e.2 = make_any T v) →
      ∃ pairs : List (String × TypedValue),
        l = pairs.map (fun p => (p.1, make_any p.2.1 p.2.2)) := by
  intro l
  induction l with
  | nil => intro _; exact ⟨[], rfl⟩
  | cons e rest ih =>
    intro h
    obtain ⟨k, a⟩ := e
    obtain ⟨T, v, hv⟩ := h (k, a) (List.mem_cons_self _ _)
    obtain ⟨pairs, hp⟩ := ih (fun x hx => h x (List.mem_cons_of_mem _ hx))
    refine ⟨(k, ⟨T, v⟩) :: pairs, ?_⟩
    simp only at hv
    rw [List.map_cons, ← hp, hv]

/-- C18: every value held by a store reachable from the empty store through
`set<T>`, `remove` and `clear` is a value of one of the four supported types;
consequently, for such a store `type(k)` never returns `"unknown"`, every
entry has a handler in the registry, and `to_string` is composed of the
renderings of values of supported types only: its `Unsupported` branch is
never taken. -/
theorem reachable_supported (s : Params) (h : Params.Reachable s) :
    (∀ k a, s.params_.find k = some a →
      Params.support a = true ∧
      ∃ (T : SupportedParamType) (v : T.ValueType), a = make_any T v) ∧
    (∀ k, s.type k ≠ .ok "unknown") ∧
    (∀ e ∈ s.params_.entries,
      (detail.getHandler (detail.getParamType e.2.type)).isSome = true) ∧
    (∀ num_put_double : CDouble → String, ∃ pairs : List (String × TypedValue),
      s.params_.entries = pairs.map (fun p => (p.1, make_any p.2.1 p.2.2)) ∧
      s.to_string num_put_double = some (concatAll (pairs.map
        (fun p => p.1 ++ "=" ++ renderedTyped num_put_double p.2 ++ ", ")))) := by
  have htyped := h.typed
  have hentries : ∀ e ∈ s.params_.entries,
      ∃ (T : SupportedParamType) (v : T.ValueType), e.2 = make_any T v := by
    intro e he
    obtain ⟨k, a⟩ := e
    exact htyped k a (findEntry_of_mem s.params_.ordered he)
  refine ⟨?_, ?_, ?_, ?_⟩
  · intro k a hf
    obtain ⟨T, v, hv⟩ := htyped k a hf
    exact ⟨by rw [hv]; exact support_make_any T v, T, v, hv⟩
  · intro k
    unfold Params.type
    cases hf : s.params_.find k with
    | none => simp
    | some a =>
      obtain ⟨T, v, hv⟩ := htyped k a hf
      obtain ⟨hd, hh, hn⟩ := getHandler_make_any T v
      subst hv
      simp only [hh]
      intro he
      exact hn (Except.ok.inj he)
  · intro e he
    obtain ⟨T, v, hv⟩ := hentries e he
    obtain ⟨hd, hh, _⟩ := getHandler_make_any T v
    rw [hv, hh]
    rfl
  · intro nd
    obtain ⟨pairs, hp⟩ := typed_pairs_of_entries _ hentries
    refine ⟨pairs, hp, ?_⟩
    rw [Params.to_string_eq, hp, List.map_map]
    congr 2
    apply List.map_congr_left
    intro p _
    simp [renderedEntry, renderedValue_make_any]

/-- Witness of C18: the store reached by `set("count", 10)`. -/
theorem reachable_supported_witness :
    Params.Reachable (Params.new.set .int "count" ⟨10, by decide, by decide⟩).2 ∧
    (Params.new.set .int "count" ⟨10, by decide, by decide⟩).2.type "count"
      ≠ .ok "unknown" :=
  ⟨Params.Reachable.set .int "count" ⟨10, by decide, by decide⟩ Params.Reachable.new,
   (reachable_supported (Params.new.set .int "count" ⟨10, by decide, by decide⟩).2
      (Params.Reachable.set .int "count" ⟨10, by decide, by decide⟩
        Params.Reachable.new)).2.1 "count"⟩

end sequoia.utils

namespace sequoia.utils

theorem Params.to_string_split (num_put_double : CDouble → String) (s : Params)
    (k : String) (a : StdAny) (hf : s.params_.find k = some a) :
    ∃ pre post : List Entry, s.params_.entries = pre ++ (k, a) :: post ∧
      s.to_string num_put_double
        = some (concatAll (pre.map (renderedEntry num_put_double))
            ++ (k ++ "=" ++ renderedValue num_put_double a ++ ", ")
            ++ concatAll (post.map (renderedEntry num_put_double))) := by
  obtain ⟨pre, post, hsplit⟩ := List.append_of_mem (findEntry_mem hf)
  refine ⟨pre, post, hsplit, ?_⟩
  rw [Params.to_string_eq, hsplit]
  simp [concatAll_append, concatAll, renderedEntry, String.append_assoc]

/-- C20 as stated fails: in the store `flag = true` (a `bool`), `xflag = 1`
(an `int`), the key `flag` holds the `bool` true, and yet `to_string()`, which
is `flag=true, xflag=1, `, contains the substring `flag=1`. -/
theorem to_string_bool_rendering_counterexample :
    ((Params.new.set .bool "flag" true).2.set .int "xflag"
        ⟨1, by decide, by decide⟩).2.params_.find "flag" = some (StdAny.ofBool true) ∧
    ((Params.new.set .bool "flag" true).2.set .int "xflag"
        ⟨1, by decide, by decide⟩).2.to_string (fun _ => "")
      = some "flag=true, xflag=1, " ∧
    IsSubstring ("flag" ++ "=1") "flag=true, xflag=1, " :=
  ⟨by decide, by decide, ⟨"flag=true, x", ", ", by decide⟩⟩

/-- C20, amended: for every store and every key `k` holding a `bool` `b`, the
piece `to_string()` writes for `k`, between the pieces of the entries before
and after it, is `k` + `=true` + `, ` when `b` is true and `k` + `=false` +
`, ` when `b` is false (never `=1` or `=0`), so `to_string()` contains the
substring `k` + `=true`, resp. `k` + `=false`; the piece of an integer entry
is `k` + `=` + its signed decimal digits + `, `; the store `flag = true`,
`count = 10` renders exactly `count=10, flag=true, `. -/
theorem to_string_bool_rendering (num_put_double : CDouble → String) (s : Params)
    (k : String) :
    (∀ b : Bool, s.params_.find k = some (StdAny.ofBool b) →
      (∃ pre post : List Entry, s.params_.entries = pre ++ (k, StdAny.ofBool b) :: post ∧
        s.to_string num_put_double
          = some (concatAll (pre.map (renderedEntry num_put_double))
              ++ (k ++ "=" ++ (if b then "true" else "false") ++ ", ")
              ++ concatAll (post.map (renderedEntry num_put_double)))) ∧
      ∃ out, s.to_string num_put_double = some out ∧
        IsSubstring (k ++ (if b then "=true" else "=false")) out) ∧
    (∀ v : CInt, s.params_.find k = some (StdAny.ofInt v) →
      ∃ pre post : List Entry, s.params_.entries = pre ++ (k, StdAny.ofInt v) :: post ∧
        s.to_string num_put_double
          = some (concatAll (pre.map (renderedEntry num_put_double))
              ++ (k ++ "=" ++ Int.repr v.val ++ ", ")
              ++ concatAll (post.map (renderedEntry num_put_double)))) ∧
    (∀ v : CInt64, s.params_.find k = some (StdAny.ofInt64 v) →
      ∃ pre post : List Entry, s.params_.entries = pre ++ (k, StdAny.ofInt64 v) :: post ∧
        s.to_string num_put_double
          = some (concatAll (pre.map (renderedEntry num_put_double))
              ++ (k ++ "=" ++ Int.repr v.val ++ ", ")
              ++ concatAll (post.map (renderedEntry num_put_double)))) ∧
    ((Params.new.set .bool "flag" true).2.set .int "count"
        ⟨10, by decide, by decide⟩).2.to_string num_put_double
      = some "count=10, flag=true, " := by
  refine ⟨?_, ?_, ?_, by rw [Params.to_string_eq]; rfl⟩
  · intro b hf
    obtain ⟨pre, post, hsplit, hout⟩ := Params.to_string_split num_put_double s k _ hf
    have hout2 : s.to_string num_put_double
        = some (concatAll (pre.map (renderedEntry num_put_double))
            ++ (k ++ "=" ++ (if b then "true" else "false") ++ ", ")
            ++ concatAll (post.map (renderedEntry num_put_double))) := by
      rw [hout]
      rfl
    refine ⟨⟨pre, post, hsplit, hout2⟩, _, hout2, ?_⟩
    refine ⟨concatAll (pre.map (renderedEntry num_put_double)),
      ", " ++ concatAll (post.map (renderedEntry num_put_double)), ?_⟩
    have e1 : ∀ x : String, "=true, " ++ x = "=true" ++ (", " ++ x) := fun _ => rfl
    have e2 : ∀ x : String, "=false, " ++ x = "=false" ++ (", " ++ x) := fun _ => rfl
    cases b <;> simp [String.append_assoc, e1, e2]
  · intro v hf
    exact Params.to_string_split num_put_double s k _ hf
  · intro v hf
    exact Params.to_string_split num_put_double s k _ hf

/-- Witness of C20: the key `bool_false` of the store `bool_true = true`,
`bool_false = false`. -/
theorem to_string_bool_rendering_witness :
    ((Params.new.set .bool "bool_true" true).2.set .bool "bool_false"
        false).2.params_.find "bool_false" = some (StdAny.ofBool false) ∧
    ∃ out, ((Params.new.set .bool "bool_true" true).2.set .bool "bool_false"
        false).2.to_string (fun _ => "") = some out ∧
      IsSubstring ("bool_false" ++ (if false then "=true" else "=false")) out :=
  ⟨by decide,
   ((to_string_bool_rendering (fun _ => "")
      ((Params.new.set .bool "bool_true" true).2.set .bool "bool_false" false).2
      "bool_false").1 false (by decide)).2⟩

end sequoia.utils

/-! ## The stream form -/

namespace sequoia.utils

theorem Params.op_lshift_loop_spec :
    ∀ (l : List Entry) (os : OStream),
      ∃ os1, Params.op_lshift_loop os l = some os1 ∧
        os1.buf = os.buf ++ concatAll (l.map (streamedEntry os.num_put_double)) ∧
        os1.num_put_double = os.num_put_double := by
  intro l
  induction l with
  | nil =>
    intro os
    exact ⟨os, rfl, by simp [concatAll], rfl⟩
  | cons e rest ih =>
    intro os
    obtain ⟨k, v⟩ := e
    cases v with
    | ofBool b =>
      obtain ⟨os1, h1, h2, h3⟩ := ih ((((((os.put k).put "(").put "bool").put
        "): ").set_boolalpha.insert .bool b).put detail.kSplitStr)
      refine ⟨os1, ?_, ?_, ?_⟩
      · rw [← h1]; rfl
      · rw [h2]
        cases b <;>
          simp [OStream.put, OStream.set_boolalpha, OStream.insert, OStream.put_bool,
            detail.kSplitStr, concatAll, streamedEntry, kindName, renderedValue,
            String.append_assoc]
      · rw [h3]; rfl
    | ofInt x =>
      obtain ⟨os1, h1, h2, h3⟩ := ih ((((((os.put k).put "(").put "int").put
        "): ").insert .int x).put detail.kSplitStr)
      refine ⟨os1, ?_, ?_, ?_⟩
      · rw [← h1]; rfl
      · rw [h2]
        simp [OStream.put, OStream.insert, OStream.put_int,
          detail.kSplitStr, concatAll, streamedEntry, kindName, renderedValue,
          String.append_assoc]
      · rw [h3]; rfl
    | ofInt64 x =>
      obtain ⟨os1, h1, h2, h3⟩ := ih ((((((os.put k).put "(").put "int64").put
        "): ").insert .int64 x).put detail.kSplitStr)
      refine ⟨os1, ?_, ?_, ?_⟩
      · rw [← h1]; rfl
      · rw [h2]
        simp [OStream.put, OStream.insert, OStream.put_int,
          detail.kSplitStr, concatAll, streamedEntry, kindName, renderedValue,
          String.append_assoc]
      · rw [h3]; rfl
    | ofDouble x =>
      obtain ⟨os1, h1, h2, h3⟩ := ih ((((((os.put k).put "(").put "double").put
        "): ").insert .double x).put detail.kSplitStr)
      refine ⟨os1, ?_, ?_, ?_⟩
      · rw [← h1]; rfl
      · rw [h2]
        simp [OStream.put, OStream.insert, OStream.put_double,
          detail.kSplitStr, concatAll, streamedEntry, kindName, renderedValue,
          String.append_assoc]
      · rw [h3]; rfl
    | empty =>
      obtain ⟨os1, h1, h2, h3⟩ := ih (((os.put k).put "=Unsupported").put detail.kSplitStr)
      refine ⟨os1, ?_, ?_, ?_⟩
      · rw [← h1]; rfl
      · rw [h2]
        simp [OStream.put, detail.kSplitStr, concatAll, streamedEntry, kindName,
          String.append_assoc]
      · rw [h3]; rfl
    | ofOther name repr =>
      obtain ⟨os1, h1, h2, h3⟩ := ih (((os.put k).put "=Unsupported").put detail.kSplitStr)
      refine ⟨os1, ?_, ?_, ?_⟩
      · rw [← h1]; rfl
      · rw [h2]
        simp [OStream.put, detail.kSplitStr, concatAll, streamedEntry, kindName,
          String.append_assoc]
      · rw [h3]; rfl

/-- C21 as stated fails on an unsupported kind: the store that holds a
`std::string` under `x` is streamed as `Params[x=Unsupported, ]`, which is not
`Params[` + `x` + `(` + kind name + `): ` + rendered value + `, ` + `]` for any
kind name and any rendered value. -/
theorem op_lshift_rendering_counterexample :
    (set_any Params.new "x" (StdAny.ofOther "std::string" "a")).2.params_.entries
      = [("x", StdAny.ofOther "std::string" "a")] ∧
    (Params.op_lshift (OStream.new (fun _ => ""))
        (set_any Params.new "x" (StdAny.ofOther "std::string" "a")).2).map OStream.str
      = some "Params[x=Unsupported, ]" ∧
    ¬ ∃ name rendered : String,
      "Params[x=Unsupported, ]" = "Params[" ++ ("x" ++ "(" ++ name ++ "): " ++ rendered ++ ", ")
        ++ "]" := by
  refine ⟨by decide, by decide, ?_⟩
  rintro ⟨name, rendered, h⟩
  have h2 := congrArg String.data h
  simp at h2

/-- C21, amended: the stream rendering of a store appends to the stream
exactly `Params[`, then for each entry in ascending key order its piece, then
`]`; the piece of an entry of a supported kind is key + `(` + kind name + `): `
+ rendered value + `, `, the kind name being `bool`, `int`, `int64` or
`double` (the name `type(key)` returns), and the piece of an entry of any other
kind is key + `=Unsupported` + `, `; the empty store renders as `Params[]`. -/
theorem op_lshift_rendering (os : OStream) (s : Params) :
    (∃ os1, Params.op_lshift os s = some os1 ∧
      os1.buf = os.buf ++ "Params["
        ++ concatAll (s.params_.entries.map (streamedEntry os.num_put_double)) ++ "]") ∧
    (∀ e ∈ s.params_.entries, Params.support e.2 = true →
      ∃ name, name ∈ ["bool", "int", "int64", "double"] ∧ s.type e.1 = .ok name ∧
        streamedEntry os.num_put_double e
          = e.1 ++ "(" ++ name ++ "): " ++ renderedValue os.num_put_double e.2 ++ ", ") ∧
    (∀ e ∈ s.params_.entries, Params.support e.2 = false →
      streamedEntry os.num_put_double e = e.1 ++ "=Unsupported" ++ ", ") ∧
    (Params.op_lshift os Params.new).map OStream.str = some (os.buf ++ "Params[]") := by
  refine ⟨?_, ?_, ?_, ?_⟩
  · obtain ⟨os1, h1, h2, _⟩ := Params.op_lshift_loop_spec s.params_.entries (os.put "Params[")
    refine ⟨os1.put "]", ?_, ?_⟩
    · unfold Params.op_lshift
      rw [h1]
    · simp [OStream.put, h2]
  · intro e he hs
    obtain ⟨k, v⟩ := e
    have hf : s.params_.find k = some v := findEntry_of_mem s.params_.ordered he
    cases v with
    | ofBool b => exact ⟨"bool", by simp, by simp [Params.type, hf]; rfl, rfl⟩
    | ofInt x => exact ⟨"int", by simp, by simp [Params.type, hf]; rfl, rfl⟩
    | ofInt64 x => exact ⟨"int64", by simp, by simp [Params.type, hf]; rfl, rfl⟩
    | ofDouble x => exact ⟨"double", by simp, by simp [Params.type, hf]; rfl, rfl⟩
    | empty => exact Bool.noConfusion hs
    | ofOther name repr => exact Bool.noConfusion hs
  · intro e he hs
    obtain ⟨k, v⟩ := e
    cases v with
    | ofBool b => exact Bool.noConfusion hs
    | ofInt x => exact Bool.noConfusion hs
    | ofInt64 x => exact Bool.noConfusion hs
    | ofDouble x => exact Bool.noConfusion hs
    | empty => rfl
    | ofOther name repr => rfl
  · simp [Params.op_lshift, Params.op_lshift_loop, Params.new, ParamMap.nil, OStream.str,
      OStream.put, String.append_assoc]

/-- Witness of C21: the store `name = 42`, `flag = true` of the test. -/
theorem op_lshift_rendering_witness :
    ("flag", StdAny.ofBool true) ∈ ((Params.new.set .int "name"
        ⟨42, by decide, by decide⟩).2.set .bool "flag" true).2.params_.entries ∧
    Params.support (StdAny.ofBool true) = true ∧
    (Params.op_lshift (OStream.new (fun _ => "")) ((Params.new.set .int "name"
        ⟨42, by decide, by decide⟩).2.set .bool "flag" true).2).map OStream.str
      = some "Params[flag(bool): true, name(int): 42, ]" ∧
    ∃ name, name ∈ ["bool", "int", "int64", "double"] ∧
      ((Params.new.set .int "name" ⟨42, by decide, by decide⟩).2.set .bool "flag"
        true).2.type "flag" = .ok name ∧
      streamedEntry (fun _ => "") ("flag", StdAny.ofBool true)
        = "flag" ++ "(" ++ name ++ "): " ++ renderedValue (fun _ => "") (StdAny.ofBool true)
          ++ ", " :=
  ⟨by decide, by decide, by decide,
   (op_lshift_rendering (OStream.new (fun _ => "")) ((Params.new.set .int "name"
        ⟨42, by decide, by decide⟩).2.set .bool "flag" true).2).2.1
      ("flag", StdAny.ofBool true) (by decide) (by decide)⟩

end sequoia.utils

/-! ## Kind names and the capability probe -/

namespace sequoia.utils

theorem Params.type_of_find_make_any (s : Params) (k : String) (T : SupportedParamType)
    (v : T.ValueType) (hf : s.params_.find k = some (make_any T v)) :
    s.type k = .ok T.kindName := by
  unfold Params.type
  rw [hf]
  cases T <;> rfl

theorem Params.type_of_find (s : Params) (k : String) (a : StdAny)
    (hf : s.params_.find k = some a) :
    s.type k = .ok ((kindName a).getD "unknown") := by
  unfold Params.type
  rw [hf]
  cases a <;> rfl

/-- C22 as stated fails: in the store that `set_any` has given a
`std::string` under `x` the key is present, and `type("x")` returns
`unknown`, none of the four names. -/
theorem type_names_kind_counterexample :
    (set_any Params.new "x" (StdAny.ofOther "std::string" "a")).2.have_ "x" = true ∧
    (set_any Params.new "x" (StdAny.ofOther "std::string" "a")).2.type "x" = .ok "unknown" ∧
    ¬ ∃ name, name ∈ ["bool", "int", "int64", "double"] ∧
      (set_any Params.new "x" (StdAny.ofOther "std::string" "a")).2.type "x" = .ok name := by
  refine ⟨by decide, by decide, ?_⟩
  rintro ⟨name, hm, hn⟩
  have h : (set_any Params.new "x" (StdAny.ofOther "std::string" "a")).2.type "x"
      = .ok "unknown" := by decide
  rw [h] at hn
  have hname : "unknown" = name := Except.ok.inj hn
  subst hname
  revert hm
  decide

/-- C22, amended: `type(k)` throws `std::out_of_range` if and only if `k` is
absent. For a present key it returns `bool`, `int`, `int64` or `double`
after the kind of the value held under `k` when that kind is supported, so
that after a successful `set<T>(k, v)` it names `T`, and keeps doing so when
another key is set afterwards; it returns `unknown` when the value held
under `k` is of no supported kind. -/
theorem type_names_kind (s : Params) (k : String) :
    ((∃ what, s.type k = .error (.out_of_range what)) ↔ s.have_ k = false) ∧
    (s.have_ k = false → s.type k = .error (.out_of_range ("Param not found: " ++ k))) ∧
    (∀ a, s.params_.find k = some a →
      (∀ name, kindName a = some name →
        s.type k = .ok name ∧ name ∈ ["bool", "int", "int64", "double"]) ∧
      (kindName a = none → s.type k = .ok "unknown") ∧
      (kindName a = none ↔ Params.support a = false)) ∧
    (∀ (T : SupportedParamType) (v : T.ValueType),
      s.params_.find k = some (make_any T v) → s.type k = .ok T.kindName) ∧
    (∀ (T : SupportedParamType) (v : T.ValueType), (s.set T k v).1 = .ok () →
      (s.set T k v).2.type k = .ok T.kindName ∧
      ∀ (T2 : SupportedParamType) (k2 : String) (v2 : T2.ValueType), k2 ≠ k →
        ((s.set T k v).2.set T2 k2 v2).2.type k = .ok T.kindName) := by
  have habs : s.have_ k = false →
      s.type k = .error (.out_of_range ("Param not found: " ++ k)) := by
    intro h
    simp [Params.type, (s.have_eq_false_iff k).mp h]
  refine ⟨⟨?_, fun h => ⟨_, habs h⟩⟩, habs, ?_, ?_, ?_⟩
  · rintro ⟨what, hw⟩
    cases hf : s.params_.find k with
    | none => exact (s.have_eq_false_iff k).mpr hf
    | some a =>
      exfalso
      unfold Params.type at hw
      rw [hf] at hw
      cases hh : detail.getHandler (detail.getParamType a.type) <;> simp [hh] at hw
  · intro a hf
    have ht := Params.type_of_find s k a hf
    refine ⟨?_, ?_, ?_⟩
    · intro name hn
      rw [hn] at ht
      refine ⟨ht, ?_⟩
      cases a <;> simp [kindName] at hn <;> subst hn <;> decide
    · intro hn
      rw [hn] at ht
      exact ht
    · cases a <;> simp [kindName, Params.support, StdAny.type, detail.getParamType]
  · intro T v hf
    exact Params.type_of_find_make_any s k T v hf
  · intro T v hok
    have hf : (s.set T k v).2.params_.find k = some (make_any T v) := by
      cases hs : s.params_.find k with
      | none =>
        rw [Params.set_absent T s k v hs]
        exact Params.find_assign_self _ _ _
      | some a =>
        rw [Params.set_present T s k v hs] at hok ⊢
        split_ifs at hok ⊢
        exact Params.find_assign_self _ _ _
    refine ⟨Params.type_of_find_make_any _ k T v hf, ?_⟩
    intro T2 k2 v2 hne
    apply Params.type_of_find_make_any _ k T v
    rw [Params.find_set_other T2 _ v2 (fun e => hne e.symm)]
    exact hf

/-- Witness of C22: the key `l` set to `100LL`. -/
theorem type_names_kind_witness :
    (Params.new.set .int64 "l" ⟨100, by decide, by decide⟩).1 = .ok () ∧
    (Params.new.set .int64 "l" ⟨100, by decide, by decide⟩).2.type "l" = .ok "int64" :=
  ⟨by decide,
   ((type_names_kind Params.new "l").2.2.2.2 .int64 ⟨100, by decide, by decide⟩
     (by decide)).1⟩

/-- C23: `support(value)` is true if and only if the exact run-time type of
the value in the `std::any` is `bool`, `int`, `int64_t` or `double`; it is
false for a value of every other type (a `std::string`, a `float`) and for an
empty `std::any`. It is a function of the value alone: no store takes part. -/
theorem support_iff_supported_type (a : StdAny) :
    (Params.support a = true ↔
      a.type = TypeId.bool ∨ a.type = TypeId.int ∨ a.type = TypeId.int64 ∨
        a.type = TypeId.double) ∧
    (Params.support a = true ↔
      ∃ (T : SupportedParamType) (v : T.ValueType), a = make_any T v) ∧
    Params.support StdAny.empty = false ∧
    (∀ name repr, Params.support (StdAny.ofOther name repr) = false) := by
  refine ⟨?_, ?_, rfl, fun _ _ => rfl⟩
  · cases a <;> simp [Params.support, StdAny.type, detail.getParamType]
  · constructor
    · intro h
      cases a with
      | ofBool b => exact ⟨.bool, b, rfl⟩
      | ofInt x => exact ⟨.int, x, rfl⟩
      | ofInt64 x => exact ⟨.int64, x, rfl⟩
      | ofDouble x => exact ⟨.double, x, rfl⟩
      | empty => exact Bool.noConfusion h
      | ofOther name repr => exact Bool.noConfusion h
    · rintro ⟨T, v, rfl⟩
      cases T <;> rfl

/-- Witness of C23: a `std::string` is not supported, an `int` is. -/
theorem support_iff_supported_type_witness :
    Params.support (StdAny.ofOther "std::string" "test") = false ∧
    Params.support (StdAny.ofInt ⟨42, by decide, by decide⟩) = true :=
  ⟨(support_iff_supported_type StdAny.empty).2.2.2 "std::string" "test",
   (support_iff_supported_type (StdAny.ofInt ⟨42, by decide, by decide⟩)).1.mpr
     (Or.inr (Or.inl rfl))⟩

end sequoia.utils

/-! ## The macro `PARAMETERS_SUPPORT`: reading through with a seed -/

namespace sequoia.utils

theorem Params.find_after_set_ok (T : SupportedParamType) (s : Params) (k : String)
    (v : T.ValueType) (h : (s.set T k v).1 = .ok ()) :
    (s.set T k v).2.params_.find k = some (make_any T v) := by
  cases hs : s.params_.find k with
  | none =>
    rw [Params.set_absent T s k v hs]
    exact Params.find_assign_self _ _ _
  | some a =>
    rw [Params.set_present T s k v hs] at h ⊢
    split_ifs at h ⊢
    exact Params.find_assign_self _ _ _

theorem Params.set_error_unchanged (T : SupportedParamType) (s : Params) (k : String)
    (v : T.ValueType) {e : Exception} (h : (s.set T k v).1 = .error e) :
    (s.set T k v).2 = s ∧ s.have_ k = true := by
  cases hs : s.params_.find k with
  | none =>
    rw [Params.set_absent T s k v hs] at h
    cases h
  | some a =>
    refine ⟨?_, (s.have_eq_true_iff k).mpr ⟨a, hs⟩⟩
    rw [Params.set_present T s k v hs] at h ⊢
    split_ifs at h ⊢
    rfl

theorem Params.have_after_set (T : SupportedParamType) (s : Params) (k : String)
    (v : T.ValueType) : (s.set T k v).2.have_ k = true := by
  cases h : (s.set T k v).1 with
  | ok u =>
    cases u
    exact (Params.have_eq_true_iff _ k).mpr ⟨_, Params.find_after_set_ok T s k v h⟩
  | error e =>
    obtain ⟨h1, h2⟩ := Params.set_error_unchanged T s k v h
    rw [h1]
    exact h2

theorem Params.find_none_of_empty (s : Params) (k : String) (h : s.empty = true) :
    s.params_.find k = none := by
  have hl : s.params_.entries = [] := by
    have : s.params_.entries.length = 0 := by
      simpa [Params.empty, ParamMap.size] using h
    exact List.length_eq_zero.mp this
  unfold ParamMap.find
  rw [hl]
  rfl

namespace PARAMETERS_SUPPORT

theorem seed_ok (T : SupportedParamType) (self : Host) (k : String) (w : T.ValueType)
    (h : (self.parameters_.set T k w).1 = .ok ()) :
    (match SetParam T self k w with
      | (.error e, self1) => ((.error e : Except Exception T.ValueType), self1)
      | (.ok _, self1) => (GetParam T self1 k, self1))
      = (.ok w, ⟨(self.parameters_.set T k w).2⟩) := by
  have hg : (self.parameters_.set T k w).2.get T k = .ok w :=
    Params.get_of_find_make_any T _ k w (Params.find_after_set_ok T _ k w h)
  simp only [SetParam, h, GetParam, hg]

theorem seed_host (T : SupportedParamType) (self : Host) (k : String) (w : T.ValueType) :
    (match SetParam T self k w with
      | (.error e, self1) => ((.error e : Except Exception T.ValueType), self1)
      | (.ok _, self1) => (GetParam T self1 k, self1)).2
      = ⟨(self.parameters_.set T k w).2⟩ := by
  simp only [SetParam]
  cases (self.parameters_.set T k w).1 <;> rfl

end PARAMETERS_SUPPORT

/-- C24: read-seed on a host of `PARAMETERS_SUPPORT` whose store is empty. If
`O` does not contain `k`, `GetParamFromOther<T>(O, k, d)` returns `d`, and
afterwards `HaveParam(k)` is true and `GetParam<T>(k)` is `d`; if `O` holds
under `k` a value `v` of kind `T`, it returns `v`, and afterwards
`HaveParam(k)` is true and `GetParam<T>(k)` is `v`. -/
theorem read_seed_from_empty (T : SupportedParamType) (self : PARAMETERS_SUPPORT.Host)
    (O : Params) (k : String) (d : T.ValueType) (hempty : self.parameters_.empty = true) :
    (O.have_ k = false →
      (PARAMETERS_SUPPORT.GetParamFromOther T self O k d).1 = .ok d ∧
      PARAMETERS_SUPPORT.HaveParam (PARAMETERS_SUPPORT.GetParamFromOther T self O k d).2 k = true ∧
      PARAMETERS_SUPPORT.GetParam T (PARAMETERS_SUPPORT.GetParamFromOther T self O k d).2 k = .ok d) ∧
    (∀ v : T.ValueType, O.params_.find k = some (make_any T v) →
      (PARAMETERS_SUPPORT.GetParamFromOther T self O k d).1 = .ok v ∧
      PARAMETERS_SUPPORT.HaveParam (PARAMETERS_SUPPORT.GetParamFromOther T self O k d).2 k = true ∧
      PARAMETERS_SUPPORT.GetParam T (PARAMETERS_SUPPORT.GetParamFromOther T self O k d).2 k = .ok v) := by
  have hnone : self.parameters_.params_.find k = none :=
    Params.find_none_of_empty _ k hempty
  have hset : ∀ w : T.ValueType, (self.parameters_.set T k w).1 = .ok () := by
    intro w
    rw [Params.set_absent T _ k w hnone]
  have hafter : ∀ w : T.ValueType,
      (self.parameters_.set T k w).2.params_.find k = some (make_any T w) :=
    fun w => Params.find_after_set_ok T _ k w (hset w)
  constructor
  · intro hO
    have hcall : PARAMETERS_SUPPORT.GetParamFromOther T self O k d
        = (.ok d, ⟨(self.parameters_.set T k d).2⟩) := by
      unfold PARAMETERS_SUPPORT.GetParamFromOther
      rw [hO]
      exact PARAMETERS_SUPPORT.seed_ok T self k d (hset d)
    rw [hcall]
    exact ⟨rfl, (Params.have_eq_true_iff _ k).mpr ⟨_, hafter d⟩,
      Params.get_of_find_make_any T _ k d (hafter d)⟩
  · intro v hv
    have hO : O.have_ k = true := (O.have_eq_true_iff k).mpr ⟨_, hv⟩
    have hget : O.get T k = .ok v := Params.get_of_find_make_any T O k v hv
    have hcall : PARAMETERS_SUPPORT.GetParamFromOther T self O k d
        = (.ok v, ⟨(self.parameters_.set T k v).2⟩) := by
      unfold PARAMETERS_SUPPORT.GetParamFromOther
      rw [hO]
      simp only [if_true, hget]
      exact PARAMETERS_SUPPORT.seed_ok T self k v (hset v)
    rw [hcall]
    exact ⟨rfl, (Params.have_eq_true_iff _ k).mpr ⟨_, hafter v⟩,
      Params.get_of_find_make_any T _ k v (hafter v)⟩

/-- Witness of C24: the empty host seeded with 888 from an empty other store. -/
theorem read_seed_from_empty_witness :
    (⟨Params.new⟩ : PARAMETERS_SUPPORT.Host).parameters_.empty = true ∧
    Params.new.have_ "missing" = false ∧
    (PARAMETERS_SUPPORT.GetParamFromOther .int ⟨Params.new⟩ Params.new "missing"
      ⟨888, by decide, by decide⟩).1 = .ok ⟨888, by decide, by decide⟩ :=
  ⟨by decide, by decide,
   ((read_seed_from_empty .int ⟨Params.new⟩ Params.new "missing" ⟨888, by decide, by decide⟩
      (by decide)).1 (by decide)).1⟩

end sequoia.utils

/-! ## The macro `PARAMETERS_SUPPORT_WITH_CHECK` -/

namespace sequoia.utils

namespace PARAMETERS_SUPPORT_WITH_CHECK

theorem CheckParam_base_error (checks : Checks) (self : Host) (k : String) {e : Exception}
    (h : checks.BaseCheckParam self.parameters_ k = .error e) :
    CheckParam checks self k
      = (.error e, ⟨self.parameters_,
          self.events ++ [Event.BaseCheckParam k self.parameters_]⟩) := by
  simp only [CheckParam, h]

theorem CheckParam_derived_error (checks : Checks) (self : Host) (k : String) {e : Exception}
    (hb : checks.BaseCheckParam self.parameters_ k = .ok ())
    (h : checks.DerivedCheckParam self.parameters_ k = .error e) :
    CheckParam checks self k
      = (.error e, ⟨self.parameters_,
          self.events ++ [Event.BaseCheckParam k self.parameters_,
            Event.DerivedCheckParam k self.parameters_]⟩) := by
  simp only [CheckParam, hb, h, List.append_assoc, List.singleton_append]

theorem CheckParam_ok (checks : Checks) (self : Host) (k : String)
    (hb : checks.BaseCheckParam self.parameters_ k = .ok ())
    (h : checks.DerivedCheckParam self.parameters_ k = .ok ()) :
    CheckParam checks self k
      = (.ok (), ⟨self.parameters_,
          self.events ++ [Event.BaseCheckParam k self.parameters_,
            Event.DerivedCheckParam k self.parameters_]⟩) := by
  simp only [CheckParam, hb, h, List.append_assoc, List.singleton_append]

theorem CheckParam_parameters (checks : Checks) (self : Host) (k : String) :
    (CheckParam checks self k).2.parameters_ = self.parameters_ := by
  cases hb : checks.BaseCheckParam self.parameters_ k with
  | error e => rw [CheckParam_base_error checks self k hb]
  | ok u =>
    cases u
    cases hd : checks.DerivedCheckParam self.parameters_ k with
    | error e => rw [CheckParam_derived_error checks self k hb hd]
    | ok u2 =>
      cases u2
      rw [CheckParam_ok checks self k hb hd]

theorem SetParam_set_error (checks : Checks) (T : SupportedParamType) (self : Host)
    (k : String) (v : T.ValueType) {e : Exception}
    (h : (self.parameters_.set T k v).1 = .error e) :
    SetParam checks T self k v
      = (.error e, ⟨(self.parameters_.set T k v).2, self.events⟩) := by
  simp only [SetParam, h]

theorem SetParam_set_ok (checks : Checks) (T : SupportedParamType) (self : Host)
    (k : String) (v : T.ValueType) (h : (self.parameters_.set T k v).1 = .ok ()) :
    SetParam checks T self k v
      = (match CheckParam checks ⟨(self.parameters_.set T k v).2, self.events⟩ k with
          | (.error e, self2) => (.error e, self2)
          | (.ok _, self2) => (.ok (), ParamChanged self2)) := by
  simp only [SetParam, h]

theorem SetParam_parameters (checks : Checks) (T : SupportedParamType) (self : Host)
    (k : String) (v : T.ValueType) :
    (SetParam checks T self k v).2.parameters_ = (self.parameters_.set T k v).2 := by
  cases hr : (self.parameters_.set T k v).1 with
  | error e => rw [SetParam_set_error checks T self k v hr]
  | ok u =>
    cases u
    rw [SetParam_set_ok checks T self k v hr]
    have hp := CheckParam_parameters checks ⟨(self.parameters_.set T k v).2, self.events⟩ k
    rcases hc : CheckParam checks ⟨(self.parameters_.set T k v).2, self.events⟩ k with ⟨r, h1⟩
    rw [hc] at hp
    cases r with
    | error e => exact hp
    | ok u2 => exact hp

theorem checked_seed_parameters (checks : Checks) (T : SupportedParamType) (self : Host)
    (k : String) (w : T.ValueType) :
    (match SetParam checks T self k w with
      | (.error e, self1) => ((.error e : Except Exception T.ValueType), self1)
      | (.ok _, self1) => (GetParam T self1 k, self1)).2.parameters_
      = (self.parameters_.set T k w).2 := by
  have hp := SetParam_parameters checks T self k w
  rcases hc : SetParam checks T self k w with ⟨r, h1⟩
  rw [hc] at hp
  cases r with
  | error e => exact hp
  | ok u => exact hp

theorem ParamChanged_with_keeps (self : Host) :
    ParamChanged_with (fun p => (.ok (), p)) self = (.ok (), ParamChanged self) := rfl

theorem SetParam_with_set_error (checks : Checks) (body : ParamChangedBody)
    (T : SupportedParamType) (self : Host) (k : String) (v : T.ValueType) {e : Exception}
    (h : (self.parameters_.set T k v).1 = .error e) :
    SetParam_with checks body T self k v
      = (.error e, ⟨(self.parameters_.set T k v).2, self.events⟩) := by
  simp only [SetParam_with, h]

theorem SetParam_with_set_ok (checks : Checks) (body : ParamChangedBody)
    (T : SupportedParamType) (self : Host) (k : String) (v : T.ValueType)
    (h : (self.parameters_.set T k v).1 = .ok ()) :
    SetParam_with checks body T self k v
      = (match CheckParam checks ⟨(self.parameters_.set T k v).2, self.events⟩ k with
          | (.error e, self2) => (.error e, self2)
          | (.ok _, self2) => ParamChanged_with body self2) := by
  simp only [SetParam_with, h]

theorem SetParam_with_keeps (checks : Checks) (T : SupportedParamType) (self : Host)
    (k : String) (v : T.ValueType) :
    SetParam_with checks (fun p => (.ok (), p)) T self k v = SetParam checks T self k v := by
  cases hr : (self.parameters_.set T k v).1 with
  | error e =>
    rw [SetParam_with_set_error checks _ T self k v hr, SetParam_set_error checks T self k v hr]
  | ok u =>
    cases u
    rw [SetParam_with_set_ok checks _ T self k v hr, SetParam_set_ok checks T self k v hr]
    rcases CheckParam checks ⟨(self.parameters_.set T k v).2, self.events⟩ k with ⟨r, h1⟩
    cases r with
    | error e => rfl
    | ok u2 => rfl

theorem GetParamFromOther_with_keeps (checks : Checks) (T : SupportedParamType)
    (self : Host) (O : Params) (k : String) (d : T.ValueType) :
    GetParamFromOther_with checks (fun p => (.ok (), p)) T self O k d
      = GetParamFromOther checks T self O k d := by
  unfold GetParamFromOther_with GetParamFromOther
  simp only [SetParam_with_keeps]

theorem SetParam_with_have (checks : Checks) (body : ParamChangedBody)
    (T : SupportedParamType) (self : Host) (k : String) (v : T.ValueType)
    (hkeep : ∀ p : Params, p.have_ k = true → (body p).2.have_ k = true) :
    (SetParam_with checks body T self k v).2.parameters_.have_ k = true := by
  have hset := Params.have_after_set T self.parameters_ k v
  cases hr : (self.parameters_.set T k v).1 with
  | error e =>
    rw [SetParam_with_set_error checks body T self k v hr]
    exact hset
  | ok u =>
    cases u
    rw [SetParam_with_set_ok checks body T self k v hr]
    have hp := CheckParam_parameters checks ⟨(self.parameters_.set T k v).2, self.events⟩ k
    rcases hc : CheckParam checks ⟨(self.parameters_.set T k v).2, self.events⟩ k with ⟨r, h1⟩
    rw [hc] at hp
    simp only at hp
    cases r with
    | error e =>
      show h1.parameters_.have_ k = true
      rw [hp]
      exact hset
    | ok u2 =>
      show (body h1.parameters_).2.have_ k = true
      apply hkeep
      rw [hp]
      exact hset

theorem seed_with_have (checks : Checks) (body : ParamChangedBody)
    (T : SupportedParamType) (self : Host) (k : String) (w : T.ValueType)
    (hkeep : ∀ p : Params, p.have_ k = true → (body p).2.have_ k = true) :
    (match SetParam_with checks body T self k w with
      | (.error e, self1) => ((.error e : Except Exception T.ValueType), self1)
      | (.ok _, self1) => (GetParam T self1 k, self1)).2.parameters_.have_ k = true := by
  have hp := SetParam_with_have checks body T self k w hkeep
  rcases hc : SetParam_with checks body T self k w with ⟨r, h1⟩
  rw [hc] at hp
  cases r with
  | error e => exact hp
  | ok u => exact hp

end PARAMETERS_SUPPORT_WITH_CHECK

/-- C25 as stated fails, in two ways. On the host of `PARAMETERS_SUPPORT`
with the empty store, with an other store that holds the `bool` true under
`x`, `GetParamFromOther<int>(O, "x", 7)` throws the type mismatch of
`O.get<int>` and leaves the host as it was: its store does not contain `x`.
On a host of `PARAMETERS_SUPPORT_WITH_CHECK` whose `ParamChanged` empties
`parameters_`, with the empty other store, the same call installs the
default, then loses it in `ParamChanged`, and throws `std::out_of_range`
from the final `GetParam`: the store does not contain `x` either. -/
theorem key_present_after_read_seed_counterexample :
    (PARAMETERS_SUPPORT.GetParamFromOther .int ⟨Params.new⟩
        (Params.new.set .bool "x" true).2 "x" ⟨7, by decide, by decide⟩
      = (.error (.runtime_error "x" TypeId.bool TypeId.int), ⟨Params.new⟩) ∧
    PARAMETERS_SUPPORT.HaveParam
      (PARAMETERS_SUPPORT.GetParamFromOther .int ⟨Params.new⟩
        (Params.new.set .bool "x" true).2 "x" ⟨7, by decide, by decide⟩).2 "x" = false) ∧
    ((PARAMETERS_SUPPORT_WITH_CHECK.GetParamFromOther_with
        ⟨PARAMETERS_SUPPORT_WITH_CHECK.DerivedCheckParam_default,
          PARAMETERS_SUPPORT_WITH_CHECK.DerivedCheckParam_default⟩
        (fun _ => (.ok (), Params.new)) .int ⟨Params.new, []⟩ Params.new "x"
        ⟨7, by decide, by decide⟩).1
      = .error (.out_of_range "Param not found: x") ∧
    PARAMETERS_SUPPORT_WITH_CHECK.HaveParam
      (PARAMETERS_SUPPORT_WITH_CHECK.GetParamFromOther_with
        ⟨PARAMETERS_SUPPORT_WITH_CHECK.DerivedCheckParam_default,
          PARAMETERS_SUPPORT_WITH_CHECK.DerivedCheckParam_default⟩
        (fun _ => (.ok (), Params.new)) .int ⟨Params.new, []⟩ Params.new "x"
        ⟨7, by decide, by decide⟩).2 "x" = false) := by
  decide

/-- C25, amended: for every host state of `PARAMETERS_SUPPORT`, and for every
host state of `PARAMETERS_SUPPORT_WITH_CHECK` whose `ParamChanged` does not
remove `k` from the store (whatever else it does, throwing included), for
every other store `O`, key `k`, kind `T` and default `d`, after a call
`GetParamFromOther<T>(O, k, d)` the host's store contains `k`, except when
`O` holds under `k` a value that `O.get<T>(k)` cannot deliver and the host
did not contain `k` before: the call then throws that type mismatch and
leaves the host as it was. A `ParamChanged` that leaves the store alone is
the case of the other theorems on the checked macro. -/
theorem key_present_after_read_seed (T : SupportedParamType) (O : Params) (k : String)
    (d : T.ValueType) :
    (∀ self : PARAMETERS_SUPPORT.Host,
      (PARAMETERS_SUPPORT.HaveParam (PARAMETERS_SUPPORT.GetParamFromOther T self O k d).2 k
          = true ↔
        (PARAMETERS_SUPPORT.HaveParam self k = true ∨ O.have_ k = false ∨
          ∃ v, O.get T k = .ok v)) ∧
      (O.have_ k = true → ∀ e, O.get T k = .error e →
        PARAMETERS_SUPPORT.GetParamFromOther T self O k d = (.error e, self))) ∧
    (∀ (checks : PARAMETERS_SUPPORT_WITH_CHECK.Checks)
      (body : PARAMETERS_SUPPORT_WITH_CHECK.ParamChangedBody)
      (self : PARAMETERS_SUPPORT_WITH_CHECK.Host),
      (∀ p : Params, p.have_ k = true → (body p).2.have_ k = true) →
      (PARAMETERS_SUPPORT_WITH_CHECK.HaveParam
          (PARAMETERS_SUPPORT_WITH_CHECK.GetParamFromOther_with checks body T self O k d).2 k
          = true ↔
        (PARAMETERS_SUPPORT_WITH_CHECK.HaveParam self k = true ∨ O.have_ k = false ∨
          ∃ v, O.get T k = .ok v)) ∧
      (O.have_ k = true → ∀ e, O.get T k = .error e →
        PARAMETERS_SUPPORT_WITH_CHECK.GetParamFromOther_with checks body T self O k d
          = (.error e, self))) ∧
    (∀ (checks : PARAMETERS_SUPPORT_WITH_CHECK.Checks)
      (self : PARAMETERS_SUPPORT_WITH_CHECK.Host),
      PARAMETERS_SUPPORT_WITH_CHECK.GetParamFromOther_with checks (fun p => (.ok (), p))
          T self O k d
        = PARAMETERS_SUPPORT_WITH_CHECK.GetParamFromOther checks T self O k d) := by
  refine ⟨?_, ?_, fun checks self =>
    PARAMETERS_SUPPORT_WITH_CHECK.GetParamFromOther_with_keeps checks T self O k d⟩
  · intro self
    have hfail : O.have_ k = true → ∀ e, O.get T k = .error e →
        PARAMETERS_SUPPORT.GetParamFromOther T self O k d = (.error e, self) := by
      intro hO e he
      unfold PARAMETERS_SUPPORT.GetParamFromOther
      rw [hO]
      simp only [if_true, he]
    refine ⟨?_, hfail⟩
    cases hO : O.have_ k with
    | false =>
      unfold PARAMETERS_SUPPORT.GetParamFromOther PARAMETERS_SUPPORT.HaveParam
      rw [hO]
      simp only [Bool.false_eq_true, if_false, PARAMETERS_SUPPORT.seed_host,
        Params.have_after_set, true_or, or_true]
    | true =>
      cases hg : O.get T k with
      | error e =>
        rw [hfail hO e hg]
        simp
      | ok v =>
        unfold PARAMETERS_SUPPORT.GetParamFromOther PARAMETERS_SUPPORT.HaveParam
        rw [hO]
        simp only [if_true, hg, PARAMETERS_SUPPORT.seed_host, Params.have_after_set]
        simp
  · intro checks body self hkeep
    have hfail : O.have_ k = true → ∀ e, O.get T k = .error e →
        PARAMETERS_SUPPORT_WITH_CHECK.GetParamFromOther_with checks body T self O k d
          = (.error e, self) := by
      intro hO e he
      unfold PARAMETERS_SUPPORT_WITH_CHECK.GetParamFromOther_with
      rw [hO]
      simp only [if_true, he]
    refine ⟨?_, hfail⟩
    cases hO : O.have_ k with
    | false =>
      unfold PARAMETERS_SUPPORT_WITH_CHECK.GetParamFromOther_with
        PARAMETERS_SUPPORT_WITH_CHECK.HaveParam
      rw [hO]
      simp only [Bool.false_eq_true, if_false,
        PARAMETERS_SUPPORT_WITH_CHECK.seed_with_have checks body T self k d hkeep,
        true_or, or_true]
    | true =>
      cases hg : O.get T k with
      | error e =>
        rw [hfail hO e hg]
        simp
      | ok v =>
        unfold PARAMETERS_SUPPORT_WITH_CHECK.GetParamFromOther_with
          PARAMETERS_SUPPORT_WITH_CHECK.HaveParam
        rw [hO]
        simp only [if_true, hg,
          PARAMETERS_SUPPORT_WITH_CHECK.seed_with_have checks body T self k v hkeep]
        simp

/-- Witness of C25: the empty host reading `shared = 777` from the other
store ends up containing `shared`; so does a checked host whose
`ParamChanged` leaves the store alone. -/
theorem key_present_after_read_seed_witness :
    (Params.new.set .int "shared" ⟨777, by decide, by decide⟩).2.get .int "shared"
      = .ok ⟨777, by decide, by decide⟩ ∧
    PARAMETERS_SUPPORT.HaveParam
      (PARAMETERS_SUPPORT.GetParamFromOther .int ⟨Params.new⟩
        (Params.new.set .int "shared" ⟨777, by decide, by decide⟩).2 "shared"
        ⟨0, by decide, by decide⟩).2 "shared" = true ∧
    (∀ p : Params, p.have_ "shared" = true →
      ((fun q => (.ok (), q) : PARAMETERS_SUPPORT_WITH_CHECK.ParamChangedBody) p).2.have_
        "shared" = true) ∧
    PARAMETERS_SUPPORT_WITH_CHECK.HaveParam
      (PARAMETERS_SUPPORT_WITH_CHECK.GetParamFromOther_with
        ⟨PARAMETERS_SUPPORT_WITH_CHECK.DerivedCheckParam_default,
          PARAMETERS_SUPPORT_WITH_CHECK.DerivedCheckParam_default⟩
        (fun q => (.ok (), q)) .int ⟨Params.new, []⟩
        (Params.new.set .int "shared" ⟨777, by decide, by decide⟩).2 "shared"
        ⟨0, by decide, by decide⟩).2 "shared" = true :=
  ⟨by decide,
   ((key_present_after_read_seed .int
      (Params.new.set .int "shared" ⟨777, by decide, by decide⟩).2 "shared"
      ⟨0, by decide, by decide⟩).1 ⟨Params.new⟩).1.mpr
     (Or.inr (Or.inr ⟨⟨777, by decide, by decide⟩, by decide⟩)),
   fun _ h => h,
   ((key_present_after_read_seed .int
      (Params.new.set .int "shared" ⟨777, by decide, by decide⟩).2 "shared"
      ⟨0, by decide, by decide⟩).2.1
      ⟨PARAMETERS_SUPPORT_WITH_CHECK.DerivedCheckParam_default,
        PARAMETERS_SUPPORT_WITH_CHECK.DerivedCheckParam_default⟩
      (fun q => (.ok (), q)) ⟨Params.new, []⟩ (fun _ h => h)).1.mpr
     (Or.inr (Or.inr ⟨⟨777, by decide, by decide⟩, by decide⟩))⟩

end sequoia.utils

namespace sequoia.utils

/-- C29: effect order of `SetParam` on a host of
`PARAMETERS_SUPPORT_WITH_CHECK`. The store is updated first; then
`BaseCheckParam(k)` and, if it returns, `DerivedCheckParam(k)` are called,
both finding the updated store; then `ParamChanged` is called, once. When the
update throws a type mismatch nothing is called and the host is left as it
was; when a check throws, `ParamChanged` is not called. -/
theorem SetParam_effect_order (checks : PARAMETERS_SUPPORT_WITH_CHECK.Checks)
    (T : SupportedParamType) (self : PARAMETERS_SUPPORT_WITH_CHECK.Host) (k : String)
    (v : T.ValueType) :
    (∀ e, (self.parameters_.set T k v).1 = .error e →
      PARAMETERS_SUPPORT_WITH_CHECK.SetParam checks T self k v = (.error e, self)) ∧
    ((self.parameters_.set T k v).1 = .ok () →
      (∀ e, checks.BaseCheckParam (self.parameters_.set T k v).2 k = .error e →
        PARAMETERS_SUPPORT_WITH_CHECK.SetParam checks T self k v
          = (.error e, ⟨(self.parameters_.set T k v).2, self.events ++
              [PARAMETERS_SUPPORT_WITH_CHECK.Event.BaseCheckParam k
                (self.parameters_.set T k v).2]⟩)) ∧
      (checks.BaseCheckParam (self.parameters_.set T k v).2 k = .ok () →
        (∀ e, checks.DerivedCheckParam (self.parameters_.set T k v).2 k = .error e →
          PARAMETERS_SUPPORT_WITH_CHECK.SetParam checks T self k v
            = (.error e, ⟨(self.parameters_.set T k v).2, self.events ++
                [PARAMETERS_SUPPORT_WITH_CHECK.Event.BaseCheckParam k
                  (self.parameters_.set T k v).2,
                 PARAMETERS_SUPPORT_WITH_CHECK.Event.DerivedCheckParam k
                  (self.parameters_.set T k v).2]⟩)) ∧
        (checks.DerivedCheckParam (self.parameters_.set T k v).2 k = .ok () →
          PARAMETERS_SUPPORT_WITH_CHECK.SetParam checks T self k v
            = (.ok (), ⟨(self.parameters_.set T k v).2, self.events ++
                [PARAMETERS_SUPPORT_WITH_CHECK.Event.BaseCheckParam k
                  (self.parameters_.set T k v).2,
                 PARAMETERS_SUPPORT_WITH_CHECK.Event.DerivedCheckParam k
                  (self.parameters_.set T k v).2,
                 PARAMETERS_SUPPORT_WITH_CHECK.Event.ParamChanged
                  (self.parameters_.set T k v).2]⟩)))) := by
  constructor
  · intro e he
    rw [PARAMETERS_SUPPORT_WITH_CHECK.SetParam_set_error checks T self k v he,
      (Params.set_error_unchanged T _ k v he).1]
  · intro hset
    rw [PARAMETERS_SUPPORT_WITH_CHECK.SetParam_set_ok checks T self k v hset]
    refine ⟨?_, ?_⟩
    · intro e hb
      rw [PARAMETERS_SUPPORT_WITH_CHECK.CheckParam_base_error checks
        ⟨(self.parameters_.set T k v).2, self.events⟩ k hb]
    · intro hb
      refine ⟨?_, ?_⟩
      · intro e hd
        rw [PARAMETERS_SUPPORT_WITH_CHECK.CheckParam_derived_error checks
          ⟨(self.parameters_.set T k v).2, self.events⟩ k hb hd]
      · intro hd
        rw [PARAMETERS_SUPPORT_WITH_CHECK.CheckParam_ok checks
          ⟨(self.parameters_.set T k v).2, self.events⟩ k hb hd]
        simp [PARAMETERS_SUPPORT_WITH_CHECK.ParamChanged]

/-- Witness of C29: `SetParam("key", 42)` on the empty host whose checks
accept everything. -/
theorem SetParam_effect_order_witness :
    (Params.new.set .int "key" ⟨42, by decide, by decide⟩).1 = .ok () ∧
    (PARAMETERS_SUPPORT_WITH_CHECK.SetParam
        ⟨PARAMETERS_SUPPORT_WITH_CHECK.DerivedCheckParam_default,
          PARAMETERS_SUPPORT_WITH_CHECK.DerivedCheckParam_default⟩
        .int ⟨Params.new, []⟩ "key" ⟨42, by decide, by decide⟩).2.events
      = [PARAMETERS_SUPPORT_WITH_CHECK.Event.BaseCheckParam "key"
          (Params.new.set .int "key" ⟨42, by decide, by decide⟩).2,
         PARAMETERS_SUPPORT_WITH_CHECK.Event.DerivedCheckParam "key"
          (Params.new.set .int "key" ⟨42, by decide, by decide⟩).2,
         PARAMETERS_SUPPORT_WITH_CHECK.Event.ParamChanged
          (Params.new.set .int "key" ⟨42, by decide, by decide⟩).2] :=
  ⟨by decide,
   congrArg (fun r => r.2.events)
     ((((SetParam_effect_order
        ⟨PARAMETERS_SUPPORT_WITH_CHECK.DerivedCheckParam_default,
          PARAMETERS_SUPPORT_WITH_CHECK.DerivedCheckParam_default⟩
        .int ⟨Params.new, []⟩ "key" ⟨42, by decide, by decide⟩).2 (by decide)).2 rfl).2 rfl)⟩

/-- C26 as stated fails: the host holds `x = 1` and its base check rejects a
value of `x` above 1; `SetParam<int>("x", 2)` is rejected by the check, and
afterwards the store holds 2 under `x`, not the prior value 1: the store
after the failed call is not the store before it. -/
theorem SetParam_validation_failure_counterexample :
    PARAMETERS_SUPPORT_WITH_CHECK.GetParam .int
        ⟨(Params.new.set .int "x" ⟨1, by decide, by decide⟩).2, []⟩ "x"
      = .ok ⟨1, by decide, by decide⟩ ∧
    (PARAMETERS_SUPPORT_WITH_CHECK.SetParam
        ⟨fun p k => match p.get .int k with
            | .ok x => if x.val ≤ 1 then .ok () else .error (.host "x is above 1")
            | .error _ => .ok (),
          PARAMETERS_SUPPORT_WITH_CHECK.DerivedCheckParam_default⟩
        .int ⟨(Params.new.set .int "x" ⟨1, by decide, by decide⟩).2, []⟩ "x"
        ⟨2, by decide, by decide⟩).1 = .error (.host "x is above 1") ∧
    PARAMETERS_SUPPORT_WITH_CHECK.GetParam .int
        (PARAMETERS_SUPPORT_WITH_CHECK.SetParam
          ⟨fun p k => match p.get .int k with
              | .ok x => if x.val ≤ 1 then .ok () else .error (.host "x is above 1")
              | .error _ => .ok (),
            PARAMETERS_SUPPORT_WITH_CHECK.DerivedCheckParam_default⟩
          .int ⟨(Params.new.set .int "x" ⟨1, by decide, by decide⟩).2, []⟩ "x"
          ⟨2, by decide, by decide⟩).2 "x"
      = .ok ⟨2, by decide, by decide⟩ ∧
    (PARAMETERS_SUPPORT_WITH_CHECK.SetParam
        ⟨fun p k => match p.get .int k with
            | .ok x => if x.val ≤ 1 then .ok () else .error (.host "x is above 1")
            | .error _ => .ok (),
          PARAMETERS_SUPPORT_WITH_CHECK.DerivedCheckParam_default⟩
        .int ⟨(Params.new.set .int "x" ⟨1, by decide, by decide⟩).2, []⟩ "x"
        ⟨2, by decide, by decide⟩).2.parameters_
      ≠ (Params.new.set .int "x" ⟨1, by decide, by decide⟩).2 := by
  decide

/-- C26, amended: on a host of `PARAMETERS_SUPPORT_WITH_CHECK`, whenever a
check rejects the new value during `SetParam<T>(k, v)`, the call throws the
exception of the check, `ParamChanged` is not called, and the host's store is
the updated store: it holds the new value `v` under `k` (there is no
rollback to the prior value). -/
theorem SetParam_validation_failure (checks : PARAMETERS_SUPPORT_WITH_CHECK.Checks)
    (T : SupportedParamType) (self : PARAMETERS_SUPPORT_WITH_CHECK.Host) (k : String)
    (v : T.ValueType) (e : Exception)
    (hset : (self.parameters_.set T k v).1 = .ok ())
    (hrej : checks.BaseCheckParam (self.parameters_.set T k v).2 k = .error e ∨
      (checks.BaseCheckParam (self.parameters_.set T k v).2 k = .ok () ∧
        checks.DerivedCheckParam (self.parameters_.set T k v).2 k = .error e)) :
    (PARAMETERS_SUPPORT_WITH_CHECK.SetParam checks T self k v).1 = .error e ∧
    (PARAMETERS_SUPPORT_WITH_CHECK.SetParam checks T self k v).2.parameters_
      = (self.parameters_.set T k v).2 ∧
    PARAMETERS_SUPPORT_WITH_CHECK.GetParam T
      (PARAMETERS_SUPPORT_WITH_CHECK.SetParam checks T self k v).2 k = .ok v ∧
    ∃ added, (PARAMETERS_SUPPORT_WITH_CHECK.SetParam checks T self k v).2.events
        = self.events ++ added ∧
      ∀ p, PARAMETERS_SUPPORT_WITH_CHECK.Event.ParamChanged p ∉ added := by
  have hget : (self.parameters_.set T k v).2.get T k = .ok v :=
    Params.get_of_find_make_any T _ k v (Params.find_after_set_ok T _ k v hset)
  rw [PARAMETERS_SUPPORT_WITH_CHECK.SetParam_set_ok checks T self k v hset]
  rcases hrej with hb | ⟨hb, hd⟩
  · rw [PARAMETERS_SUPPORT_WITH_CHECK.CheckParam_base_error checks
      ⟨(self.parameters_.set T k v).2, self.events⟩ k hb]
    exact ⟨rfl, rfl, hget, _, rfl, by simp⟩
  · rw [PARAMETERS_SUPPORT_WITH_CHECK.CheckParam_derived_error checks
      ⟨(self.parameters_.set T k v).2, self.events⟩ k hb hd]
    exact ⟨rfl, rfl, hget, _, rfl, by simp⟩

/-- Witness of C26: the rejected `SetParam<int>("x", 2)` of the
counterexample leaves 2 under `x`. -/
theorem SetParam_validation_failure_witness :
    ((Params.new.set .int "x" ⟨1, by decide, by decide⟩).2.set .int "x"
        ⟨2, by decide, by decide⟩).1 = .ok () ∧
    PARAMETERS_SUPPORT_WITH_CHECK.GetParam .int
        (PARAMETERS_SUPPORT_WITH_CHECK.SetParam
          ⟨fun p k => match p.get .int k with
              | .ok x => if x.val ≤ 1 then .ok () else .error (.host "x is above 1")
              | .error _ => .ok (),
            PARAMETERS_SUPPORT_WITH_CHECK.DerivedCheckParam_default⟩
          .int ⟨(Params.new.set .int "x" ⟨1, by decide, by decide⟩).2, []⟩ "x"
          ⟨2, by decide, by decide⟩).2 "x"
      = .ok ⟨2, by decide, by decide⟩ :=
  ⟨by decide,
   (SetParam_validation_failure
      ⟨fun p k => match p.get .int k with
          | .ok x => if x.val ≤ 1 then .ok () else .error (.host "x is above 1")
          | .error _ => .ok (),
        PARAMETERS_SUPPORT_WITH_CHECK.DerivedCheckParam_default⟩
      .int ⟨(Params.new.set .int "x" ⟨1, by decide, by decide⟩).2, []⟩ "x"
      ⟨2, by decide, by decide⟩ (.host "x is above 1") (by decide)
      (Or.inl (by decide))).2.2.1⟩

end sequoia.utils

namespace sequoia.utils

theorem Params.remove_fst (s : Params) (k : String) : (s.remove k).1 = s.have_ k := by
  cases hf : s.params_.find k with
  | none =>
    rw [(s.have_eq_false_iff k).mpr hf]
    simp [Params.remove, ParamMap.erase, hf]
  | some a =>
    rw [(s.have_eq_true_iff k).mpr ⟨a, hf⟩]
    simp [Params.remove, ParamMap.erase, hf]

theorem Params.remove_absent (s : Params) (k : String) (h : s.have_ k = false) :
    (s.remove k).2 = s := by
  simp [Params.remove, ParamMap.erase, (s.have_eq_false_iff k).mp h]

/-- C27 as stated fails: on the host of `PARAMETERS_SUPPORT_WITH_CHECK` whose
store is already empty, `ClearParams` changes nothing and still calls
`ParamChanged`. -/
theorem ClearParams_notifies_counterexample :
    (⟨Params.new, []⟩ : PARAMETERS_SUPPORT_WITH_CHECK.Host).parameters_.empty = true ∧
    (PARAMETERS_SUPPORT_WITH_CHECK.ClearParams ⟨Params.new, []⟩).parameters_ = Params.new ∧
    (PARAMETERS_SUPPORT_WITH_CHECK.ClearParams ⟨Params.new, []⟩).events
      = [PARAMETERS_SUPPORT_WITH_CHECK.Event.ParamChanged Params.new] := by
  decide

/-- C27, amended: on a host of `PARAMETERS_SUPPORT_WITH_CHECK`, `ClearParams`
empties the store and then calls `ParamChanged` exactly once, on every call:
when the store was non-empty before the call, and also when it was already
empty. -/
theorem ClearParams_notifies (self : PARAMETERS_SUPPORT_WITH_CHECK.Host) :
    (PARAMETERS_SUPPORT_WITH_CHECK.ClearParams self).parameters_.empty = true ∧
    (PARAMETERS_SUPPORT_WITH_CHECK.ClearParams self).parameters_ = Params.new ∧
    (PARAMETERS_SUPPORT_WITH_CHECK.ClearParams self).events
      = self.events ++ [PARAMETERS_SUPPORT_WITH_CHECK.Event.ParamChanged Params.new] ∧
    (self.parameters_.empty = true →
      PARAMETERS_SUPPORT_WITH_CHECK.ClearParams self
        = ⟨self.parameters_, self.events ++
            [PARAMETERS_SUPPORT_WITH_CHECK.Event.ParamChanged self.parameters_]⟩) := by
  refine ⟨rfl, rfl, rfl, ?_⟩
  intro h
  have hs : self.parameters_ = Params.new := by
    apply Params.ext_find
    intro k
    rw [Params.find_none_of_empty _ k h]
    rfl
  rw [hs]
  rfl

/-- Witness of C27: `ClearParams` on the host whose store is empty. -/
theorem ClearParams_notifies_witness :
    (⟨Params.new, []⟩ : PARAMETERS_SUPPORT_WITH_CHECK.Host).parameters_.empty = true ∧
    PARAMETERS_SUPPORT_WITH_CHECK.ClearParams ⟨Params.new, []⟩
      = ⟨Params.new, [] ++ [PARAMETERS_SUPPORT_WITH_CHECK.Event.ParamChanged Params.new]⟩ :=
  ⟨by decide, (ClearParams_notifies ⟨Params.new, []⟩).2.2.2 (by decide)⟩

/-- C28: on a host of `PARAMETERS_SUPPORT_WITH_CHECK`, `RemoveParam(k)` on a
present key returns true, removes the entry and calls `ParamChanged` exactly
once (after the removal); on an absent key it returns false, calls nothing
and leaves the host, store included, as it was. -/
theorem RemoveParam_notifies (self : PARAMETERS_SUPPORT_WITH_CHECK.Host) (k : String) :
    (PARAMETERS_SUPPORT_WITH_CHECK.HaveParam self k = true →
      PARAMETERS_SUPPORT_WITH_CHECK.RemoveParam self k
        = (true, ⟨(self.parameters_.remove k).2, self.events ++
            [PARAMETERS_SUPPORT_WITH_CHECK.Event.ParamChanged (self.parameters_.remove k).2]⟩) ∧
      PARAMETERS_SUPPORT_WITH_CHECK.HaveParam
        (PARAMETERS_SUPPORT_WITH_CHECK.RemoveParam self k).2 k = false) ∧
    (PARAMETERS_SUPPORT_WITH_CHECK.HaveParam self k = false →
      PARAMETERS_SUPPORT_WITH_CHECK.RemoveParam self k = (false, self)) := by
  constructor
  · intro h
    have hr : (self.parameters_.remove k).1 = true := by
      rw [Params.remove_fst]
      exact h
    have hcall : PARAMETERS_SUPPORT_WITH_CHECK.RemoveParam self k
        = (true, ⟨(self.parameters_.remove k).2, self.events ++
            [PARAMETERS_SUPPORT_WITH_CHECK.Event.ParamChanged
              (self.parameters_.remove k).2]⟩) := by
      simp only [PARAMETERS_SUPPORT_WITH_CHECK.RemoveParam, hr, if_true,
        PARAMETERS_SUPPORT_WITH_CHECK.ParamChanged]
    refine ⟨hcall, ?_⟩
    rw [hcall]
    apply (Params.have_eq_false_iff _ k).mpr
    rw [Params.find_remove, if_pos rfl]
  · intro h
    have hr : (self.parameters_.remove k).1 = false := by
      rw [Params.remove_fst]
      exact h
    simp only [PARAMETERS_SUPPORT_WITH_CHECK.RemoveParam, hr, Bool.false_eq_true, if_false,
      Params.remove_absent _ k h]

/-- Witness of C28: `RemoveParam("temp")` on a host holding `temp`. -/
theorem RemoveParam_notifies_witness :
    PARAMETERS_SUPPORT_WITH_CHECK.HaveParam
      ⟨(Params.new.set .int "temp" ⟨123, by decide, by decide⟩).2, []⟩ "temp" = true ∧
    PARAMETERS_SUPPORT_WITH_CHECK.RemoveParam
        ⟨(Params.new.set .int "temp" ⟨123, by decide, by decide⟩).2, []⟩ "temp"
      = (true, ⟨((Params.new.set .int "temp" ⟨123, by decide, by decide⟩).2.remove "temp").2,
          [] ++ [PARAMETERS_SUPPORT_WITH_CHECK.Event.ParamChanged
            ((Params.new.set .int "temp" ⟨123, by decide, by decide⟩).2.remove "temp").2]⟩) :=
  ⟨by decide,
   ((RemoveParam_notifies ⟨(Params.new.set .int "temp" ⟨123, by decide, by decide⟩).2, []⟩
      "temp").1 (by decide)).1⟩

end sequoia.utils

namespace sequoia.utils

namespace PARAMETERS_SUPPORT_WITH_CHECK

theorem validationEvents_append (P : Params) (l1 l2 : List String) :
    validationEvents P (l1 ++ l2) = validationEvents P l1 ++ validationEvents P l2 := by
  induction l1 with
  | nil => rfl
  | cons a r ih => simp [validationEvents, ih]

theorem SetParams_loop_pass_prefix (checks : Checks) (P : Params) :
    ∀ (pre : List String) (ev : List Event) (rest : List String),
      (∀ x ∈ pre, checks.BaseCheckParam P x = .ok () ∧ checks.DerivedCheckParam P x = .ok ()) →
      SetParams_loop checks ⟨P, ev⟩ (pre ++ rest)
        = SetParams_loop checks ⟨P, ev ++ validationEvents P pre⟩ rest := by
  intro pre
  induction pre with
  | nil => intro ev rest _; simp [validationEvents]
  | cons a r ih =>
    intro ev rest h
    obtain ⟨hb, hd⟩ := h a (List.mem_cons_self _ _)
    rw [List.cons_append, SetParams_loop, CheckParam_ok checks ⟨P, ev⟩ a hb hd]
    simp only
    rw [ih _ rest (fun x hx => h x (List.mem_cons_of_mem _ hx))]
    simp [validationEvents]

end PARAMETERS_SUPPORT_WITH_CHECK

/-- C30: bulk replace on a host of `PARAMETERS_SUPPORT_WITH_CHECK`.
`SetParams(P)` replaces the host's store by `P`, then validates the keys of
`P` one after the other in ascending key order (each by `BaseCheckParam`, then
`DerivedCheckParam`), and only after all of them have passed calls
`ParamChanged`, exactly once; at the first key whose validation fails the
call throws, the later keys are not validated and `ParamChanged` is not
called. -/
theorem SetParams_validates_then_notifies (checks : PARAMETERS_SUPPORT_WITH_CHECK.Checks)
    (self : PARAMETERS_SUPPORT_WITH_CHECK.Host) (P : Params) :
    P.keys.Pairwise (fun a b => a.data < b.data) ∧
    (PARAMETERS_SUPPORT_WITH_CHECK.SetParams checks self P).2.parameters_ = P ∧
    ((∀ x ∈ P.keys,
        checks.BaseCheckParam P x = .ok () ∧ checks.DerivedCheckParam P x = .ok ()) →
      PARAMETERS_SUPPORT_WITH_CHECK.SetParams checks self P
        = (.ok (), ⟨P, self.events ++ PARAMETERS_SUPPORT_WITH_CHECK.validationEvents P P.keys
            ++ [PARAMETERS_SUPPORT_WITH_CHECK.Event.ParamChanged P]⟩)) ∧
    (∀ pre k post, P.keys = pre ++ k :: post →
      (∀ x ∈ pre,
        checks.BaseCheckParam P x = .ok () ∧ checks.DerivedCheckParam P x = .ok ()) →
      (∀ e, checks.BaseCheckParam P k = .error e →
        PARAMETERS_SUPPORT_WITH_CHECK.SetParams checks self P
          = (.error e, ⟨P, self.events ++ PARAMETERS_SUPPORT_WITH_CHECK.validationEvents P pre
              ++ [PARAMETERS_SUPPORT_WITH_CHECK.Event.BaseCheckParam k P]⟩)) ∧
      (checks.BaseCheckParam P k = .ok () → ∀ e, checks.DerivedCheckParam P k = .error e →
        PARAMETERS_SUPPORT_WITH_CHECK.SetParams checks self P
          = (.error e, ⟨P, self.events ++ PARAMETERS_SUPPORT_WITH_CHECK.validationEvents P pre
              ++ [PARAMETERS_SUPPORT_WITH_CHECK.Event.BaseCheckParam k P,
                  PARAMETERS_SUPPORT_WITH_CHECK.Event.DerivedCheckParam k P]⟩))) := by
  have hkeys : P.params_.entries.map Prod.fst = P.keys := (Params.keys_eq_map P).symm
  have hunfold : PARAMETERS_SUPPORT_WITH_CHECK.SetParams checks self P
      = (match PARAMETERS_SUPPORT_WITH_CHECK.SetParams_loop checks ⟨P, self.events⟩ P.keys with
          | (.error e, self2) => (.error e, self2)
          | (.ok _, self2) => (.ok (), PARAMETERS_SUPPORT_WITH_CHECK.ParamChanged self2)) := by
    simp only [PARAMETERS_SUPPORT_WITH_CHECK.SetParams, hkeys]
  have hpass : (∀ x ∈ P.keys,
        checks.BaseCheckParam P x = .ok () ∧ checks.DerivedCheckParam P x = .ok ()) →
      PARAMETERS_SUPPORT_WITH_CHECK.SetParams checks self P
        = (.ok (), ⟨P, self.events ++ PARAMETERS_SUPPORT_WITH_CHECK.validationEvents P P.keys
            ++ [PARAMETERS_SUPPORT_WITH_CHECK.Event.ParamChanged P]⟩) := by
    intro h
    have hl := PARAMETERS_SUPPORT_WITH_CHECK.SetParams_loop_pass_prefix checks P P.keys
      self.events [] h
    rw [List.append_nil] at hl
    rw [hunfold, hl]
    simp [PARAMETERS_SUPPORT_WITH_CHECK.SetParams_loop,
      PARAMETERS_SUPPORT_WITH_CHECK.ParamChanged]
  have hfail : ∀ pre k post, P.keys = pre ++ k :: post →
      (∀ x ∈ pre,
        checks.BaseCheckParam P x = .ok () ∧ checks.DerivedCheckParam P x = .ok ()) →
      (∀ e, checks.BaseCheckParam P k = .error e →
        PARAMETERS_SUPPORT_WITH_CHECK.SetParams checks self P
          = (.error e, ⟨P, self.events ++ PARAMETERS_SUPPORT_WITH_CHECK.validationEvents P pre
              ++ [PARAMETERS_SUPPORT_WITH_CHECK.Event.BaseCheckParam k P]⟩)) ∧
      (checks.BaseCheckParam P k = .ok () → ∀ e, checks.DerivedCheckParam P k = .error e →
        PARAMETERS_SUPPORT_WITH_CHECK.SetParams checks self P
          = (.error e, ⟨P, self.events ++ PARAMETERS_SUPPORT_WITH_CHECK.validationEvents P pre
              ++ [PARAMETERS_SUPPORT_WITH_CHECK.Event.BaseCheckParam k P,
                  PARAMETERS_SUPPORT_WITH_CHECK.Event.DerivedCheckParam k P]⟩)) := by
    intro pre k post hsplit hpre
    have hl := PARAMETERS_SUPPORT_WITH_CHECK.SetParams_loop_pass_prefix checks P pre
      self.events (k :: post) hpre
    rw [← hsplit] at hl
    constructor
    · intro e hb
      rw [hunfold, hl, PARAMETERS_SUPPORT_WITH_CHECK.SetParams_loop,
        PARAMETERS_SUPPORT_WITH_CHECK.CheckParam_base_error checks _ k hb]
    · intro hb e hd
      rw [hunfold, hl, PARAMETERS_SUPPORT_WITH_CHECK.SetParams_loop,
        PARAMETERS_SUPPORT_WITH_CHECK.CheckParam_derived_error checks _ k hb hd]
  refine ⟨?_, ?_, hpass, hfail⟩
  · rw [Params.keys_eq_map]
    exact List.pairwise_map.mpr P.params_.ordered
  · by_cases hall : ∀ x ∈ P.keys,
        checks.BaseCheckParam P x = .ok () ∧ checks.DerivedCheckParam P x = .ok ()
    · rw [hpass hall]
    · have hex : ∃ k ∈ P.keys,
          ¬ (checks.BaseCheckParam P k = .ok () ∧ checks.DerivedCheckParam P k = .ok ()) := by
        by_contra hne
        exact hall (fun x hx => by_contra (fun hx2 => hne ⟨x, hx, hx2⟩))
      have hfirst : ∀ (l : List String),
          (∃ k ∈ l, ¬ (checks.BaseCheckParam P k = .ok () ∧
            checks.DerivedCheckParam P k = .ok ())) →
          ∃ pre k post, l = pre ++ k :: post ∧
            (∀ x ∈ pre, checks.BaseCheckParam P x = .ok () ∧
              checks.DerivedCheckParam P x = .ok ()) ∧
            ¬ (checks.BaseCheckParam P k = .ok () ∧ checks.DerivedCheckParam P k = .ok ()) := by
        intro l
        induction l with
        | nil => rintro ⟨k, hk, _⟩; simp at hk
        | cons a r ih =>
          intro hl
          by_cases ha : checks.BaseCheckParam P a = .ok () ∧
              checks.DerivedCheckParam P a = .ok ()
          · obtain ⟨k, hk, hkf⟩ := hl
            have hkr : k ∈ r := by
              rcases List.mem_cons.mp hk with h | h
              · subst h; exact absurd ha hkf
              · exact h
            obtain ⟨pre, k2, post, h1, h2, h3⟩ := ih ⟨k, hkr, hkf⟩
            refine ⟨a :: pre, k2, post, by rw [h1]; rfl, ?_, h3⟩
            intro x hx
            rcases List.mem_cons.mp hx with h | h
            · subst h; exact ha
            · exact h2 x h
          · exact ⟨[], a, r, rfl, by simp, ha⟩
      obtain ⟨pre, k, post, hsplit, hpre, hk⟩ := hfirst P.keys hex
      obtain ⟨f1, f2⟩ := hfail pre k post hsplit hpre
      cases hb : checks.BaseCheckParam P k with
      | error e => rw [f1 e hb]
      | ok u =>
        cases u
        cases hd : checks.DerivedCheckParam P k with
        | error e => rw [f2 hb e hd]
        | ok u2 =>
          cases u2
          exact absurd ⟨hb, hd⟩ hk

/-- Witness of C30: `SetParams` of the store `a = 1`, `b = true` on a host
whose checks accept everything. -/
theorem SetParams_validates_then_notifies_witness :
    (∀ x ∈ ((Params.new.set .bool "b" true).2.set .int "a" ⟨1, by decide, by decide⟩).2.keys,
      PARAMETERS_SUPPORT_WITH_CHECK.DerivedCheckParam_default
          ((Params.new.set .bool "b" true).2.set .int "a" ⟨1, by decide, by decide⟩).2 x
        = .ok () ∧
      PARAMETERS_SUPPORT_WITH_CHECK.DerivedCheckParam_default
          ((Params.new.set .bool "b" true).2.set .int "a" ⟨1, by decide, by decide⟩).2 x
        = .ok ()) ∧
    (PARAMETERS_SUPPORT_WITH_CHECK.SetParams
        ⟨PARAMETERS_SUPPORT_WITH_CHECK.DerivedCheckParam_default,
          PARAMETERS_SUPPORT_WITH_CHECK.DerivedCheckParam_default⟩ ⟨Params.new, []⟩
        ((Params.new.set .bool "b" true).2.set .int "a" ⟨1, by decide, by decide⟩).2).2.events
      = [] ++ PARAMETERS_SUPPORT_WITH_CHECK.validationEvents
          ((Params.new.set .bool "b" true).2.set .int "a" ⟨1, by decide, by decide⟩).2
          ((Params.new.set .bool "b" true).2.set .int "a" ⟨1, by decide, by decide⟩).2.keys
        ++ [PARAMETERS_SUPPORT_WITH_CHECK.Event.ParamChanged
          ((Params.new.set .bool "b" true).2.set .int "a" ⟨1, by decide, by decide⟩).2] :=
  ⟨fun _ _ => ⟨rfl, rfl⟩,
   congrArg (fun r => r.2.events)
     ((SetParams_validates_then_notifies
        ⟨PARAMETERS_SUPPORT_WITH_CHECK.DerivedCheckParam_default,
          PARAMETERS_SUPPORT_WITH_CHECK.DerivedCheckParam_default⟩ ⟨Params.new, []⟩
        ((Params.new.set .bool "b" true).2.set .int "a"
          ⟨1, by decide, by decide⟩).2).2.2.1 (fun _ _ => ⟨rfl, rfl⟩))⟩

end sequoia.utils

/-! ## The friend function `set_any` -/

namespace sequoia.utils

theorem set_any_absent (s : Params) (k : String) (a : StdAny)
    (h : s.params_.find k = none) :
    set_any s k a = (.ok (), ⟨s.params_.assign k a⟩) := by
  have hh : s.have_ k = false := (s.have_eq_false_iff k).mpr h
  simp [set_any, hh]

theorem set_any_present (s : Params) (k : String) (a : StdAny) {stored : StdAny}
    (h : s.params_.find k = some stored) :
    set_any s k a =
      if stored.type ≠ a.type then (.error (.logic_error k stored.type a.type), s)
      else (.ok (), ⟨s.params_.assign k a⟩) := by
  have hh : s.have_ k = true := (s.have_eq_true_iff k).mpr ⟨stored, h⟩
  simp [set_any, hh, ParamMap.subscript, h]

/-- C40: `set_any(params, k, a)` and the exact run-time type of `a`.
On an absent key the call inserts `a` whatever its type is, a type outside
the four supported ones and the empty `std::any` included. On a present key
the call returns normally exactly when the type of `a` is the type of the
stored value, and then `a` is stored under `k`; `int` over a stored `int64_t`
and `int64_t` over a stored `int` are rejected like any other difference.
A rejected call throws `std::logic_error` and leaves the store as it was; a
call that returns leaves every other key as it was. -/
theorem set_any_exact_kind (s : Params) (k : String) (a : StdAny) :
    (s.params_.find k = none →
      (set_any s k a).1 = .ok () ∧ (set_any s k a).2.params_.find k = some a) ∧
    (∀ stored, s.params_.find k = some stored →
      ((set_any s k a).1 = .ok () ↔ a.type = stored.type) ∧
      (a.type = stored.type → (set_any s k a).2.params_.find k = some a) ∧
      (a.type ≠ stored.type →
        set_any s k a = (.error (.logic_error k stored.type a.type), s))) ∧
    (∀ (x : CInt) (y : CInt64), s.params_.find k = some (.ofInt64 y) →
      set_any s k (.ofInt x) = (.error (.logic_error k .int64 .int), s)) ∧
    (∀ (x : CInt) (y : CInt64), s.params_.find k = some (.ofInt x) →
      set_any s k (.ofInt64 y) = (.error (.logic_error k .int .int64), s)) ∧
    (∀ k2, k2 ≠ k → (set_any s k a).2.params_.find k2 = s.params_.find k2) := by
  refine ⟨?_, ?_, ?_, ?_, ?_⟩
  · intro h
    rw [set_any_absent s k a h]
    exact ⟨rfl, Params.find_assign_self _ k a⟩
  · intro stored h
    rw [set_any_present s k a h]
    by_cases ht : stored.type = a.type
    · rw [if_neg (not_not.mpr ht)]
      exact ⟨⟨fun _ => ht.symm, fun _ => rfl⟩,
        fun _ => Params.find_assign_self _ k a, fun hne => absurd ht.symm hne⟩
    · rw [if_pos ht]
      refine ⟨⟨fun h1 => ?_, fun h2 => absurd h2.symm ht⟩,
        fun h2 => absurd h2.symm ht, fun _ => rfl⟩
      exact Except.noConfusion h1
  · intro x y h
    rw [set_any_present s k _ h]
    rfl
  · intro x y h
    rw [set_any_present s k _ h]
    rfl
  · intro k2 hne
    cases h : s.params_.find k with
    | none =>
      rw [set_any_absent s k a h]
      exact Params.find_assign_other _ a hne
    | some stored =>
      rw [set_any_present s k a h]
      split_ifs
      · rfl
      · exact Params.find_assign_other _ a hne

/-- Witness of C40: a `std::string` is inserted under the absent key `name`
of the empty store. -/
theorem set_any_exact_kind_witness :
    Params.new.params_.find "name" = none ∧
    (set_any Params.new "name" (.ofOther "std::string" "x")).1 = .ok () ∧
    (set_any Params.new "name" (.ofOther "std::string" "x")).2.params_.find "name"
      = some (.ofOther "std::string" "x") :=
  ⟨rfl, (set_any_exact_kind Params.new "name" (.ofOther "std::string" "x")).1 rfl⟩

end sequoia.utils

/-! ## The three-way comparison, one step at a time -/

namespace sequoia.utils

theorem getParamType_unknown_iff_rank (v : StdAny) :
    detail.getParamType v.type = detail.ParamType.Unknown ↔ kindRank v = 0 := by
  cases v <;> simp [kindRank, StdAny.type, detail.getParamType]

theorem Params.op_spaceship_loop_step (e1 e2 : Entry) (r1 r2 : List Entry) :
    Params.op_spaceship_loop (e1 :: r1) (e2 :: r2) =
      if StopsWalk e1 e2 then some weak_ordering.equivalent
      else if entryOrder e1 e2 = weak_ordering.equivalent then
        Params.op_spaceship_loop r1 r2
      else some (entryOrder e1 e2) := by
  obtain ⟨k1, v1⟩ := e1
  obtain ⟨k2, v2⟩ := e2
  rw [Params.op_spaceship_loop_cons]
  simp only [entryOrder, StopsWalk]
  by_cases h1 : k1.data < k2.data
  · have hne : k1 ≠ k2 := fun h => by subst h; exact lt_irrefl _ h1
    simp [h1, hne]
  by_cases h2 : k2.data < k1.data
  · have hne : k1 ≠ k2 := fun h => by subst h; exact lt_irrefl _ h2
    simp [h1, h2, hne]
  by_cases h3 : kindRank v1 < kindRank v2
  · have hne : ¬ (k1 = k2 ∧ kindRank v1 = 0 ∧ kindRank v2 = 0) := by
      rintro ⟨_, a, b⟩; omega
    simp [h1, h2, h3, hne]
  by_cases h4 : kindRank v2 < kindRank v1
  · have hne : ¬ (k1 = k2 ∧ kindRank v1 = 0 ∧ kindRank v2 = 0) := by
      rintro ⟨_, a, b⟩; omega
    simp [h1, h2, h3, h4, hne]
  have hkey : k1 = k2 := key_eq_of_not_less h1 h2
  have hrank : kindRank v1 = kindRank v2 := by omega
  have hkind : detail.getParamType v1.type = detail.getParamType v2.type :=
    getParamType_eq_of_rank hrank
  have h4b : ¬ kindRank v1 > kindRank v2 := h4
  by_cases hu : detail.getParamType v1.type = detail.ParamType.Unknown
  · have z1 : kindRank v1 = 0 := (getParamType_unknown_iff_rank v1).mp hu
    have z2 : kindRank v2 = 0 := by omega
    rw [if_neg h1, if_neg h2, if_neg h3, if_neg h4b, if_pos hu, if_pos ⟨hkey, z1, z2⟩]
  · have z1 : kindRank v1 ≠ 0 := fun h => hu ((getParamType_unknown_iff_rank v1).mpr h)
    have hne : ¬ (k1 = k2 ∧ kindRank v1 = 0 ∧ kindRank v2 = 0) := fun h => z1 h.2.1
    obtain ⟨h, hh, hc⟩ := compare_dispatch v1 v2 hkind hu
    simp only [if_neg h1, if_neg h2, if_neg h3, if_neg h4, if_neg h4b, if_neg hu, if_neg hne,
      hh, hc]
    by_cases hv : valueOrder v1 v2 = weak_ordering.equivalent
    · simp [hv]
    · simp [hv]

theorem Params.op_spaceship_loop_isSome :
    ∀ (l1 l2 : List Entry), ∃ o, Params.op_spaceship_loop l1 l2 = some o := by
  intro l1
  induction l1 with
  | nil => intro l2; exact ⟨weak_ordering.equivalent, by simp [Params.op_spaceship_loop]⟩
  | cons e1 r1 ih =>
    intro l2
    cases l2 with
    | nil => exact ⟨weak_ordering.equivalent, by simp [Params.op_spaceship_loop]⟩
    | cons e2 r2 =>
      rw [Params.op_spaceship_loop_step]
      split_ifs
      · exact ⟨_, rfl⟩
      · exact ih r2
      · exact ⟨_, rfl⟩

theorem entryOrder_of_sameKindAndValue {e1 e2 : Entry} (hk : e1.1 = e2.1)
    (h : SameKindAndValue e1.2 e2.2) :
    entryOrder e1 e2 = weak_ordering.equivalent ∧ ¬ StopsWalk e1 e2 := by
  obtain ⟨k1, v1⟩ := e1
  obtain ⟨k2, v2⟩ := e2
  simp only at hk h
  subst hk
  have hr := sameKindAndValue_rank h
  have hs := h.supported_left
  have hz : kindRank v1 ≠ 0 := by
    intro hz
    have := (getParamType_unknown_iff v1).mp ((getParamType_unknown_iff_rank v1).mpr hz)
    rw [hs] at this
    exact Bool.noConfusion this
  refine ⟨?_, fun hst => hz hst.2.1⟩
  simp only [entryOrder]
  rw [if_neg (lt_irrefl _), if_neg (lt_irrefl _), if_neg (by omega), if_neg (by omega)]
  cases v1 <;> cases v2 <;>
    first
    | (simp [kindRank] at hr; done)
    | (simp [kindRank] at hz; done)
    | skip
  · rename_i a b
    have := (sameKindAndValue_ofBool a b).mp h
    subst this
    cases a <;> simp [valueOrder]
  · rename_i a b
    have := (sameKindAndValue_ofInt a b).mp h
    simp [valueOrder, this]
  · rename_i a b
    have := (sameKindAndValue_ofInt64 a b).mp h
    simp [valueOrder, this]
  · rename_i a b
    have he := (sameKindAndValue_ofDouble a b).mp h
    simp only [CDouble.eq, Bool.and_eq_true, Bool.not_eq_true', decide_eq_true_eq] at he
    obtain ⟨⟨na, nb⟩, ho⟩ := he
    simp [valueOrder, CDouble.lt, na, nb, ho]

theorem Params.walk_stops_after_equal_prefix (k : String) (v1 v2 : StdAny)
    (u1 : Params.support v1 = false) (r1 r2 : List Entry) :
    ∀ {p1 p2 : List Entry},
      List.Forall₂ (fun e1 e2 => e1.1 = e2.1 ∧ SameKindAndValue e1.2 e2.2) p1 p2 →
      (Params.support v2 = false →
        Params.op_spaceship_loop (p1 ++ (k, v1) :: r1) (p2 ++ (k, v2) :: r2)
          = some weak_ordering.equivalent) ∧
      Params.op_eq_loop (p1 ++ (k, v1) :: r1) (p2 ++ (k, v2) :: r2) ≠ some true := by
  intro p1 p2 hp
  induction hp with
  | nil =>
    constructor
    · intro u2
      have z1 : kindRank v1 = 0 :=
        (getParamType_unknown_iff_rank v1).mp ((getParamType_unknown_iff v1).mpr u1)
      have z2 : kindRank v2 = 0 :=
        (getParamType_unknown_iff_rank v2).mp ((getParamType_unknown_iff v2).mpr u2)
      rw [List.nil_append, List.nil_append, Params.op_spaceship_loop_step,
        if_pos ⟨rfl, z1, z2⟩]
    · intro h
      rw [List.nil_append, List.nil_append, Params.op_eq_loop_cons_true_iff] at h
      have := h.2.1.supported_left
      rw [u1] at this
      exact Bool.noConfusion this
  | @cons e1 e2 q1 q2 hab _ ih =>
    obtain ⟨heo, hns⟩ := entryOrder_of_sameKindAndValue hab.1 hab.2
    constructor
    · intro u2
      rw [List.cons_append, List.cons_append, Params.op_spaceship_loop_step, if_neg hns,
        if_pos heo]
      exact ih.1 u2
    · intro h
      obtain ⟨a1, b1⟩ := e1
      obtain ⟨a2, b2⟩ := e2
      rw [List.cons_append, List.cons_append, Params.op_eq_loop_cons_true_iff] at h
      exact ih.2 h.2.2

end sequoia.utils

/-! ## Agreement of the three-way comparison with equality -/

namespace sequoia.utils

/-- C38: agreement of `operator<=>` with `operator==`.
For two stores all of whose entries have supported kinds and none of whose
`double` values is a NaN, `A <=> B` is equivalent exactly when `A == B`.
With an entry of unsupported kind the agreement breaks: when the walk of two
stores of one size, after a prefix of equal entries, meets two entries of
unsupported kind under one key, `operator<=>` returns equivalent there,
whatever the later entries are, while `operator==` returns false. -/
theorem op_spaceship_equivalent_iff_op_eq :
    (∀ A B : Params,
      (∀ e ∈ A.params_.entries, Params.support e.2 = true ∧ e.2.isNaN = false) →
      (∀ e ∈ B.params_.entries, Params.support e.2 = true ∧ e.2.isNaN = false) →
      (A.op_spaceship B = some weak_ordering.equivalent ↔ A.op_eq B = some true)) ∧
    (∀ (A B : Params) (p1 p2 r1 r2 : List Entry) (k : String) (v1 v2 : StdAny),
      A.params_.entries = p1 ++ (k, v1) :: r1 → B.params_.entries = p2 ++ (k, v2) :: r2 →
      A.size = B.size →
      List.Forall₂ (fun e1 e2 => e1.1 = e2.1 ∧ SameKindAndValue e1.2 e2.2) p1 p2 →
      Params.support v1 = false → Params.support v2 = false →
      A.op_spaceship B = some weak_ordering.equivalent ∧ A.op_eq B = some false) := by
  constructor
  · intro A B hA hB
    rcases Nat.lt_trichotomy A.size B.size with hlt | heq | hgt
    · have h1 : A.op_spaceship B = some weak_ordering.less := by
        unfold Params.op_spaceship
        rw [if_pos hlt]
      have h2 : A.op_eq B = some false := by
        unfold Params.op_eq
        rw [if_pos (by omega)]
      rw [h1, h2]
      simp
    · have hs : A.op_spaceship B = some (lexOrder A.params_.entries B.params_.entries) := by
        unfold Params.op_spaceship
        rw [if_neg (by omega), if_neg (by omega)]
        exact Params.op_spaceship_loop_eq_lexOrder _ _
          (fun e1 h1 _ _ _ => Or.inl (hA e1 h1).1)
      rw [hs, Params.op_eq_true_iff_forall₂]
      constructor
      · intro h
        have h2 := (lexOrder_equivalent_iff _ _ heq).mp (Option.some.inj h)
        refine (forall₂_congr_of_mem ?_).mp h2
        intro a ha b hb
        exact entryOrder_equivalent_iff a.1 b.1 a.2 b.2 (hA a ha).1 (hA a ha).2 (hB b hb).1
          (hB b hb).2
      · intro h
        have h2 : List.Forall₂ (fun e1 e2 => entryOrder e1 e2 = weak_ordering.equivalent)
            A.params_.entries B.params_.entries := by
          refine (forall₂_congr_of_mem ?_).mpr h
          intro a ha b hb
          exact entryOrder_equivalent_iff a.1 b.1 a.2 b.2 (hA a ha).1 (hA a ha).2 (hB b hb).1
            (hB b hb).2
        rw [(lexOrder_equivalent_iff _ _ heq).mpr h2]
    · have h1 : A.op_spaceship B = some weak_ordering.greater := by
        unfold Params.op_spaceship
        rw [if_neg (by omega), if_pos hgt]
      have h2 : A.op_eq B = some false := by
        unfold Params.op_eq
        rw [if_pos (by omega)]
      rw [h1, h2]
      simp
  · intro A B p1 p2 r1 r2 k v1 v2 hA hB hsize hp u1 u2
    obtain ⟨w1, w2⟩ := Params.walk_stops_after_equal_prefix k v1 v2 u1 r1 r2 hp
    constructor
    · unfold Params.op_spaceship
      rw [if_neg (by omega), if_neg (by omega), hA, hB]
      exact w1 u2
    · apply Params.op_eq_false_of_not_true
      unfold Params.op_eq
      rw [if_neg (not_not.mpr hsize), hA, hB]
      exact w2

/-- Witness of C38: the stores `a = 1` and `a = 2` are neither equivalent nor
equal; the stores holding the same `std::string` under `a` and the ints 1 and
2 under `b` are equivalent for `operator<=>` and not equal. -/
theorem op_spaceship_equivalent_iff_op_eq_witness :
    ((Params.new.set .int "a" ⟨1, by decide, by decide⟩).2.op_spaceship
        (Params.new.set .int "a" ⟨2, by decide, by decide⟩).2 = some weak_ordering.equivalent ↔
      (Params.new.set .int "a" ⟨1, by decide, by decide⟩).2.op_eq
        (Params.new.set .int "a" ⟨2, by decide, by decide⟩).2 = some true) ∧
    ((set_any (Params.new.set .int "b" ⟨1, by decide, by decide⟩).2 "a"
          (.ofOther "std::string" "s")).2.op_spaceship
        (set_any (Params.new.set .int "b" ⟨2, by decide, by decide⟩).2 "a"
          (.ofOther "std::string" "s")).2 = some weak_ordering.equivalent ∧
      (set_any (Params.new.set .int "b" ⟨1, by decide, by decide⟩).2 "a"
          (.ofOther "std::string" "s")).2.op_eq
        (set_any (Params.new.set .int "b" ⟨2, by decide, by decide⟩).2 "a"
          (.ofOther "std::string" "s")).2 = some false) :=
  ⟨op_spaceship_equivalent_iff_op_eq.1 _ _ (by decide) (by decide),
   op_spaceship_equivalent_iff_op_eq.2 _ _ [] []
     [("b", .ofInt ⟨1, by decide, by decide⟩)] [("b", .ofInt ⟨2, by decide, by decide⟩)]
     "a" (.ofOther "std::string" "s") (.ofOther "std::string" "s")
     rfl rfl rfl List.Forall₂.nil rfl rfl⟩

end sequoia.utils

/-! ## The three-way comparison as a strict order -/

namespace sequoia.utils

theorem valueOrder_self (v : StdAny) : valueOrder v v = weak_ordering.equivalent := by
  cases v with
  | ofBool b => cases b <;> simp [valueOrder]
  | ofInt a => simp [valueOrder]
  | ofInt64 a => simp [valueOrder]
  | ofDouble a => simp [valueOrder, CDouble.lt]
  | empty => rfl
  | ofOther n r => rfl

theorem entryOrder_self (e : Entry) : entryOrder e e = weak_ordering.equivalent := by
  simp only [entryOrder]
  rw [if_neg (lt_irrefl _), if_neg (lt_irrefl _), if_neg (lt_irrefl _), if_neg (lt_irrefl _)]
  exact valueOrder_self e.2

theorem Params.op_spaceship_loop_self :
    ∀ l : List Entry, Params.op_spaceship_loop l l = some weak_ordering.equivalent := by
  intro l
  induction l with
  | nil => simp [Params.op_spaceship_loop]
  | cons e r ih =>
    rw [Params.op_spaceship_loop_step, entryOrder_self]
    split_ifs
    · rfl
    · exact ih
    · rfl

theorem CDouble.lt_asymm {a b : CDouble} (h : CDouble.lt a b = true) :
    CDouble.lt b a = false := by
  simp only [CDouble.lt, Bool.and_eq_true, Bool.not_eq_true', decide_eq_true_eq] at h
  simp only [CDouble.lt, Bool.and_eq_false_iff, Bool.not_eq_false', decide_eq_false_iff_not]
  right
  omega

theorem valueOrder_swap (v1 v2 : StdAny) :
    valueOrder v2 v1 = (valueOrder v1 v2).reversed := by
  cases v1 <;> cases v2 <;> first | rfl | skip
  · rename_i a b
    cases a <;> cases b <;> rfl
  · rename_i a b
    simp only [valueOrder]
    split_ifs <;> first | rfl | omega
  · rename_i a b
    simp only [valueOrder]
    split_ifs <;> first | rfl | omega
  · rename_i a b
    simp only [valueOrder]
    by_cases h1 : CDouble.lt a b = true
    · have h2 := CDouble.lt_asymm h1
      simp [h1, h2, weak_ordering.reversed]
    · by_cases h2 : CDouble.lt b a = true
      · simp [h1, h2, weak_ordering.reversed]
      · simp [h1, h2, weak_ordering.reversed]

theorem entryOrder_swap (e1 e2 : Entry) :
    entryOrder e2 e1 = (entryOrder e1 e2).reversed := by
  simp only [entryOrder]
  by_cases h1 : e1.1.data < e2.1.data
  · rw [if_neg (lt_asymm h1), if_pos h1, if_pos h1]; rfl
  by_cases h2 : e2.1.data < e1.1.data
  · rw [if_pos h2, if_neg h1, if_pos h2]; rfl
  by_cases h3 : kindRank e1.2 < kindRank e2.2
  · rw [if_neg h2, if_neg h1, if_neg (by omega), if_pos h3, if_neg h1, if_neg h2, if_pos h3]
    rfl
  by_cases h4 : kindRank e2.2 < kindRank e1.2
  · rw [if_neg h2, if_neg h1, if_pos h4, if_neg h1, if_neg h2, if_neg h3, if_pos h4]
    rfl
  rw [if_neg h2, if_neg h1, if_neg h4, if_neg h3, if_neg h1, if_neg h2, if_neg h3, if_neg h4]
  exact valueOrder_swap e1.2 e2.2

theorem stopsWalk_swap (e1 e2 : Entry) : StopsWalk e2 e1 ↔ StopsWalk e1 e2 := by
  unfold StopsWalk
  constructor <;> rintro ⟨a, b, c⟩ <;> exact ⟨a.symm, c, b⟩

theorem Params.op_spaceship_loop_swap :
    ∀ (l1 l2 : List Entry),
      Params.op_spaceship_loop l2 l1
        = (Params.op_spaceship_loop l1 l2).map weak_ordering.reversed := by
  intro l1
  induction l1 with
  | nil =>
    intro l2
    cases l2 <;> simp [Params.op_spaceship_loop, weak_ordering.reversed]
  | cons e1 r1 ih =>
    intro l2
    cases l2 with
    | nil => simp [Params.op_spaceship_loop, weak_ordering.reversed]
    | cons e2 r2 =>
      rw [Params.op_spaceship_loop_step, Params.op_spaceship_loop_step, entryOrder_swap e1 e2]
      by_cases hs : StopsWalk e1 e2
      · rw [if_pos hs, if_pos ((stopsWalk_swap e1 e2).mpr hs)]
        rfl
      · rw [if_neg hs, if_neg (fun h => hs ((stopsWalk_swap e1 e2).mp h))]
        cases heo : entryOrder e1 e2
        · simp [weak_ordering.reversed]
        · simp [weak_ordering.reversed, ih r2]
        · simp [weak_ordering.reversed]

theorem Params.op_spaceship_swap (A B : Params) :
    B.op_spaceship A = (A.op_spaceship B).map weak_ordering.reversed := by
  unfold Params.op_spaceship
  rcases Nat.lt_trichotomy A.size B.size with h | h | h
  · rw [if_pos h, if_neg (show ¬ B.size < A.size by omega),
      if_pos (show B.size > A.size from h)]
    rfl
  · rw [if_neg (show ¬ A.size < B.size by omega), if_neg (show ¬ A.size > B.size by omega),
      if_neg (show ¬ B.size < A.size by omega), if_neg (show ¬ B.size > A.size by omega)]
    exact Params.op_spaceship_loop_swap _ _
  · rw [if_pos h, if_neg (show ¬ A.size < B.size by omega),
      if_pos (show A.size > B.size from h)]
    rfl

end sequoia.utils

namespace sequoia.utils

theorem sortKey_lt_iff (e1 e2 : Entry) :
    sortKey e1 < sortKey e2 ↔
      e1.1.data < e2.1.data ∨ (e1.1.data = e2.1.data ∧
        (kindRank e1.2 < kindRank e2.2 ∨
          (kindRank e1.2 = kindRank e2.2 ∧ valueKey e1.2 < valueKey e2.2))) := by
  unfold sortKey
  rw [Prod.Lex.lt_iff]
  simp only
  rw [Prod.Lex.lt_iff]

theorem sortKey_eq_iff (e1 e2 : Entry) :
    sortKey e1 = sortKey e2 ↔
      e1.1 = e2.1 ∧ kindRank e1.2 = kindRank e2.2 ∧ valueKey e1.2 = valueKey e2.2 := by
  unfold sortKey
  constructor
  · intro h
    have h1 := congrArg (fun x => (ofLex x).1) h
    have h2 := congrArg (fun x => (ofLex (ofLex x).2).1) h
    have h3 := congrArg (fun x => (ofLex (ofLex x).2).2) h
    simp only [ofLex_toLex] at h1 h2 h3
    exact ⟨String.ext h1, h2, h3⟩
  · rintro ⟨a, b, c⟩
    rw [a, b, c]

theorem valueOrder_key (v1 v2 : StdAny) (hr : kindRank v1 = kindRank v2)
    (n1 : v1.isNaN = false) (n2 : v2.isNaN = false) :
    (valueOrder v1 v2 = weak_ordering.less ↔ valueKey v1 < valueKey v2) ∧
    (valueOrder v1 v2 = weak_ordering.greater ↔ valueKey v2 < valueKey v1) := by
  cases v1 <;> cases v2 <;>
    first
    | (simp [kindRank] at hr; done)
    | (simp [valueOrder, valueKey]; done)
    | skip
  · rename_i a b
    cases a <;> cases b <;> simp [valueOrder, valueKey]
  · rename_i a b
    simp only [valueOrder, valueKey]
    split_ifs <;> simp <;> omega
  · rename_i a b
    simp only [valueOrder, valueKey]
    split_ifs <;> simp <;> omega
  · rename_i a b
    simp only [StdAny.isNaN] at n1 n2
    simp only [valueOrder, valueKey, CDouble.lt, n1, n2, Bool.not_false, Bool.true_and,
      decide_eq_true_eq]
    split_ifs <;> simp <;> omega

theorem entryOrder_key (e1 e2 : Entry) (n1 : e1.2.isNaN = false) (n2 : e2.2.isNaN = false) :
    (entryOrder e1 e2 = weak_ordering.less ↔ sortKey e1 < sortKey e2) ∧
    (entryOrder e1 e2 = weak_ordering.greater ↔ sortKey e2 < sortKey e1) := by
  rw [sortKey_lt_iff, sortKey_lt_iff]
  simp only [entryOrder]
  by_cases h1 : e1.1.data < e2.1.data
  · have h1b : ¬ e2.1.data < e1.1.data := lt_asymm h1
    have h1c : ¬ e2.1.data = e1.1.data := fun h => by rw [h] at h1; exact lt_irrefl _ h1
    simp [h1, h1b, h1c]
  by_cases h2 : e2.1.data < e1.1.data
  · have h2c : ¬ e1.1.data = e2.1.data := fun h => by rw [h] at h2; exact lt_irrefl _ h2
    simp [h1, h2, h2c]
  have hkey : e1.1.data = e2.1.data := by
    rcases lt_trichotomy e1.1.data e2.1.data with h | h | h
    · exact absurd h h1
    · exact h
    · exact absurd h h2
  by_cases h3 : kindRank e1.2 < kindRank e2.2
  · have h3b : ¬ kindRank e2.2 < kindRank e1.2 := by omega
    have h3c : ¬ kindRank e2.2 = kindRank e1.2 := by omega
    simp [h1, h2, h3, h3b, h3c, hkey]
  by_cases h4 : kindRank e2.2 < kindRank e1.2
  · have h4c : ¬ kindRank e1.2 = kindRank e2.2 := by omega
    simp [h1, h2, h3, h4, h4c, hkey]
  have hrank : kindRank e1.2 = kindRank e2.2 := by omega
  obtain ⟨a, b⟩ := valueOrder_key e1.2 e2.2 hrank n1 n2
  simp [h1, h2, h3, h4, hkey, hrank, a, b]

theorem entryOrder_equivalent_key (e1 e2 : Entry) (n1 : e1.2.isNaN = false)
    (n2 : e2.2.isNaN = false) :
    entryOrder e1 e2 = weak_ordering.equivalent ↔ sortKey e1 = sortKey e2 := by
  obtain ⟨a, b⟩ := entryOrder_key e1 e2 n1 n2
  constructor
  · intro h
    rcases lt_trichotomy (sortKey e1) (sortKey e2) with c | c | c
    · rw [a.mpr c] at h; cases h
    · exact c
    · rw [b.mpr c] at h; cases h
  · intro h
    cases heo : entryOrder e1 e2
    · have := a.mp heo
      rw [h] at this
      exact absurd this (lt_irrefl _)
    · rfl
    · have := b.mp heo
      rw [h] at this
      exact absurd this (lt_irrefl _)

theorem valueKey_of_rank_zero {v : StdAny} (h : kindRank v = 0) : valueKey v = 0 := by
  cases v <;> first | rfl | exact absurd h (Nat.succ_ne_zero _)

theorem Params.op_spaceship_loop_less_iff (e1 e2 : Entry) (r1 r2 : List Entry)
    (n1 : e1.2.isNaN = false) (n2 : e2.2.isNaN = false) :
    Params.op_spaceship_loop (e1 :: r1) (e2 :: r2) = some weak_ordering.less ↔
      sortKey e1 < sortKey e2 ∨
        (sortKey e1 = sortKey e2 ∧ kindRank e1.2 ≠ 0 ∧
          Params.op_spaceship_loop r1 r2 = some weak_ordering.less) := by
  rw [Params.op_spaceship_loop_step]
  obtain ⟨a, _⟩ := entryOrder_key e1 e2 n1 n2
  have c := entryOrder_equivalent_key e1 e2 n1 n2
  by_cases hs : StopsWalk e1 e2
  · rw [if_pos hs]
    have hkeq : sortKey e1 = sortKey e2 := by
      rw [sortKey_eq_iff]
      exact ⟨hs.1, by rw [hs.2.1, hs.2.2],
        by rw [valueKey_of_rank_zero hs.2.1, valueKey_of_rank_zero hs.2.2]⟩
    constructor
    · intro h; cases h
    · rintro (h | ⟨_, h, _⟩)
      · rw [hkeq] at h; exact absurd h (lt_irrefl _)
      · exact absurd hs.2.1 h
  · rw [if_neg hs]
    by_cases heq : entryOrder e1 e2 = weak_ordering.equivalent
    · rw [if_pos heq]
      have hk := c.mp heq
      have hz : kindRank e1.2 ≠ 0 := by
        intro hz
        have h2 := ((sortKey_eq_iff e1 e2).mp hk)
        exact hs ⟨h2.1, hz, by rw [← h2.2.1]; exact hz⟩
      constructor
      · intro h; exact Or.inr ⟨hk, hz, h⟩
      · rintro (h | ⟨_, _, h⟩)
        · rw [hk] at h; exact absurd h (lt_irrefl _)
        · exact h
    · rw [if_neg heq]
      constructor
      · intro h
        exact Or.inl (a.mp (Option.some.inj h))
      · rintro (h | ⟨h, _, _⟩)
        · rw [a.mpr h]
        · exact absurd (c.mpr h) heq

theorem Params.op_spaceship_loop_trans :
    ∀ (l1 l2 l3 : List Entry),
      (∀ e ∈ l1, e.2.isNaN = false) → (∀ e ∈ l2, e.2.isNaN = false) →
      (∀ e ∈ l3, e.2.isNaN = false) →
      Params.op_spaceship_loop l1 l2 = some weak_ordering.less →
      Params.op_spaceship_loop l2 l3 = some weak_ordering.less →
      Params.op_spaceship_loop l1 l3 = some weak_ordering.less := by
  intro l1
  induction l1 with
  | nil =>
    intro l2 l3 _ _ _ h
    simp [Params.op_spaceship_loop] at h
  | cons a r1 ih =>
    intro l2 l3 n1 n2 n3 h12 h23
    cases l2 with
    | nil => simp [Params.op_spaceship_loop] at h12
    | cons b r2 =>
      cases l3 with
      | nil => simp [Params.op_spaceship_loop] at h23
      | cons c r3 =>
        have na := n1 a (List.mem_cons_self _ _)
        have nb := n2 b (List.mem_cons_self _ _)
        have nc := n3 c (List.mem_cons_self _ _)
        rw [Params.op_spaceship_loop_less_iff a b r1 r2 na nb] at h12
        rw [Params.op_spaceship_loop_less_iff b c r2 r3 nb nc] at h23
        rw [Params.op_spaceship_loop_less_iff a c r1 r3 na nc]
        rcases h12 with h12 | ⟨e12, z1, t12⟩
        · rcases h23 with h23 | ⟨e23, _, _⟩
          · exact Or.inl (lt_trans h12 h23)
          · exact Or.inl (by rw [← e23]; exact h12)
        · rcases h23 with h23 | ⟨e23, _, t23⟩
          · exact Or.inl (by rw [e12]; exact h23)
          · exact Or.inr ⟨e12.trans e23, z1,
              ih r2 r3 (fun e he => n1 e (List.mem_cons_of_mem _ he))
                (fun e he => n2 e (List.mem_cons_of_mem _ he))
                (fun e he => n3 e (List.mem_cons_of_mem _ he)) t12 t23⟩

end sequoia.utils

namespace sequoia.utils

theorem Params.op_spaceship_isSome (A B : Params) : ∃ o, A.op_spaceship B = some o := by
  unfold Params.op_spaceship
  split_ifs
  · exact ⟨_, rfl⟩
  · exact ⟨_, rfl⟩
  · exact Params.op_spaceship_loop_isSome _ _

theorem Params.op_spaceship_less_iff (A B : Params) :
    A.op_spaceship B = some weak_ordering.less ↔
      A.size < B.size ∨ (A.size = B.size ∧
        Params.op_spaceship_loop A.params_.entries B.params_.entries
          = some weak_ordering.less) := by
  unfold Params.op_spaceship
  rcases Nat.lt_trichotomy A.size B.size with h | h | h
  · rw [if_pos h]
    exact ⟨fun _ => Or.inl h, fun _ => rfl⟩
  · rw [if_neg (show ¬ A.size < B.size by omega), if_neg (show ¬ A.size > B.size by omega)]
    exact ⟨fun h2 => Or.inr ⟨h, h2⟩, fun h2 => h2.elim (fun h3 => by omega) (fun h3 => h3.2)⟩
  · rw [if_neg (show ¬ A.size < B.size by omega), if_pos (show A.size > B.size from h)]
    constructor
    · intro h2; cases h2
    · rintro (h3 | ⟨h3, _⟩) <;> omega

/-- C39: `operator<=>` on stores without a NaN is a strict order.
For stores `A`, `B`, `C` none of whose `double` values is a NaN (entries of
unsupported kind are allowed): `A < A` is false; `A <=> B` always has a
value and `B <=> A` is that value reversed, so `A < B` exactly when `B > A`;
and `A < B` with `B < C` gives `A < C`. -/
theorem op_spaceship_strict_order (A B C : Params)
    (hA : ∀ e ∈ A.params_.entries, e.2.isNaN = false)
    (hB : ∀ e ∈ B.params_.entries, e.2.isNaN = false)
    (hC : ∀ e ∈ C.params_.entries, e.2.isNaN = false) :
    A.op_spaceship A ≠ some weak_ordering.less ∧
    (∃ o, A.op_spaceship B = some o ∧ B.op_spaceship A = some o.reversed) ∧
    (A.op_spaceship B = some weak_ordering.less ↔
      B.op_spaceship A = some weak_ordering.greater) ∧
    (A.op_spaceship B = some weak_ordering.less →
      B.op_spaceship C = some weak_ordering.less →
      A.op_spaceship C = some weak_ordering.less) := by
  have hswap := Params.op_spaceship_swap A B
  obtain ⟨o, ho⟩ := Params.op_spaceship_isSome A B
  rw [ho] at hswap
  refine ⟨?_, ⟨o, ho, hswap⟩, ?_, ?_⟩
  · intro h
    rw [Params.op_spaceship_less_iff] at h
    rcases h with h | ⟨_, h⟩
    · omega
    · rw [Params.op_spaceship_loop_self] at h
      cases h
  · rw [ho, hswap]
    cases o <;> simp [weak_ordering.reversed]
  · intro h1 h2
    rw [Params.op_spaceship_less_iff] at h1 h2 ⊢
    rcases h1 with h1 | ⟨s1, h1⟩
    · rcases h2 with h2 | ⟨s2, _⟩
      · exact Or.inl (by omega)
      · exact Or.inl (by omega)
    · rcases h2 with h2 | ⟨s2, h2⟩
      · exact Or.inl (by omega)
      · exact Or.inr ⟨by omega, Params.op_spaceship_loop_trans _ _ _ hA hB hC h1 h2⟩

/-- Witness of C39: the stores `a = 1`, `a = 2`, `a = 3`. -/
theorem op_spaceship_strict_order_witness :
    (Params.new.set .int "a" ⟨1, by decide, by decide⟩).2.op_spaceship
        (Params.new.set .int "a" ⟨2, by decide, by decide⟩).2 = some weak_ordering.less ∧
    (Params.new.set .int "a" ⟨2, by decide, by decide⟩).2.op_spaceship
        (Params.new.set .int "a" ⟨3, by decide, by decide⟩).2 = some weak_ordering.less ∧
    (Params.new.set .int "a" ⟨1, by decide, by decide⟩).2.op_spaceship
        (Params.new.set .int "a" ⟨3, by decide, by decide⟩).2 = some weak_ordering.less :=
  ⟨by decide, by decide,
   (op_spaceship_strict_order (Params.new.set .int "a" ⟨1, by decide, by decide⟩).2
      (Params.new.set .int "a" ⟨2, by decide, by decide⟩).2
      (Params.new.set .int "a" ⟨3, by decide, by decide⟩).2
      (by decide) (by decide) (by decide)).2.2.2 (by decide) (by decide)⟩

end sequoia.utils

/-! ## Splitting a string -/

namespace sequoia.utils

theorem find_char_in_none {c : Char} :
    ∀ {l : List Char}, find_char_in c l = none → c ∉ l := by
  intro l
  induction l with
  | nil => intro _; simp
  | cons x rest ih =>
    intro h
    unfold find_char_in at h
    split_ifs at h with hx
    cases hr : find_char_in c rest with
    | none =>
      intro hm
      rcases List.mem_cons.mp hm with e | e
      · exact hx e.symm
      · exact ih hr e
    | some j => rw [hr] at h; simp at h

theorem find_char_in_some {c : Char} :
    ∀ {l : List Char} {i : Nat}, find_char_in c l = some i →
      ∃ a b, l = a ++ c :: b ∧ a.length = i ∧ c ∉ a := by
  intro l
  induction l with
  | nil => intro i h; simp [find_char_in] at h
  | cons x rest ih =>
    intro i h
    unfold find_char_in at h
    split_ifs at h with hx
    · subst hx
      have : i = 0 := (Option.some.inj h).symm
      subst this
      exact ⟨[], rest, rfl, rfl, by simp⟩
    · cases hr : find_char_in c rest with
      | none => rw [hr] at h; simp at h
      | some j =>
        rw [hr] at h
        have hi : j + 1 = i := Option.some.inj h
        obtain ⟨a, b, e1, e2, e3⟩ := ih hr
        refine ⟨x :: a, b, by rw [e1]; rfl, by simp [e2, hi], ?_⟩
        intro hm
        rcases List.mem_cons.mp hm with e | e
        · exact hx e.symm
        · exact e3 e

theorem joinWith_cons_cons (sep p q : List Char) (rest : List (List Char)) :
    joinWith sep (p :: q :: rest) = p ++ sep ++ joinWith sep (q :: rest) := rfl

theorem joinWith_cons_of_ne_nil (sep p : List Char) {Q : List (List Char)} (h : Q ≠ []) :
    joinWith sep (p :: Q) = p ++ sep ++ joinWith sep Q := by
  cases Q with
  | nil => exact absurd rfl h
  | cons q rest => rfl

theorem split_char_loop_spec (s : string_view) (d : Char) :
    ∀ (fuel prepos : Nat) (result : List string_view),
      prepos ≤ s.length → s.length - prepos < fuel →
      ∃ Q, split_char_loop s d fuel prepos result = some (result ++ Q) ∧
        joinWith [d] Q = s.drop prepos ∧ (∀ q ∈ Q, d ∉ q) ∧
        Q.length = (s.drop prepos).count d + 1 := by
  intro fuel
  induction fuel with
  | zero => intro prepos result _ h; omega
  | succ fuel ih =>
    intro prepos result hle hfuel
    have hsub : ∀ n, string_view.substr s prepos n
        = some (match n with | some n => (s.drop prepos).take n | none => s.drop prepos) := by
      intro n
      unfold string_view.substr
      rw [if_neg (by omega)]
      cases n <;> rfl
    unfold split_char_loop
    unfold string_view.find_first_of
    cases hf : find_char_in d (s.drop prepos) with
    | none =>
      have hnot := find_char_in_none hf
      simp only [Option.map_none', hsub]
      refine ⟨[s.drop prepos], rfl, rfl, ?_, ?_⟩
      · intro q hq
        rw [List.mem_singleton.mp hq]
        exact hnot
      · rw [List.count_eq_zero_of_not_mem hnot]
        rfl
    | some i =>
      obtain ⟨a, b, e1, e2, e3⟩ := find_char_in_some hf
      have hlen : (s.drop prepos).length = s.length - prepos := List.length_drop _ _
      have hlen2 : (s.drop prepos).length = a.length + (b.length + 1) := by
        rw [e1]; simp
      have hpiece : (s.drop prepos).take (i + prepos - prepos) = a := by
        rw [Nat.add_sub_cancel, e1, ← e2, List.take_left']
        rfl
      have hrest : s.drop (i + prepos + 1) = b := by
        have : s.drop (i + prepos + 1) = (s.drop prepos).drop (i + 1) := by
          rw [List.drop_drop]
          congr 1
          omega
        have e1b : a ++ d :: b = (a ++ [d]) ++ b := by simp
        rw [this, e1, ← e2, e1b]
        exact List.drop_left' (by simp)
      simp only [Option.map_some', hsub, hpiece]
      obtain ⟨Q, q1, q2, q3, q4⟩ := ih (i + prepos + 1) (result ++ [a]) (by omega) (by omega)
      rw [hrest] at q2 q4
      have hQ : Q ≠ [] := by
        intro h; rw [h] at q4; simp at q4
      refine ⟨a :: Q, ?_, ?_, ?_, ?_⟩
      · rw [q1, List.append_assoc]
        rfl
      · rw [joinWith_cons_of_ne_nil _ _ hQ, q2, e1]
        simp
      · intro q hq
        rcases List.mem_cons.mp hq with h | h
        · rw [h]; exact e3
        · exact q3 q h
      · rw [e1, List.count_append, List.count_cons_self, List.count_eq_zero_of_not_mem e3,
          List.length_cons, q4]
        omega

end sequoia.utils

namespace sequoia.utils

theorem append_sep_inj {d : Char} :
    ∀ {a p x y : List Char}, a ++ d :: x = p ++ d :: y → d ∉ a → d ∉ p → a = p ∧ x = y := by
  intro a
  induction a with
  | nil =>
    intro p x y h _ hp
    cases p with
    | nil => exact ⟨rfl, (List.cons.inj h).2⟩
    | cons c p2 =>
      have := (List.cons.inj h).1
      exact absurd (this ▸ List.mem_cons_self _ _) hp
  | cons c a2 ih =>
    intro p x y h ha hp
    cases p with
    | nil =>
      have := (List.cons.inj h).1
      exact absurd (this ▸ List.mem_cons_self _ _) ha
    | cons c2 p2 =>
      obtain ⟨hc, ht⟩ := List.cons.inj h
      obtain ⟨e1, e2⟩ := ih ht (fun hm => ha (List.mem_cons_of_mem _ hm))
        (fun hm => hp (List.mem_cons_of_mem _ hm))
      exact ⟨by rw [hc, e1], e2⟩

theorem joinWith_char_unique {d : Char} :
    ∀ {P Q : List (List Char)}, P ≠ [] → Q ≠ [] → (∀ p ∈ P, d ∉ p) → (∀ q ∈ Q, d ∉ q) →
      joinWith [d] P = joinWith [d] Q → P = Q := by
  intro P
  induction P with
  | nil => intro Q h; exact absurd rfl h
  | cons p P2 ih =>
    intro Q _ hQ hP hQd hj
    cases Q with
    | nil => exact absurd rfl hQ
    | cons q Q2 =>
      have dp : d ∉ p := hP p (List.mem_cons_self _ _)
      have dq : d ∉ q := hQd q (List.mem_cons_self _ _)
      cases P2 with
      | nil =>
        cases Q2 with
        | nil =>
          have : p = q := hj
          rw [this]
        | cons q2 Q3 =>
          rw [joinWith_cons_cons] at hj
          have hp : p = q ++ [d] ++ joinWith [d] (q2 :: Q3) := hj
          exact absurd (by rw [hp]; simp) dp
      | cons p2 P3 =>
        cases Q2 with
        | nil =>
          rw [joinWith_cons_cons] at hj
          have hq : p ++ [d] ++ joinWith [d] (p2 :: P3) = q := hj
          exact absurd (by rw [← hq]; simp) dq
        | cons q2 Q3 =>
          rw [joinWith_cons_cons, joinWith_cons_cons, List.append_assoc, List.append_assoc,
            List.singleton_append, List.singleton_append] at hj
          obtain ⟨e1, e2⟩ := append_sep_inj hj dp dq
          have := ih (List.cons_ne_nil _ _) (List.cons_ne_nil _ _)
            (fun x hx => hP x (List.mem_cons_of_mem _ hx))
            (fun x hx => hQd x (List.mem_cons_of_mem _ hx)) e2
          rw [e1, this]

/-- C31: `split(s, d)` with a character delimiter.
For every string `s` and character `d` the call returns, and the pieces it
returns are one more than the occurrences of `d` in `s`, none of them
contains `d`, and joined in order with `d` between neighbours they give `s`
back. They are the only non-empty sequence of `d`-free pieces with that
join; in particular a string without `d` gives the single piece `s`. -/
theorem split_char_pieces (s : string_view) (d : Char) :
    ∃ pieces, split_char s d = some pieces ∧
      pieces.length = s.count d + 1 ∧
      (∀ p ∈ pieces, d ∉ p) ∧
      joinWith [d] pieces = s ∧
      (∀ P : List (List Char), P ≠ [] → (∀ p ∈ P, d ∉ p) → joinWith [d] P = s →
        P = pieces) ∧
      (d ∉ s → pieces = [s]) := by
  obtain ⟨Q, q1, q2, q3, q4⟩ := split_char_loop_spec s d (s.length + 1) 0 []
    (Nat.zero_le _) (by omega)
  rw [List.drop_zero] at q2 q4
  rw [List.nil_append] at q1
  have hQ : Q ≠ [] := by
    intro h; rw [h] at q4; simp at q4
  have huniq : ∀ P : List (List Char), P ≠ [] → (∀ p ∈ P, d ∉ p) → joinWith [d] P = s →
      P = Q := fun P hP hd hj => joinWith_char_unique hP hQ hd q3 (hj.trans q2.symm)
  refine ⟨Q, q1, q4, q3, q2, huniq, ?_⟩
  intro hd
  exact (huniq [s] (List.cons_ne_nil _ _)
    (fun p hp => by rw [List.mem_singleton.mp hp]; exact hd) rfl).symm

/-- Witness of C31: `"a,,b"` split at the comma gives the three pieces `a`,
the empty piece between the adjacent delimiters, and `b`. -/
theorem split_char_pieces_witness :
    split_char "a,,b".data ',' = some ["a".data, [], "b".data] ∧
    ∃ pieces, split_char "a,,b".data ',' = some pieces ∧ pieces.length = 3 ∧
      joinWith [','] pieces = "a,,b".data := by
  refine ⟨by decide, ?_⟩
  obtain ⟨pieces, h1, h2, _, h4, _⟩ := split_char_pieces "a,,b".data ','
  exact ⟨pieces, h1, h2, h4⟩

end sequoia.utils

namespace sequoia.utils

theorem find_sub_in_none {pat : List Char} (hp : pat ≠ []) :
    ∀ {l : List Char}, find_sub_in pat l = none → ¬ pat <:+: l := by
  intro l
  induction l with
  | nil =>
    intro _ hin
    exact hp (List.infix_nil.mp hin)
  | cons x rest ih =>
    intro h hin
    unfold find_sub_in at h
    split_ifs at h with hx
    cases hr : find_sub_in pat rest with
    | none =>
      rcases List.infix_cons_iff.mp hin with e | e
      · exact hx (List.isPrefixOf_iff_prefix.mpr e)
      · exact ih hr e
    | some j => rw [hr] at h; simp at h

theorem find_sub_in_some {pat : List Char} (hp : pat ≠ []) :
    ∀ {l : List Char} {i : Nat}, find_sub_in pat l = some i →
      ∃ a b, l = a ++ pat ++ b ∧ a.length = i ∧ ¬ pat <:+: a := by
  intro l
  induction l with
  | nil =>
    intro i h
    unfold find_sub_in at h
    split_ifs at h with hx
    exact absurd (List.prefix_nil.mp (List.isPrefixOf_iff_prefix.mp hx)) hp
  | cons x rest ih =>
    intro i h
    unfold find_sub_in at h
    split_ifs at h with hx
    · have : i = 0 := (Option.some.inj h).symm
      subst this
      obtain ⟨b, hb⟩ := List.isPrefixOf_iff_prefix.mp hx
      exact ⟨[], b, by rw [List.nil_append, hb], rfl, fun hin => hp (List.infix_nil.mp hin)⟩
    · cases hr : find_sub_in pat rest with
      | none => rw [hr] at h; simp at h
      | some j =>
        rw [hr] at h
        have hi : j + 1 = i := Option.some.inj h
        obtain ⟨a, b, e1, e2, e3⟩ := ih hr
        refine ⟨x :: a, b, by rw [e1]; rfl, by simp [e2, hi], ?_⟩
        intro hin
        rcases List.infix_cons_iff.mp hin with e | e
        · apply hx
          apply List.isPrefixOf_iff_prefix.mpr
          obtain ⟨t, ht⟩ := e
          exact ⟨t ++ pat ++ b, by rw [e1, ← List.append_assoc, ← List.append_assoc, ht]; simp⟩
        · exact e3 e

theorem split_string_view_loop_spec (s d : string_view) (hd : d ≠ []) :
    ∀ (fuel prepos : Nat) (result : List string_view),
      prepos ≤ s.length → s.length - prepos < fuel →
      ∃ Q, split_string_view_loop s d fuel prepos result = some (result ++ Q) ∧
        Q ≠ [] ∧ joinWith d Q = s.drop prepos ∧ (∀ q ∈ Q, ¬ d <:+: q) := by
  have hdlen : 0 < d.length := List.length_pos.mpr hd
  intro fuel
  induction fuel with
  | zero => intro prepos result _ h; omega
  | succ fuel ih =>
    intro prepos result hle hfuel
    have hsub : ∀ n, string_view.substr s prepos n
        = some (match n with | some n => (s.drop prepos).take n | none => s.drop prepos) := by
      intro n
      unfold string_view.substr
      rw [if_neg (by omega)]
      cases n <;> rfl
    unfold split_string_view_loop
    unfold string_view.find
    rw [if_neg (by omega)]
    cases hf : find_sub_in d (s.drop prepos) with
    | none =>
      have hnot := find_sub_in_none hd hf
      simp only [Option.map_none', hsub]
      refine ⟨[s.drop prepos], rfl, List.cons_ne_nil _ _, rfl, ?_⟩
      intro q hq
      rw [List.mem_singleton.mp hq]
      exact hnot
    | some i =>
      obtain ⟨a, b, e1, e2, e3⟩ := find_sub_in_some hd hf
      have hlen : (s.drop prepos).length = s.length - prepos := List.length_drop _ _
      have hlen2 : (s.drop prepos).length = a.length + d.length + b.length := by
        rw [e1, List.length_append, List.length_append]
      have hpiece : (s.drop prepos).take (i + prepos - prepos) = a := by
        rw [Nat.add_sub_cancel, e1, ← e2, List.append_assoc, List.take_left']
        rfl
      have hrest : s.drop (i + prepos + d.length) = b := by
        have : s.drop (i + prepos + d.length) = (s.drop prepos).drop (i + d.length) := by
          rw [List.drop_drop]
          congr 1
          omega
        rw [this, e1, ← e2]
        exact List.drop_left' (by simp)
      simp only [Option.map_some', hsub, hpiece]
      obtain ⟨Q, q1, q0, q2, q3⟩ := ih (i + prepos + d.length) (result ++ [a])
        (by omega) (by omega)
      rw [hrest] at q2
      refine ⟨a :: Q, ?_, List.cons_ne_nil _ _, ?_, ?_⟩
      · rw [q1, List.append_assoc]
        rfl
      · rw [joinWith_cons_of_ne_nil _ _ q0, q2, e1]
      · intro q hq
        rcases List.mem_cons.mp hq with h | h
        · rw [h]; exact e3
        · exact q3 q h

/-- C32: `split(s, d)` with a string separator.
With an empty separator the call returns the single piece `s`. With a
non-empty separator the call returns, the pieces joined in order with `d`
between neighbours give `s` back, and no piece contains `d` as a
substring. -/
theorem split_string_view_pieces (s d : string_view) :
    (d = [] → split_string_view s d = some [s]) ∧
    (d ≠ [] → ∃ pieces, split_string_view s d = some pieces ∧
      joinWith d pieces = s ∧ ∀ p ∈ pieces, ¬ d <:+: p) := by
  constructor
  · intro h
    subst h
    rfl
  · intro hd
    obtain ⟨Q, q1, _, q2, q3⟩ := split_string_view_loop_spec s d hd (s.length + 1) 0 []
      (Nat.zero_le _) (by omega)
    rw [List.drop_zero] at q2
    rw [List.nil_append] at q1
    refine ⟨Q, ?_, q2, q3⟩
    unfold split_string_view
    rw [if_neg (by simpa using hd)]
    exact q1

/-- Witness of C32: `"aaa"` split at `"aa"` gives the empty piece and `a`,
which join to `"aaa"`. -/
theorem split_string_view_pieces_witness :
    split_string_view "aaa".data "aa".data = some [[], "a".data] ∧
    ∃ pieces, split_string_view "aaa".data "aa".data = some pieces ∧
      joinWith "aa".data pieces = "aaa".data ∧ ∀ p ∈ pieces, ¬ "aa".data <:+: p :=
  ⟨by decide, (split_string_view_pieces "aaa".data "aa".data).2 (by decide)⟩

end sequoia.utils

/-! ## Hexadecimal text of a byte sequence -/

namespace sequoia.utils

theorem hex_nibble_char : ∀ n : Fin 16,
    Char.ofNat ((if n.val < 10 then 48 + n.val else 65 + n.val - 10) % 256)
      = hexDigit n.val := by
  decide

theorem hex_high_char (b : uchar) :
    Char.ofNat ((if b.val >>> 4 < 10 then 48 + b.val >>> 4 else 65 + b.val >>> 4 - 10) % 256)
      = hexDigit (b.val / 16) := by
  have h : b.val >>> 4 = b.val / 16 := Nat.shiftRight_eq_div_pow b.val 4
  rw [h]
  exact hex_nibble_char ⟨b.val / 16, by have := b.isLt; omega⟩

theorem hex_low_char (b : uchar) :
    Char.ofNat ((if b.val &&& 15 < 10 then 48 + (b.val &&& 15) else 65 + (b.val &&& 15) - 10)
        % 256)
      = hexDigit (b.val % 16) := by
  have h : b.val &&& 15 = b.val % 16 := Nat.and_pow_two_sub_one_eq_mod b.val 4
  rw [h]
  exact hex_nibble_char ⟨b.val % 16, Nat.mod_lt _ (by decide)⟩

theorem byteToHex_loop_spec (p : List uchar) :
    ∀ (n i : Nat) (result : List Char), i + n ≤ p.length →
      byteToHex_loop p n i result = some (result ++ hexOfBytes ((p.drop i).take n)) := by
  intro n
  induction n with
  | zero => intro i result _; simp [byteToHex_loop, hexOfBytes]
  | succ n ih =>
    intro i result h
    have hi : i < p.length := by omega
    have hget : p[i]? = some p[i] := List.getElem?_eq_getElem hi
    have hdrop : p.drop i = p[i] :: p.drop (i + 1) := List.drop_eq_getElem_cons hi
    rw [byteToHex_loop, hget]
    simp only
    rw [ih (i + 1) _ (by omega), hdrop, List.take_succ_cons, hexOfBytes, hex_high_char,
      hex_low_char]
    simp

theorem hexOfBytes_length : ∀ l : List uchar, (hexOfBytes l).length = 2 * l.length := by
  intro l
  induction l with
  | nil => rfl
  | cons b rest ih => simp [hexOfBytes, ih]; omega

theorem hexOfBytes_getElem : ∀ (l : List uchar) (i : Nat),
    (hexOfBytes l)[2 * i]? = l[i]?.map (fun b => hexDigit (b.val / 16)) ∧
    (hexOfBytes l)[2 * i + 1]? = l[i]?.map (fun b => hexDigit (b.val % 16)) := by
  intro l
  induction l with
  | nil => intro i; simp [hexOfBytes]
  | cons b rest ih =>
    intro i
    cases i with
    | zero => simp [hexOfBytes]
    | succ j =>
      have e1 : 2 * (j + 1) = (2 * j) + 1 + 1 := by omega
      rw [e1]
      simp only [hexOfBytes, List.getElem?_cons_succ]
      exact ih j

end sequoia.utils

namespace sequoia.utils

/-- C33: `byteToHex(bytes, len)`.
For a pointer giving access to at least `len` bytes the call returns a
string of exactly `2 * len` characters whose characters `2i` and `2i + 1`
are the upper-case hexadecimal digits of the high and the low nibble of
byte `i`; the string-view overload turns the bytes of `"abcd"` into
`"61626364"`. For the null pointer the call returns the empty string
whatever `len` is. -/
theorem byteToHex_text (p : List uchar) (len : Nat) (h : len ≤ p.length) :
    (∃ out, byteToHex (some p) len = some out ∧ out.length = 2 * len ∧
      ∀ i, i < len →
        out[2 * i]? = p[i]?.map (fun b => hexDigit (b.val / 16)) ∧
        out[2 * i + 1]? = p[i]?.map (fun b => hexDigit (b.val % 16))) ∧
    byteToHex_string_view p = some (hexOfBytes p) ∧
    byteToHex_string_view [0x61, 0x62, 0x63, 0x64] = some "61626364".data ∧
    (∀ n, byteToHex none n = some []) := by
  have hloop := byteToHex_loop_spec p len 0 [] (by omega)
  rw [List.drop_zero, List.nil_append] at hloop
  refine ⟨⟨hexOfBytes (p.take len), hloop, ?_, ?_⟩, ?_, by decide, fun _ => rfl⟩
  · rw [hexOfBytes_length, List.length_take, Nat.min_eq_left h]
  · intro i hi
    obtain ⟨e1, e2⟩ := hexOfBytes_getElem (p.take len) i
    rw [e1, e2, List.getElem?_take, if_pos hi]
    exact ⟨rfl, rfl⟩
  · have h2 := byteToHex_loop_spec p p.length 0 [] (by omega)
    rw [List.drop_zero, List.nil_append, List.take_length] at h2
    exact h2

/-- Witness of C33: the first two of the three bytes `AB FF 0C`. -/
theorem byteToHex_text_witness :
    (2 : Nat) ≤ ([0xAB, 0xFF, 0x0C] : List uchar).length ∧
    byteToHex (some [0xAB, 0xFF, 0x0C]) 2 = some "ABFF".data ∧
    ∃ out, byteToHex (some [0xAB, 0xFF, 0x0C]) 2 = some out ∧ out.length = 2 * 2 :=
  ⟨by decide, by decide,
   (byteToHex_text [0xAB, 0xFF, 0x0C] 2 (by decide)).1.imp (fun _ h => ⟨h.1, h.2.1⟩)⟩

end sequoia.utils

/-! ## Trimming a string -/

namespace sequoia.utils

theorem not_whitespace_contains (c : Char) :
    (!whitespace.contains c) = !isWhitespace c := by
  by_cases h1 : c = ' '
  · subst h1; rfl
  by_cases h2 : c = '\t'
  · subst h2; rfl
  by_cases h3 : c = '\n'
  · subst h3; rfl
  by_cases h4 : c = '\r'
  · subst h4; rfl
  simp [whitespace, isWhitespace, h1, h2, h3, h4]

theorem find_if_all (pred : Char → Bool) :
    ∀ l : List Char, (∀ c ∈ l, pred c = false) → find_if pred l = l.length := by
  intro l
  induction l with
  | nil => intro _; rfl
  | cons x rest ih =>
    intro h
    rw [find_if, if_neg (by rw [h x (List.mem_cons_self _ _)]; exact Bool.false_ne_true),
      ih (fun c hc => h c (List.mem_cons_of_mem _ hc))]
    rfl

theorem find_if_append_cons (pred : Char → Bool) (x : Char) (R : List Char)
    (hx : pred x = true) :
    ∀ L : List Char, (∀ c ∈ L, pred c = false) → find_if pred (L ++ x :: R) = L.length := by
  intro L
  induction L with
  | nil => intro _; rw [List.nil_append, find_if, if_pos hx]; rfl
  | cons y rest ih =>
    intro h
    rw [List.cons_append, find_if,
      if_neg (by rw [h y (List.mem_cons_self _ _)]; exact Bool.false_ne_true),
      ih (fun c hc => h c (List.mem_cons_of_mem _ hc))]
    rfl

theorem leading_run (w : Char → Bool) :
    ∀ l : List Char, ∃ L R, l = L ++ R ∧ (∀ c ∈ L, w c = true) ∧
      (R = [] ∨ ∃ x R2, R = x :: R2 ∧ w x = false) := by
  intro l
  induction l with
  | nil => exact ⟨[], [], rfl, by simp, Or.inl rfl⟩
  | cons x rest ih =>
    cases hx : w x with
    | false => exact ⟨[], x :: rest, rfl, by simp, Or.inr ⟨x, rest, rfl, hx⟩⟩
    | true =>
      obtain ⟨L, R, e, hL, hR⟩ := ih
      refine ⟨x :: L, R, by rw [e]; rfl, ?_, hR⟩
      intro c hc
      rcases List.mem_cons.mp hc with h | h
      · rw [h]; exact hx
      · exact hL c h

theorem trailing_run (w : Char → Bool) (l : List Char) :
    ∃ M T, l = M ++ T ∧ (∀ c ∈ T, w c = true) ∧
      (M = [] ∨ ∃ M2 y, M = M2 ++ [y] ∧ w y = false) := by
  obtain ⟨L, R, e, hL, hR⟩ := leading_run w l.reverse
  refine ⟨R.reverse, L.reverse, ?_, ?_, ?_⟩
  · rw [← List.reverse_append, ← e, List.reverse_reverse]
  · intro c hc
    exact hL c (List.mem_reverse.mp hc)
  · rcases hR with h | ⟨x, R2, h, hx⟩
    · left; rw [h]; rfl
    · right
      exact ⟨R2.reverse, x, by rw [h, List.reverse_cons], hx⟩

theorem trim_of_parts (L M2 T : List Char) (x : Char) (hL : ∀ c ∈ L, isWhitespace c = true)
    (hT : ∀ c ∈ T, isWhitespace c = true) (hx : isWhitespace x = false)
    (M3 : List Char) (y : Char) (hM : x :: M2 = M3 ++ [y]) (hy : isWhitespace y = false) :
    trim (L ++ x :: M2 ++ T) = x :: M2 := by
  have hp : ∀ c, (fun c => !whitespace.contains c) c = !isWhitespace c :=
    not_whitespace_contains
  have hfun : (fun c => !whitespace.contains c) = (fun c => !isWhitespace c) := funext hp
  have hne : (L ++ x :: M2 ++ T).isEmpty = false := by
    cases L <;> rfl
  have hfirst : find_if (fun c => !isWhitespace c) (L ++ x :: M2 ++ T) = L.length := by
    rw [List.append_assoc, List.cons_append]
    exact find_if_append_cons _ x _ (by simp [hx]) L (fun c hc => by simp [hL c hc])
  have hrev : (L ++ x :: M2 ++ T).reverse = T.reverse ++ y :: (M3.reverse ++ L.reverse) := by
    rw [List.append_assoc, hM]
    simp
  have hlast : find_if (fun c => !isWhitespace c) (L ++ x :: M2 ++ T).reverse = T.length := by
    rw [hrev, find_if_append_cons _ y _ (by simp [hy]) T.reverse
      (fun c hc => by simp [hT c (List.mem_reverse.mp hc)]), List.length_reverse]
  unfold trim
  rw [hfun]
  simp only [hne, hfirst, hlast, Bool.false_eq_true, if_false]
  rw [if_neg (by simp)]
  have hlen : (L ++ x :: M2 ++ T).length - T.length = (L ++ x :: M2).length := by
    simp only [List.length_append, List.length_cons]
    omega
  rw [hlen, List.take_left', List.drop_left']
  · rfl
  · rfl

theorem trim_of_all_whitespace (s : List Char) (h : ∀ c ∈ s, isWhitespace c = true) :
    trim s = [] := by
  unfold trim
  cases s with
  | nil => rfl
  | cons a r =>
    have hfun : (fun c => !whitespace.contains c) = (fun c => !isWhitespace c) :=
      funext not_whitespace_contains
    rw [hfun]
    have hfirst := find_if_all (fun c => !isWhitespace c) (a :: r)
      (fun c hc => by simp [h c hc])
    simp only [List.isEmpty_cons, Bool.false_eq_true, if_false, hfirst, if_true]

theorem trim_parts (s : List Char) :
    (trim s = [] ∧ ∀ c ∈ s, isWhitespace c = true) ∨
    ∃ L M2 T x M3 y, s = L ++ x :: M2 ++ T ∧ trim s = x :: M2 ∧
      (∀ c ∈ L, isWhitespace c = true) ∧ (∀ c ∈ T, isWhitespace c = true) ∧
      isWhitespace x = false ∧ x :: M2 = M3 ++ [y] ∧ isWhitespace y = false := by
  obtain ⟨L, R, e, hL, hR⟩ := leading_run isWhitespace s
  rcases hR with h | ⟨x, R2, h, hx⟩
  · left
    have hall : ∀ c ∈ s, isWhitespace c = true := by
      rw [e, h, List.append_nil]; exact hL
    exact ⟨trim_of_all_whitespace s hall, hall⟩
  · right
    obtain ⟨M, T, e2, hT, hM⟩ := trailing_run isWhitespace R
    rcases hM with hM | ⟨M3, y, hM, hy⟩
    · exfalso
      have : x ∈ T := by
        rw [hM, List.nil_append] at e2
        rw [← e2, h]
        exact List.mem_cons_self _ _
      rw [hT x this] at hx
      exact Bool.noConfusion hx
    · have hMx : ∃ M2, M = x :: M2 := by
        rw [h] at e2
        cases M with
        | nil => simp at hM
        | cons m M2 =>
          rw [List.cons_append] at e2
          exact ⟨M2, by rw [(List.cons.inj e2).1]⟩
      obtain ⟨M2, hM2⟩ := hMx
      have es : s = L ++ x :: M2 ++ T := by
        rw [e, e2, hM2, List.append_assoc]
      refine ⟨L, M2, T, x, M3, y, es, ?_, hL, hT, hx, by rw [← hM2, hM], hy⟩
      rw [es]
      exact trim_of_parts L M2 T x hL hT hx M3 y (by rw [← hM2, hM]) hy

end sequoia.utils

namespace sequoia.utils

/-- C34: `trim`.
The string left by `trim` is the input without a leading and a trailing run
of characters among space, tab, newline and carriage return, the part
between them unchanged (interior whitespace included); the two runs are
maximal, for the result neither starts nor ends with such a character. A
string of such characters only, the empty string included, becomes empty,
and trimming a trimmed string changes nothing. -/
theorem trim_strips_whitespace (s : List Char) :
    (∃ lead trail, s = lead ++ trim s ++ trail ∧
      (∀ c ∈ lead, isWhitespace c = true) ∧ (∀ c ∈ trail, isWhitespace c = true)) ∧
    (∀ c, (trim s).head? = some c → isWhitespace c = false) ∧
    (∀ c, (trim s).getLast? = some c → isWhitespace c = false) ∧
    ((∀ c ∈ s, isWhitespace c = true) ↔ trim s = []) ∧
    trim (trim s) = trim s := by
  rcases trim_parts s with ⟨h0, hall⟩ | ⟨L, M2, T, x, M3, y, es, ht, hL, hT, hx, hM, hy⟩
  · refine ⟨⟨s, [], by rw [h0]; simp, hall, by simp⟩, ?_, ?_, ⟨fun _ => h0, fun _ => hall⟩, ?_⟩
    · intro c hc; rw [h0] at hc; simp at hc
    · intro c hc; rw [h0] at hc; simp at hc
    · rw [h0]; rfl
  · refine ⟨⟨L, T, by rw [ht]; exact es, hL, hT⟩, ?_, ?_, ⟨?_, ?_⟩, ?_⟩
    · intro c hc
      rw [ht] at hc
      have : x = c := by simpa using hc
      rw [← this]; exact hx
    · intro c hc
      rw [ht, hM] at hc
      have : y = c := by simpa using hc
      rw [← this]; exact hy
    · intro hall
      have hxs : x ∈ s := by rw [es]; simp
      rw [hall x hxs] at hx
      exact Bool.noConfusion hx
    · intro h
      rw [ht] at h
      exact List.noConfusion h
    · rw [ht]
      have := trim_of_parts [] M2 [] x (by simp) (by simp) hx M3 y hM hy
      rw [List.nil_append, List.append_nil] at this
      exact this

/-- Witness of C34: tab, spaces and a newline around `hello  world`. -/
theorem trim_strips_whitespace_witness :
    trim " \t hello  world \n".data = "hello  world".data ∧
    trim (trim " \t hello  world \n".data) = trim " \t hello  world \n".data :=
  ⟨by decide, (trim_strips_whitespace " \t hello  world \n".data).2.2.2.2⟩

end sequoia.utils

/-! ## Decimal text of an `int32_t` and back -/

namespace sequoia.utils

theorem digitChar_spec : ∀ k : Fin 10,
    (Nat.digitChar k.val).isDigit = true ∧ (Nat.digitChar k.val).toNat - 48 = k.val ∧
    isspace (Nat.digitChar k.val) = false ∧ Nat.digitChar k.val ≠ '-' ∧
    Nat.digitChar k.val ≠ '+' := by
  decide

theorem toDigitsCore_spec :
    ∀ (fuel n : Nat) (ds : List Char), n < fuel →
      ∃ L, Nat.toDigitsCore 10 fuel n ds = L ++ ds ∧ L ≠ [] ∧
        (∀ c ∈ L, c.isDigit = true ∧ isspace c = false ∧ c ≠ '-' ∧ c ≠ '+') ∧
        L.foldl (fun acc c => 10 * acc + (c.toNat - 48)) 0 = n := by
  intro fuel
  induction fuel with
  | zero => intro n ds h; omega
  | succ fuel ih =>
    intro n ds h
    have hd := digitChar_spec ⟨n % 10, Nat.mod_lt _ (by decide)⟩
    simp only at hd
    rw [Nat.toDigitsCore]
    by_cases h0 : n / 10 = 0
    · rw [if_pos h0]
      refine ⟨[Nat.digitChar (n % 10)], rfl, List.cons_ne_nil _ _, ?_, ?_⟩
      · intro c hc
        rw [List.mem_singleton.mp hc]
        exact ⟨hd.1, hd.2.2.1, hd.2.2.2.1, hd.2.2.2.2⟩
      · simp only [List.foldl_cons, List.foldl_nil, hd.2.1]
        omega
    · rw [if_neg h0]
      obtain ⟨L, e1, _, e3, e4⟩ := ih (n / 10) (Nat.digitChar (n % 10) :: ds) (by omega)
      refine ⟨L ++ [Nat.digitChar (n % 10)], by rw [e1]; simp, by simp, ?_, ?_⟩
      · intro c hc
        rcases List.mem_append.mp hc with h1 | h1
        · exact e3 c h1
        · rw [List.mem_singleton.mp h1]
          exact ⟨hd.1, hd.2.2.1, hd.2.2.2.1, hd.2.2.2.2⟩
      · rw [List.foldl_append, e4]
        simp only [List.foldl_cons, List.foldl_nil, hd.2.1]
        omega

theorem nat_repr_spec (n : Nat) :
    ∃ c L, (Nat.repr n).data = c :: L ∧
      (∀ x ∈ c :: L, x.isDigit = true ∧ isspace x = false ∧ x ≠ '-' ∧ x ≠ '+') ∧
      (c :: L).foldl (fun acc c => 10 * acc + (c.toNat - 48)) 0 = n := by
  obtain ⟨L, e1, e2, e3, e4⟩ := toDigitsCore_spec (n + 1) n [] (by omega)
  rw [List.append_nil] at e1
  cases L with
  | nil => exact absurd rfl e2
  | cons c L2 =>
    refine ⟨c, L2, ?_, e3, e4⟩
    simp only [Nat.repr, Nat.toDigits, List.asString, e1]

theorem stoll_of_digits (c : Char) (L : List Char)
    (hd : ∀ x ∈ c :: L, x.isDigit = true ∧ isspace x = false ∧ x ≠ '-' ∧ x ≠ '+')
    (n : Nat) (hn : (c :: L).foldl (fun acc c => 10 * acc + (c.toNat - 48)) 0 = n) :
    (∀ h : (n : Int) ≤ 9223372036854775807,
      stoll ⟨c :: L⟩ = .ok ⟨n, by omega, h⟩) ∧
    (∀ h : -9223372036854775808 ≤ -(n : Int),
      stoll ⟨'-' :: c :: L⟩ = .ok ⟨-(n : Int), h, by omega⟩) := by
  have hc := hd c (List.mem_cons_self _ _)
  have htake : (c :: L).takeWhile Char.isDigit = c :: L :=
    List.takeWhile_eq_self_iff.mpr (fun x hx => (hd x hx).1)
  constructor
  · intro h
    unfold stoll
    have h1 : (c :: L).dropWhile isspace = c :: L := by
      rw [List.dropWhile_cons_of_neg (by rw [hc.2.1]; exact Bool.false_ne_true)]
    simp only [h1, List.head?_cons, htake]
    have e1 : (some c == some '-') = false := by simpa using hc.2.2.1
    have e2 : (some c == some '+') = false := by simpa using hc.2.2.2
    simp only [e1, e2, Bool.or_false, Bool.false_eq_true, if_false, htake, hn,
      List.isEmpty_cons]
    rw [dif_pos ⟨by omega, h⟩]
  · intro h
    unfold stoll
    have h1 : ('-' :: c :: L).dropWhile isspace = '-' :: c :: L := by
      rw [List.dropWhile_cons_of_neg (by decide)]
    simp only [h1, List.head?_cons, List.tail_cons]
    have e1 : (some '-' == some '-') = true := by decide
    simp only [e1, Bool.true_or, if_true, htake, hn, List.isEmpty_cons, Bool.false_eq_true,
      if_false]
    rw [dif_pos ⟨h, by omega⟩]

end sequoia.utils

namespace sequoia.utils

theorem static_cast_int_of_int (x : CInt) (v : CInt64) (h : v.val = x.val) :
    static_cast_int v = x := by
  obtain ⟨a, lo, hi⟩ := x
  obtain ⟨b, lo2, hi2⟩ := v
  simp only at h
  subst h
  simp only [static_cast_int, CInt.mk.injEq]
  omega

/-- C37: decimal round trip at `int32_t`.
For every `int32_t` value `x`, `any_to_string<int32_t>` of an erased value
holding `x` returns a string, and `string_to_any<int32_t>` of that string
returns an erased value holding the `int32_t` `x`. -/
theorem int32_decimal_round_trip (x : CInt) :
    ∃ str, any_to_string_int32_t (StdAny.ofInt x) = some str ∧
      string_to_any_int32_t str = .ok (StdAny.ofInt x) ∧
      any_cast .int (StdAny.ofInt x) = some x := by
  refine ⟨std_to_string x.val, rfl, ?_, rfl⟩
  have hlo := x.lo
  have hhi := x.hi
  unfold string_to_any_int32_t std_to_string
  cases hx : x.val with
  | ofNat m =>
    obtain ⟨c, L, e1, e2, e3⟩ := nat_repr_spec m
    have hs : Int.repr (Int.ofNat m) = ⟨c :: L⟩ := String.ext e1
    have hm : (m : Int) ≤ 9223372036854775807 := by
      have : x.val = (m : Int) := hx
      omega
    rw [hs, (stoll_of_digits c L e2 m e3).1 hm]
    simp only
    rw [static_cast_int_of_int x _ hx.symm]
  | negSucc m =>
    obtain ⟨c, L, e1, e2, e3⟩ := nat_repr_spec (m + 1)
    have hs : Int.repr (Int.negSucc m) = ⟨'-' :: c :: L⟩ := by
      apply String.ext
      show ("-" ++ Nat.repr (m + 1)).data = '-' :: c :: L
      rw [String.data_append, e1]
      rfl
    have hval : x.val = -((m + 1 : Nat) : Int) := by rw [hx]; rfl
    have hm : -9223372036854775808 ≤ -((m + 1 : Nat) : Int) := by omega
    rw [hs, (stoll_of_digits c L e2 (m + 1) e3).2 hm]
    simp only
    rw [static_cast_int_of_int x _ hval.symm]

/-- Witness of C37: the value 12345 of the test, and the least `int32_t`. -/
theorem int32_decimal_round_trip_witness :
    any_to_string_int32_t (StdAny.ofInt ⟨12345, by decide, by decide⟩) = some "12345" ∧
    string_to_any_int32_t "12345" = .ok (StdAny.ofInt ⟨12345, by decide, by decide⟩) ∧
    ∃ str, any_to_string_int32_t (StdAny.ofInt ⟨-2147483648, by decide, by decide⟩) = some str ∧
      string_to_any_int32_t str = .ok (StdAny.ofInt ⟨-2147483648, by decide, by decide⟩) :=
  ⟨by decide, by decide,
   (int32_decimal_round_trip ⟨-2147483648, by decide, by decide⟩).imp
     (fun _ h => ⟨h.1, h.2.1⟩)⟩

end sequoia.utils

/-! ## Rounding of `double` values: `roundEx` and `ceilEx` -/

namespace sequoia.utils

set_option maxRecDepth 8000
set_option exponentiation.threshold 4096

/-- C35: `roundEx(v, 0)` next to a half.
At the ties 2.5, 3.5, 4.5, -2.5 and -3.5 the result is the even neighbour 2,
4, 4, -2 and -4. At `v = 0.5000000000000001`, the `double` next above one
half, the result is 0, although `v` is nearer to 1 than to 0 (`1 - v < v`):
`|1 - v|` differs from one half by less than `epsilon`, so the test for a tie
succeeds and `2 * round(v / 2)` is returned. The same happens with the signs
reversed. -/
theorem roundEx_near_half_is_tie :
    roundEx (CDouble.ofBits 4612811918334230528) ⟨0, by decide, by decide⟩
      = some (CDouble.ofBits 4611686018427387904) ∧
    roundEx (CDouble.ofBits 4615063718147915776) ⟨0, by decide, by decide⟩
      = some (CDouble.ofBits 4616189618054758400) ∧
    roundEx (CDouble.ofBits 4616752568008179712) ⟨0, by decide, by decide⟩
      = some (CDouble.ofBits 4616189618054758400) ∧
    roundEx (CDouble.ofBits 13836183955189006336) ⟨0, by decide, by decide⟩
      = some (CDouble.ofBits 13835058055282163712) ∧
    roundEx (CDouble.ofBits 13838435755002691584) ⟨0, by decide, by decide⟩
      = some (CDouble.ofBits 13839561654909534208) ∧
    CDouble.lt (CDouble.sub (CDouble.ofBits 4607182418800017408)
        (CDouble.ofBits 4602678819172646913)) (CDouble.ofBits 4602678819172646913) = true ∧
    CDouble.round (CDouble.ofBits 4602678819172646913) = CDouble.ofBits 4607182418800017408 ∧
    roundEx (CDouble.ofBits 4602678819172646913) ⟨0, by decide, by decide⟩
      = some (CDouble.ofBits 0) ∧
    roundEx (CDouble.ofBits 13826050856027422721) ⟨0, by decide, by decide⟩
      = some (CDouble.ofBits 9223372036854775808) := by
  decide

/-- C36: `ceilEx(v)` just below an integer.
`ceilEx(3.0)` is 4, `ceilEx(0.0)` is 1 and `ceilEx(-3.0)` is -4. At
`v = 0.9999999999999999`, the `double` next below 1, `floor(v)` is 0 but the
result is 2, not 1: `v + 1.0` is halfway between two `double`s and rounds to
2.0 before `std::floor` is applied. The same happens with the signs reversed
(-2 for `-v`) and below 2 (3 for `1.9999999999999998`). -/
theorem ceilEx_below_integer :
    ceilEx (CDouble.ofBits 4613937818241073152) ⟨0, by decide, by decide⟩
      = some (CDouble.ofBits 4616189618054758400) ∧
    ceilEx (CDouble.ofBits 0) ⟨0, by decide, by decide⟩
      = some (CDouble.ofBits 4607182418800017408) ∧
    ceilEx (CDouble.ofBits 13837309855095848960) ⟨0, by decide, by decide⟩
      = some (CDouble.ofBits 13839561654909534208) ∧
    CDouble.floor (CDouble.ofBits 4607182418800017407) = CDouble.ofBits 0 ∧
    CDouble.add (CDouble.ofBits 4607182418800017407) (CDouble.ofBits 4607182418800017408)
      = CDouble.ofBits 4611686018427387904 ∧
    ceilEx (CDouble.ofBits 4607182418800017407) ⟨0, by decide, by decide⟩
      = some (CDouble.ofBits 4611686018427387904) ∧
    ceilEx (CDouble.ofBits 13830554455654793215) ⟨0, by decide, by decide⟩
      = some (CDouble.ofBits 13835058055282163712) ∧
    ceilEx (CDouble.ofBits 4611686018427387903) ⟨0, by decide, by decide⟩
      = some (CDouble.ofBits 4613937818241073152) := by
  decide

end sequoia.utils
